import Mathlib

/-!
Shallow embedding of the rbxl typed-value codec (src/rbxl/values.go and
src/rbxl/arrays.go) and proofs about it.

Modelling conventions:
* a Go byte is a Nat (values produced are < 256 by construction);
* a Go uint32/uint64 is a Nat (explicitly reduced mod 2^32 / 2^64 where the
  source can overflow);
* a Go int32/int64/int16 is an Int (two's-complement wrap-around is written
  as explicit mod-and-shift arithmetic where the source can overflow);
* a Go float32/float64 is represented by its IEEE-754 bit pattern, a Nat
  (the source only ever moves float bits via math.Float32bits /
  math.Float32frombits, which are bit-exact in Go);
* functions returning (T, error) become Except Err T; a Go runtime panic
  (out-of-range slice index) is the distinguished Err.panicked outcome;
* in-place mutation of the input buffer of ValuesFromBytes is made explicit:
  the decoder returns the decoded values together with the final contents of
  the caller-visible input buffer.
-/

namespace Rbxl

/-- Error outcome of a codec operation: an ordinary Go error value, or a
runtime panic (used where the Go code would abort on an out-of-range index). -/
inductive Err where
  | msg (s : String)
  | panicked (s : String)
deriving DecidableEq

/-! ## Byte-level primitives (encoding/binary little- and big-endian) -/

/-- binary.BigEndian.PutUint32: four bytes, most significant first. -/
def u32BE (n : Nat) : List Nat :=
  [n / 16777216 % 256, n / 65536 % 256, n / 256 % 256, n % 256]

/-- binary.BigEndian.Uint32 on a 4-byte buffer (via positional getD). -/
def readU32BE (b : List Nat) : Nat :=
  b.getD 0 0 * 16777216 + b.getD 1 0 * 65536 + b.getD 2 0 * 256 + b.getD 3 0

/-- binary.LittleEndian.PutUint32. -/
def u32LE (n : Nat) : List Nat :=
  [n % 256, n / 256 % 256, n / 65536 % 256, n / 16777216 % 256]

/-- binary.LittleEndian.Uint32 on a 4-byte buffer. -/
def readU32LE (b : List Nat) : Nat :=
  b.getD 0 0 + b.getD 1 0 * 256 + b.getD 2 0 * 65536 + b.getD 3 0 * 16777216

/-- binary.BigEndian.PutUint64. -/
def u64BE (n : Nat) : List Nat :=
  [n / 72057594037927936 % 256, n / 281474976710656 % 256,
   n / 1099511627776 % 256, n / 4294967296 % 256,
   n / 16777216 % 256, n / 65536 % 256, n / 256 % 256, n % 256]

/-- binary.BigEndian.Uint64. -/
def readU64BE (b : List Nat) : Nat :=
  b.getD 0 0 * 72057594037927936 + b.getD 1 0 * 281474976710656 +
  b.getD 2 0 * 1099511627776 + b.getD 3 0 * 4294967296 +
  b.getD 4 0 * 16777216 + b.getD 5 0 * 65536 + b.getD 6 0 * 256 + b.getD 7 0

/-- binary.LittleEndian.PutUint64. -/
def u64LE (n : Nat) : List Nat :=
  [n % 256, n / 256 % 256, n / 65536 % 256, n / 16777216 % 256,
   n / 4294967296 % 256, n / 1099511627776 % 256,
   n / 281474976710656 % 256, n / 72057594037927936 % 256]

/-- binary.LittleEndian.Uint64. -/
def readU64LE (b : List Nat) : Nat :=
  b.getD 0 0 + b.getD 1 0 * 256 + b.getD 2 0 * 65536 + b.getD 3 0 * 16777216 +
  b.getD 4 0 * 4294967296 + b.getD 5 0 * 1099511627776 +
  b.getD 6 0 * 281474976710656 + b.getD 7 0 * 72057594037927936

/-- binary.LittleEndian.PutUint16 applied to uint16(x) for an int16 x:
the two's-complement image of x, least significant byte first. -/
def u16LE (x : Int) : List Nat :=
  [((x % 65536).toNat) % 256, ((x % 65536).toNat) / 256 % 256]

/-- int16(binary.LittleEndian.Uint16(b)): read two bytes little-endian and
reinterpret the uint16 as a signed int16. -/
def readI16LE (b : List Nat) : Int :=
  let u := b.getD 0 0 + b.getD 1 0 * 256
  if u < 32768 then (u : Int) else (u : Int) - 65536

/-! ## Scalar primitives (zigzag, Roblox float) from values.go -/

/-- encodeZigzag32: denotation of uint32((n << 1) ^ (n >> 31)) on an int32 n.
For n ≥ 0 this is 2n; for n < 0 it is -2n-1 (both fit in a uint32 when n is
in int32 range). -/
def encodeZigzag32 (n : Int) : Nat :=
  if 0 ≤ n then (2 * n).toNat else (-2 * n - 1).toNat

/-- decodeZigzag32: denotation of int32((n >> 1) ^ uint32((int32(n&1)<<31)>>31))
on a uint32 n: n/2 when n is even, -1 - n/2 when n is odd. -/
def decodeZigzag32 (n : Nat) : Int :=
  if n % 2 = 0 then (n / 2 : Nat) else -1 - (n / 2 : Nat)

/-- encodeZigzag64, as encodeZigzag32 but for int64. -/
def encodeZigzag64 (n : Int) : Nat :=
  if 0 ≤ n then (2 * n).toNat else (-2 * n - 1).toNat

/-- decodeZigzag64, as decodeZigzag32 but for uint64. -/
def decodeZigzag64 (n : Nat) : Int :=
  if n % 2 = 0 then (n / 2 : Nat) else -1 - (n / 2 : Nat)

/-- encodeRobloxFloat: (n << 1) | (n >> 31) on a uint32 bit pattern n
(sign bit rotated from MSB to LSB). -/
def encodeRobloxFloat (n : Nat) : Nat :=
  ((n * 2) % 4294967296) ||| (n / 2147483648)

/-- decodeRobloxFloat: (n >> 1) | (n << 31) on a uint32 n. -/
def decodeRobloxFloat (n : Nat) : Nat :=
  (n / 2) ||| ((n * 2147483648) % 4294967296)

/-- Two's-complement wrap of an integer into int32 range, the result of Go
int32 arithmetic that may overflow. -/
def wrap32 (x : Int) : Int :=
  (x + 2147483648) % 4294967296 - 2147483648

/-! ## Population count (for the bit-rotation law of claim C9) -/

/-- popCountAux fuel n: fuel-bounded binary popcount; fuel ≥ n suffices. -/
def popCountAux : Nat → Nat → Nat
  | 0, _ => 0
  | fuel + 1, n => if n = 0 then 0 else n % 2 + popCountAux fuel (n / 2)

/-- Number of set bits in the binary representation of n. -/
def popCount (n : Nat) : Nat := popCountAux n n

theorem popCountAux_irrel : ∀ (fuel fuel' n : Nat), n ≤ fuel → n ≤ fuel' →
    popCountAux fuel n = popCountAux fuel' n := by
  intro fuel
  induction fuel with
  | zero =>
    intro fuel' n h1 _
    interval_cases n
    cases fuel' <;> simp [popCountAux]
  | succ f ih =>
    intro fuel' n h1 h2
    cases fuel' with
    | zero =>
      interval_cases n
      simp [popCountAux]
    | succ f' =>
      simp only [popCountAux]
      by_cases hn : n = 0
      · simp [hn]
      · simp only [hn, if_false]
        have : n / 2 ≤ f := by omega
        have : n / 2 ≤ f' := by omega
        rw [ih f' (n / 2) (by omega) (by omega)]

theorem popCount_two_mul_add (bit a : Nat) (hbit : bit < 2) :
    popCount (2 * a + bit) = bit + popCount a := by
  by_cases h0 : 2 * a + bit = 0
  · have ha : a = 0 := by omega
    have hb : bit = 0 := by omega
    simp [ha, hb]
  · unfold popCount
    have h1 : popCountAux (2 * a + bit) (2 * a + bit)
        = (2 * a + bit) % 2 + popCountAux (2 * a + bit - 1) ((2 * a + bit) / 2) := by
      rcases Nat.exists_eq_succ_of_ne_zero h0 with ⟨k, hk⟩
      rw [hk]
      simp only [popCountAux]
      rw [if_neg (by omega)]
      congr 1
    rw [h1]
    have h2 : (2 * a + bit) % 2 = bit := by omega
    have h3 : (2 * a + bit) / 2 = a := by omega
    rw [h2, h3]
    congr 1
    exact popCountAux_irrel _ _ _ (by omega) (le_refl a)

theorem popCount_add_pow_mul : ∀ (k a b : Nat), a < 2 ^ k →
    popCount (a + 2 ^ k * b) = popCount a + popCount b := by
  intro k
  induction k with
  | zero =>
    intro a b ha
    interval_cases a
    simp [popCount, popCountAux]
  | succ k ih =>
    intro a b ha
    have hsplit : a + 2 ^ (k + 1) * b = 2 * (a / 2 + 2 ^ k * b) + a % 2 := by
      have : (2:Nat) ^ (k+1) * b = 2 * (2 ^ k * b) := by ring
      omega
    rw [hsplit, popCount_two_mul_add _ _ (by omega)]
    have ha2 : a / 2 < 2 ^ k := by
      have : (2:Nat) ^ (k+1) = 2 * 2 ^ k := by ring
      omega
    rw [ih _ b ha2]
    have haeq : a = 2 * (a / 2) + a % 2 := by omega
    conv_rhs => rw [haeq]
    rw [popCount_two_mul_add _ _ (by omega)]
    ring

/-! ## Disjoint-bit decomposition of the Roblox-float rotation -/

theorem pow_mul_lor : ∀ (k h l : Nat), l < 2 ^ k → (2 ^ k * h) ||| l = 2 ^ k * h + l := by
  intro k
  induction k with
  | zero =>
    intro h l hl
    interval_cases l
    simp
  | succ k ih =>
    intro h l hl
    have h1 : (2 ^ (k+1) * h : Nat) = Nat.bit false (2 ^ k * h) := by
      simp [Nat.bit_val]
      ring
    have h2 : l = Nat.bit (decide (l % 2 = 1)) (l / 2) := by
      simp only [Nat.bit_val]
      rcases Nat.mod_two_eq_zero_or_one l with h | h <;> simp [h] <;> omega
    rw [h1, h2, Nat.lor_bit]
    have hl2 : l / 2 < 2 ^ k := by
      have : (2:Nat) ^ (k+1) = 2 * 2 ^ k := by ring
      omega
    rw [ih h (l / 2) hl2]
    simp only [Nat.bit_val, Bool.false_or]
    rcases Nat.mod_two_eq_zero_or_one l with h | h <;> simp [h] <;> omega

theorem encodeRobloxFloat_eq (n : Nat) (hn : n < 4294967296) :
    encodeRobloxFloat n = 2 * (n % 2147483648) + n / 2147483648 := by
  unfold encodeRobloxFloat
  have h1 : (n * 2) % 4294967296 = 2 ^ 1 * (n % 2147483648) := by omega
  have h2 : n / 2147483648 < 2 ^ 1 := by omega
  rw [h1, pow_mul_lor 1 _ _ h2]
  norm_num

theorem decodeRobloxFloat_eq (n : Nat) (hn : n < 4294967296) :
    decodeRobloxFloat n = n / 2 + 2147483648 * (n % 2) := by
  unfold decodeRobloxFloat
  have h1 : (n * 2147483648) % 4294967296 = 2 ^ 31 * (n % 2) := by omega
  have h2 : n / 2 < 2 ^ 31 := by omega
  rw [h1, Nat.lor_comm, pow_mul_lor 31 _ _ h2]
  norm_num
  omega

theorem decode_encode_robloxFloat (n : Nat) (hn : n < 4294967296) :
    decodeRobloxFloat (encodeRobloxFloat n) = n := by
  rw [encodeRobloxFloat_eq n hn]
  rw [decodeRobloxFloat_eq _ (by omega)]
  omega

theorem encodeRobloxFloat_lt (n : Nat) (hn : n < 4294967296) :
    encodeRobloxFloat n < 4294967296 := by
  rw [encodeRobloxFloat_eq n hn]
  omega

theorem popCount_encodeRobloxFloat (n : Nat) (hn : n < 4294967296) :
    popCount (encodeRobloxFloat n) = popCount n := by
  rw [encodeRobloxFloat_eq n hn]
  have h1 : 2 * (n % 2147483648) + n / 2147483648
      = (n / 2147483648) + 2 ^ 1 * (n % 2147483648) := by omega
  have h2 : n = (n % 2147483648) + 2 ^ 31 * (n / 2147483648) := by omega
  rw [h1, popCount_add_pow_mul 1 _ _ (by omega)]
  conv_rhs => rw [h2]
  rw [popCount_add_pow_mul 31 _ _ (by omega)]
  ring

/-- IEEE-754 single-precision NaN test on a bit pattern: exponent all ones
and a nonzero mantissa. -/
def isNaN32 (n : Nat) : Bool :=
  decide (n / 8388608 % 256 = 255) && decide (n % 8388608 ≠ 0)

/-! ## Zigzag and wrap round-trip facts -/

theorem decode_encode_zigzag32 (n : Int) (h1 : -2147483648 ≤ n) (h2 : n < 2147483648) :
    decodeZigzag32 (encodeZigzag32 n) = n := by
  unfold encodeZigzag32 decodeZigzag32
  by_cases h : 0 ≤ n
  · rw [if_pos h]
    have : ((2 * n).toNat) % 2 = 0 := by omega
    rw [if_pos this]
    omega
  · rw [if_neg h]
    have : ((-2 * n - 1).toNat) % 2 = 1 := by omega
    rw [if_neg (by omega)]
    omega

theorem encodeZigzag32_lt (n : Int) (h1 : -2147483648 ≤ n) (h2 : n < 2147483648) :
    encodeZigzag32 n < 4294967296 := by
  unfold encodeZigzag32
  split <;> omega

theorem decode_encode_zigzag64 (n : Int)
    (h1 : -9223372036854775808 ≤ n) (h2 : n < 9223372036854775808) :
    decodeZigzag64 (encodeZigzag64 n) = n := by
  unfold encodeZigzag64 decodeZigzag64
  by_cases h : 0 ≤ n
  · rw [if_pos h]
    have : ((2 * n).toNat) % 2 = 0 := by omega
    rw [if_pos this]
    omega
  · rw [if_neg h]
    have : ((-2 * n - 1).toNat) % 2 = 1 := by omega
    rw [if_neg (by omega)]
    omega

theorem encodeZigzag64_lt (n : Int)
    (h1 : -9223372036854775808 ≤ n) (h2 : n < 9223372036854775808) :
    encodeZigzag64 n < 18446744073709551616 := by
  unfold encodeZigzag64
  split <;> omega

theorem wrap32_eq_self (x : Int) (h1 : -2147483648 ≤ x) (h2 : x < 2147483648) :
    wrap32 x = x := by
  unfold wrap32
  omega

theorem wrap32_range (x : Int) : -2147483648 ≤ wrap32 x ∧ wrap32 x < 2147483648 := by
  unfold wrap32
  constructor <;> omega

theorem wrap32_add_wrap32 (a x : Int) : wrap32 (a + wrap32 x) = wrap32 (a + x) := by
  unfold wrap32
  omega

/-! ## Byte round trips -/

theorem readU32BE_u32BE (n : Nat) (h : n < 4294967296) : readU32BE (u32BE n) = n := by
  simp only [u32BE, readU32BE, List.getD_cons_zero, List.getD_cons_succ]
  omega

theorem readU32LE_u32LE (n : Nat) (h : n < 4294967296) : readU32LE (u32LE n) = n := by
  simp only [u32LE, readU32LE, List.getD_cons_zero, List.getD_cons_succ]
  omega

theorem readU64BE_u64BE (n : Nat) (h : n < 18446744073709551616) :
    readU64BE (u64BE n) = n := by
  simp only [u64BE, readU64BE, List.getD_cons_zero, List.getD_cons_succ]
  omega

theorem readU64LE_u64LE (n : Nat) (h : n < 18446744073709551616) :
    readU64LE (u64LE n) = n := by
  simp only [u64LE, readU64LE, List.getD_cons_zero, List.getD_cons_succ]
  omega

theorem readI16LE_u16LE (x : Int) (h1 : -32768 ≤ x) (h2 : x < 32768) :
    readI16LE (u16LE x) = x := by
  simp only [u16LE, readI16LE, List.getD_cons_zero, List.getD_cons_succ]
  split <;> omega

theorem length_u32BE (n : Nat) : (u32BE n).length = 4 := rfl

theorem length_u32LE (n : Nat) : (u32LE n).length = 4 := rfl

theorem length_u64BE (n : Nat) : (u64BE n).length = 8 := rfl

theorem length_u64LE (n : Nat) : (u64LE n).length = 8 := rfl

theorem length_u16LE (x : Int) : (u16LE x).length = 2 := rfl

/-! ## The interleave primitive (arrays.go) -/

/-- One in-place swap of the bytes at positions i and j, as done by the
square branch of interleave. -/
def swapAt (b : List Nat) (i j : Nat) : List Nat :=
  (b.set i (b.getD j 0)).set j (b.getD i 0)

/-- Left fold of swapAt over a list of index pairs: the nested swap loop of
the square branch of interleave. -/
def applySwaps (ps : List (Nat × Nat)) (b : List Nat) : List Nat :=
  ps.foldl (fun acc p => swapAt acc p.1 p.2) b

/-- Index pairs visited by the square branch: for r in [0,n), for c in [0,r),
swap positions r*n+c and c*n+r. -/
def swapsOf (n : Nat) : List (Nat × Nat) :=
  ((List.range n).map (fun r => (List.range r).map (fun c => (r * n + c, c * n + r)))).flatten

/-- The rectangular scratch-buffer branch of interleave: the output element
at index c*rows+r is the input element at index r*cols+c, i.e. output index j
draws from input index (j % rows) * cols + j / rows. -/
def transpose (cols rows : Nat) (b : List Nat) : List Nat :=
  (List.range (cols * rows)).map (fun j => b.getD ((j % rows) * cols + j / rows) 0)

/-- interleave(bytes, length) from arrays.go. The source mutates in place and
returns only an error; here the transformed buffer is returned. The Go guard
length <= 0 is the guard length = 0 on Nat. -/
def interleave (bytes : List Nat) (length : Nat) : Except Err (List Nat) :=
  if length = 0 then .error (.msg "length must be greater than 0")
  else if bytes.length % length ≠ 0 then .error (.msg "length must be a divisor of array length")
  else
    let cols := length
    let rows := bytes.length / length
    if rows = cols then .ok (applySwaps (swapsOf rows) bytes)
    else .ok (transpose cols rows bytes)

/-- deinterleave(bytes, size) from arrays.go: after its own guards it is
interleave(bytes, len(bytes)/size). -/
def deinterleave (bytes : List Nat) (size : Nat) : Except Err (List Nat) :=
  if size = 0 then .error (.msg "size must be greater than 0")
  else if bytes.length % size ≠ 0 then .error (.msg "size must be a divisor of array length")
  else interleave bytes (bytes.length / size)

/-! ## Correctness of the interleave primitive -/

theorem getD_eq_dite (l : List Nat) (k : Nat) :
    l.getD k 0 = if h : k < l.length then l[k] else 0 := by
  split
  · next h => rw [List.getD_eq_getElem?_getD, List.getElem?_eq_getElem h, Option.getD_some]
  · next h =>
    rw [List.getD_eq_getElem?_getD, List.getElem?_eq_none (by omega), Option.getD_none]

theorem length_swapAt (b : List Nat) (i j : Nat) : (swapAt b i j).length = b.length := by
  simp [swapAt]

theorem length_applySwaps : ∀ (ps : List (Nat × Nat)) (b : List Nat),
    (applySwaps ps b).length = b.length := by
  intro ps
  induction ps with
  | nil => intro b; rfl
  | cons p rest ih =>
    intro b
    show (applySwaps rest (swapAt b p.1 p.2)).length = b.length
    rw [ih, length_swapAt]

theorem getD_swapAt_ne (b : List Nat) (i j k : Nat) (hki : k ≠ i) (hkj : k ≠ j) :
    (swapAt b i j).getD k 0 = b.getD k 0 := by
  rw [getD_eq_dite, getD_eq_dite]
  simp only [swapAt, List.length_set]
  split
  · rw [List.getElem_set_ne (by omega), List.getElem_set_ne (by omega)]
  · rfl

theorem getD_swapAt_fst (b : List Nat) (i j : Nat) (hij : i ≠ j) (hi : i < b.length)
    (hj : j < b.length) : (swapAt b i j).getD i 0 = b.getD j 0 := by
  rw [getD_eq_dite, getD_eq_dite]
  simp only [swapAt, List.length_set]
  rw [dif_pos hi, dif_pos hj]
  rw [List.getElem_set_ne (by omega), List.getElem_set_self (by simpa using hi)]
  rw [getD_eq_dite, dif_pos hj]

theorem getD_swapAt_snd (b : List Nat) (i j : Nat) (hi : i < b.length)
    (hj : j < b.length) : (swapAt b i j).getD j 0 = b.getD i 0 := by
  rw [getD_eq_dite, getD_eq_dite]
  simp only [swapAt, List.length_set]
  rw [dif_pos hj, dif_pos hi]
  rw [List.getElem_set_self (by simpa using hj)]
  rw [getD_eq_dite, dif_pos hi]

/-- k is one of the indices touched by the swap list ps. -/
def Mentions (ps : List (Nat × Nat)) (k : Nat) : Prop :=
  ∃ p ∈ ps, p.1 = k ∨ p.2 = k

theorem applySwaps_not_mentioned : ∀ (ps : List (Nat × Nat)) (b : List Nat) (k : Nat),
    ¬ Mentions ps k → (applySwaps ps b).getD k 0 = b.getD k 0 := by
  intro ps
  induction ps with
  | nil => intro b k _; rfl
  | cons p rest ih =>
    intro b k hk
    show (applySwaps rest (swapAt b p.1 p.2)).getD k 0 = b.getD k 0
    have h1 : ¬ Mentions rest k := by
      intro ⟨q, hq, hqk⟩
      exact hk ⟨q, List.mem_cons_of_mem _ hq, hqk⟩
    have h2 : k ≠ p.1 := by
      intro h
      exact hk ⟨p, List.mem_cons_self _ _, Or.inl h.symm⟩
    have h3 : k ≠ p.2 := by
      intro h
      exact hk ⟨p, List.mem_cons_self _ _, Or.inr h.symm⟩
    rw [ih _ _ h1, getD_swapAt_ne _ _ _ _ h2 h3]

/-- Index-disjointness of two swap pairs. -/
def DisjPair (p q : Nat × Nat) : Prop :=
  p.1 ≠ q.1 ∧ p.1 ≠ q.2 ∧ p.2 ≠ q.1 ∧ p.2 ≠ q.2

theorem applySwaps_mem : ∀ (ps : List (Nat × Nat)) (b : List Nat) (a c : Nat),
    List.Pairwise DisjPair ps → (a, c) ∈ ps → a ≠ c → a < b.length → c < b.length →
    (applySwaps ps b).getD a 0 = b.getD c 0 ∧ (applySwaps ps b).getD c 0 = b.getD a 0 := by
  intro ps
  induction ps with
  | nil => intro b a c _ hmem; cases hmem
  | cons p rest ih =>
    intro b a c hpw hmem hac ha hc
    have hpw1 : List.Pairwise DisjPair rest := (List.pairwise_cons.mp hpw).2
    have hpwh : ∀ q ∈ rest, DisjPair p q := (List.pairwise_cons.mp hpw).1
    rcases List.mem_cons.mp hmem with heq | hmem'
    · subst heq
      show (applySwaps rest (swapAt b a c)).getD a 0 = b.getD c 0 ∧
        (applySwaps rest (swapAt b a c)).getD c 0 = b.getD a 0
      have hna : ¬ Mentions rest a := by
        rintro ⟨⟨q1, q2⟩, hq, hqa⟩
        have hd := hpwh (q1, q2) hq
        have y1 : a ≠ q1 := hd.1
        have y2 : a ≠ q2 := hd.2.1
        rcases hqa with h | h
        · exact y1 h.symm
        · exact y2 h.symm
      have hnc : ¬ Mentions rest c := by
        rintro ⟨⟨q1, q2⟩, hq, hqc⟩
        have hd := hpwh (q1, q2) hq
        have y3 : c ≠ q1 := hd.2.2.1
        have y4 : c ≠ q2 := hd.2.2.2
        rcases hqc with h | h
        · exact y3 h.symm
        · exact y4 h.symm
      rw [applySwaps_not_mentioned _ _ _ hna, applySwaps_not_mentioned _ _ _ hnc]
      exact ⟨getD_swapAt_fst b a c hac ha hc, getD_swapAt_snd b a c ha hc⟩
    · show (applySwaps rest (swapAt b p.1 p.2)).getD a 0 = b.getD c 0 ∧
        (applySwaps rest (swapAt b p.1 p.2)).getD c 0 = b.getD a 0
      have hd := hpwh (a, c) hmem'
      have x1 : p.1 ≠ a := hd.1
      have x2 : p.1 ≠ c := hd.2.1
      have x3 : p.2 ≠ a := hd.2.2.1
      have x4 : p.2 ≠ c := hd.2.2.2
      have hlen : (swapAt b p.1 p.2).length = b.length := length_swapAt b p.1 p.2
      have := ih (swapAt b p.1 p.2) a c hpw1 hmem' hac (by omega) (by omega)
      rw [getD_swapAt_ne b p.1 p.2 a (Ne.symm x1) (Ne.symm x3),
        getD_swapAt_ne b p.1 p.2 c (Ne.symm x2) (Ne.symm x4)] at this
      exact this

theorem rowcol_inj (n r c r' c' : Nat) (hc : c < n) (hc' : c' < n)
    (h : r * n + c = r' * n + c') : r = r' ∧ c = c' := by
  have hn : 0 < n := by omega
  have h1 : (r * n + c) / n = r + c / n := by
    rw [Nat.mul_comm r n, Nat.mul_add_div hn]
  have h2 : (r' * n + c') / n = r' + c' / n := by
    rw [Nat.mul_comm r' n, Nat.mul_add_div hn]
  have h3 : c / n = 0 := Nat.div_eq_of_lt hc
  have h4 : c' / n = 0 := Nat.div_eq_of_lt hc'
  have h5 : r = r' := by
    rw [h] at h1
    omega
  subst h5
  exact ⟨rfl, by omega⟩

theorem idx_lt (n r c : Nat) (hr : r < n) (hc : c < n) : r * n + c < n * n := by
  have h1 : r * n + c < (r + 1) * n := by
    have : (r + 1) * n = r * n + n := by ring
    omega
  have h2 : (r + 1) * n ≤ n * n := Nat.mul_le_mul_right n hr
  omega

theorem idx_lt' (s m r c : Nat) (hr : r < s) (hc : c < m) : r * m + c < s * m := by
  have h1 : r * m + c < (r + 1) * m := by
    have : (r + 1) * m = r * m + m := by ring
    omega
  have h2 : (r + 1) * m ≤ s * m := Nat.mul_le_mul_right m hr
  omega

theorem mem_swapsOf (n : Nat) (p : Nat × Nat) :
    p ∈ swapsOf n ↔ ∃ r c, r < n ∧ c < r ∧ p = (r * n + c, c * n + r) := by
  simp only [swapsOf, List.mem_flatten, List.mem_map, List.mem_range]
  constructor
  · rintro ⟨l, ⟨r, hr, rfl⟩, hp⟩
    rcases List.mem_map.mp hp with ⟨c, hc, rfl⟩
    exact ⟨r, c, hr, List.mem_range.mp hc, rfl⟩
  · rintro ⟨r, c, hr, hc, rfl⟩
    exact ⟨_, ⟨r, hr, rfl⟩, List.mem_map.mpr ⟨c, List.mem_range.mpr hc, rfl⟩⟩

theorem disj_of_params (n r c r' c' : Nat) (hr : r < n) (hc : c < r) (hr' : r' < n)
    (hc' : c' < r') (hne : (r, c) ≠ (r', c')) :
    DisjPair (r * n + c, c * n + r) (r' * n + c', c' * n + r') := by
  have hcn : c < n := by omega
  have hcn' : c' < n := by omega
  refine ⟨?_, ?_, ?_, ?_⟩
  · intro h
    rcases rowcol_inj n r c r' c' hcn hcn' h with ⟨h1, h2⟩
    exact hne (by simp [h1, h2])
  · intro h
    rcases rowcol_inj n r c c' r' hcn hr' h with ⟨h1, h2⟩
    omega
  · intro h
    rcases rowcol_inj n c r r' c' hr hcn' h with ⟨h1, h2⟩
    omega
  · intro h
    rcases rowcol_inj n c r c' r' hr hr' h with ⟨h1, h2⟩
    exact hne (by rw [h2, h1])

theorem pairwise_swapsOf (n : Nat) : List.Pairwise DisjPair (swapsOf n) := by
  unfold swapsOf
  rw [List.pairwise_join]
  constructor
  · intro l hl
    rcases List.mem_map.mp hl with ⟨r, hr, rfl⟩
    have hrn : r < n := List.mem_range.mp hr
    rw [List.pairwise_map, List.pairwise_iff_getElem]
    intro i j hi hj hij
    simp only [List.length_range] at hi hj
    simp only [List.getElem_range]
    exact disj_of_params n r i r j hrn (by omega) hrn (by omega) (by simp; omega)
  · rw [List.pairwise_iff_getElem]
    intro i j hi hj hij
    simp only [List.length_map, List.length_range] at hi hj
    simp only [List.getElem_map, List.getElem_range]
    intro x hx y hy
    rcases List.mem_map.mp hx with ⟨c, hc, rfl⟩
    rcases List.mem_map.mp hy with ⟨c', hc', rfl⟩
    have hcc : c < i := List.mem_range.mp hc
    have hcc' : c' < j := List.mem_range.mp hc'
    exact disj_of_params n i c j c' hi hcc hj hcc' (by simp; omega)

theorem length_transpose (cols rows : Nat) (b : List Nat) :
    (transpose cols rows b).length = cols * rows := by
  simp [transpose]

theorem getElem_transpose (cols rows : Nat) (b : List Nat) (j : Nat)
    (hj : j < (transpose cols rows b).length) :
    (transpose cols rows b)[j] = b.getD ((j % rows) * cols + j / rows) 0 := by
  simp [transpose]

/-- The two branches of interleave agree on square buffers: the in-place
swap pass computes the same transposition as the scratch-buffer index map. -/
theorem applySwaps_swapsOf_eq_transpose (n : Nat) (b : List Nat) (hb : b.length = n * n) :
    applySwaps (swapsOf n) b = transpose n n b := by
  apply List.ext_getElem
  · rw [length_applySwaps, length_transpose, hb]
  intro i h1 h2
  rw [length_applySwaps, hb] at h1
  have hn : 0 < n := by
    rcases Nat.eq_zero_or_pos n with h | h
    · subst h
      simp at h1
    · exact h
  have hirc : (i / n) * n + i % n = i := by
    rw [Nat.mul_comm (i / n) n]
    exact Nat.div_add_mod i n
  have hrn : i / n < n := Nat.div_lt_of_lt_mul h1
  have hcn : i % n < n := Nat.mod_lt i hn
  rw [getElem_transpose]
  have hgoal : (applySwaps (swapsOf n) b)[i] = (applySwaps (swapsOf n) b).getD i 0 := by
    rw [getD_eq_dite, dif_pos (by rw [length_applySwaps, hb]; omega)]
  rw [hgoal]
  rcases Nat.lt_trichotomy (i % n) (i / n) with hlt | heq | hgt
  · -- c < r: the pair (i, c*n+r) is in the swap list
    have hpmem : ((i / n) * n + i % n, (i % n) * n + i / n) ∈ swapsOf n :=
      (mem_swapsOf n _).mpr ⟨i / n, i % n, hrn, hlt, rfl⟩
    rw [hirc] at hpmem
    have hne : i ≠ (i % n) * n + i / n := by
      intro h
      have h' : (i / n) * n + i % n = (i % n) * n + i / n := hirc.trans h
      rcases rowcol_inj n (i / n) (i % n) (i % n) (i / n) hcn hrn h' with ⟨h2, _⟩
      omega
    have := applySwaps_mem (swapsOf n) b i ((i % n) * n + i / n) (pairwise_swapsOf n)
      hpmem hne (by omega) (by rw [hb]; exact idx_lt n (i % n) (i / n) hcn hrn)
    exact this.1
  · -- diagonal: untouched
    have hnm : ¬ Mentions (swapsOf n) i := by
      intro ⟨p, hp, hpi⟩
      rcases (mem_swapsOf n p).mp hp with ⟨r, c, hr, hc, rfl⟩
      rcases hpi with h | h
      · simp only at h
        have h'' : r * n + c = (i / n) * n + i % n := h.trans hirc.symm
        rcases rowcol_inj n r c (i / n) (i % n) (by omega) hcn h'' with ⟨h2, h3⟩
        omega
      · simp only at h
        have h'' : c * n + r = (i / n) * n + i % n := h.trans hirc.symm
        rcases rowcol_inj n c r (i / n) (i % n) hr hcn h'' with ⟨h2, h3⟩
        omega
    rw [applySwaps_not_mentioned _ _ _ hnm]
    have e : (i % n) * n + i / n = (i / n) * n + i % n := by rw [heq]
    rw [e, hirc]
  · -- r < c: the pair (c*n+r, i) is in the swap list
    have hpmem : ((i % n) * n + i / n, (i / n) * n + i % n) ∈ swapsOf n :=
      (mem_swapsOf n _).mpr ⟨i % n, i / n, hcn, hgt, rfl⟩
    rw [hirc] at hpmem
    have hne : (i % n) * n + i / n ≠ i := by
      intro h
      have h' : (i % n) * n + i / n = (i / n) * n + i % n := h.trans hirc.symm
      rcases rowcol_inj n (i % n) (i / n) (i / n) (i % n) hrn hcn h' with ⟨h2, _⟩
      omega
    have := applySwaps_mem (swapsOf n) b ((i % n) * n + i / n) i (pairwise_swapsOf n)
      hpmem hne (by rw [hb]; exact idx_lt n (i % n) (i / n) hcn hrn) (by omega)
    exact this.2

/-- Under its guards, interleave computes the transpose index map
(using the bridge through the square branch where rows = cols). -/
theorem interleave_eq_transpose (b : List Nat) (s : Nat) (h0 : s ≠ 0)
    (h1 : b.length % s = 0) : interleave b s = .ok (transpose s (b.length / s) b) := by
  unfold interleave
  rw [if_neg h0, if_neg (by omega)]
  simp only
  split
  · next heq =>
    rw [heq]
    have hbl : b.length = s * s := by
      have hd := Nat.div_add_mod b.length s
      rw [heq] at hd
      omega
    exact congrArg Except.ok (applySwaps_swapsOf_eq_transpose s b hbl)
  · rfl

theorem transpose_transpose (s m : Nat) (b : List Nat) (hb : b.length = s * m) :
    transpose m s (transpose s m b) = b := by
  apply List.ext_getElem
  · rw [length_transpose, hb]
    ring
  intro i h1 h2
  rw [length_transpose] at h1
  have hs : 0 < s := by
    rcases Nat.eq_zero_or_pos s with h | h
    · subst h
      simp at h1
    · exact h
  have hm : 0 < m := by
    rcases Nat.eq_zero_or_pos m with h | h
    · subst h
      simp at h1
    · exact h
  rw [getElem_transpose]
  have his : i % s < s := Nat.mod_lt i hs
  have him : i / s < m := Nat.div_lt_of_lt_mul (by rw [Nat.mul_comm s m]; exact h1)
  have hj : (i % s) * m + i / s < s * m := idx_lt' s m (i % s) (i / s) his him
  rw [getD_eq_dite, dif_pos (by rw [length_transpose]; exact hj)]
  rw [getElem_transpose]
  have e1 : ((i % s) * m + i / s) % m = i / s := by
    rw [Nat.mul_comm (i % s) m, Nat.mul_add_mod m (i % s) (i / s), Nat.mod_eq_of_lt him]
  have e2 : ((i % s) * m + i / s) / m = i % s := by
    rw [Nat.mul_comm (i % s) m, Nat.mul_add_div hm, Nat.div_eq_of_lt him, Nat.add_zero]
  have hi2 : (i / s) * s + i % s = i := by
    rw [Nat.mul_comm (i / s) s]
    exact Nat.div_add_mod i s
  rw [e1, e2, hi2]
  have hilen : i < b.length := by
    rw [hb, Nat.mul_comm s m]
    exact h1
  rw [getD_eq_dite, dif_pos hilen]

theorem deinterleave_transpose (b : List Nat) (s m : Nat) (hb : b.length = s * m)
    (hs : s ≠ 0) (hm : m ≠ 0) : deinterleave (transpose s m b) s = .ok b := by
  have hlen : (transpose s m b).length = s * m := length_transpose s m b
  unfold deinterleave
  rw [if_neg hs]
  have hmod : (transpose s m b).length % s = 0 := by
    rw [hlen, Nat.mul_mod_right]
  rw [if_neg (by omega)]
  have hdiv : (transpose s m b).length / s = m := by
    rw [hlen, Nat.mul_div_cancel_left m (by omega)]
  rw [hdiv]
  have hmod2 : (transpose s m b).length % m = 0 := by
    rw [hlen, Nat.mul_comm s m, Nat.mul_mod_right]
  rw [interleave_eq_transpose _ _ hm hmod2]
  have hdiv2 : (transpose s m b).length / m = s := by
    rw [hlen, Nat.mul_comm s m, Nat.mul_div_cancel_left s (by omega)]
  rw [hdiv2, transpose_transpose s m b hb]

theorem interleave_then_deinterleave (b : List Nat) (s : Nat) (h0 : s ≠ 0)
    (h1 : b.length % s = 0) (h2 : b ≠ []) :
    (interleave b s).bind (fun x => deinterleave x s) = .ok b := by
  rw [interleave_eq_transpose b s h0 h1]
  show deinterleave (transpose s (b.length / s) b) s = .ok b
  have hlb : b.length ≠ 0 := by
    intro h
    exact h2 (List.eq_nil_of_length_eq_zero h)
  have hm : b.length / s ≠ 0 := by
    intro h
    have := Nat.div_add_mod b.length s
    rw [h] at this
    omega
  apply deinterleave_transpose b s (b.length / s)
    (by have := Nat.div_add_mod b.length s; omega) h0 hm

theorem interleave_involution (b : List Nat) (s : Nat) (h0 : s ≠ 0)
    (h1 : b.length % s = 0) (h2 : s = b.length / s) :
    (interleave b s).bind (fun x => interleave x s) = .ok b := by
  have hb : b.length = s * s := by
    have := Nat.div_add_mod b.length s
    rw [← h2] at this
    omega
  rw [interleave_eq_transpose b s h0 h1]
  show interleave (transpose s (b.length / s) b) s = .ok b
  rw [← h2]
  have hlen : (transpose s s b).length = s * s := length_transpose s s b
  have hmod : (transpose s s b).length % s = 0 := by
    rw [hlen, Nat.mul_mod_right]
  rw [interleave_eq_transpose _ s h0 hmod]
  have hdiv : (transpose s s b).length / s = s := by
    rw [hlen, Nat.mul_div_cancel_left s (by omega)]
  rw [hdiv, transpose_transpose s s b hb]

/-! ## Type tags (values.go) -/

abbrev typeString : Nat := 0x1
abbrev typeBool : Nat := 0x2
abbrev typeInt : Nat := 0x3
abbrev typeFloat : Nat := 0x4
abbrev typeDouble : Nat := 0x5
abbrev typeUDim : Nat := 0x6
abbrev typeUDim2 : Nat := 0x7
abbrev typeRay : Nat := 0x8
abbrev typeFaces : Nat := 0x9
abbrev typeAxes : Nat := 0xA
abbrev typeBrickColor : Nat := 0xB
abbrev typeColor3 : Nat := 0xC
abbrev typeVector2 : Nat := 0xD
abbrev typeVector3 : Nat := 0xE
abbrev typeVector2int16 : Nat := 0xF
abbrev typeCFrame : Nat := 0x10
abbrev typeToken : Nat := 0x12
abbrev typeReference : Nat := 0x13
abbrev typeVector3int16 : Nat := 0x14
abbrev typeNumberSequence : Nat := 0x15
abbrev typeColorSequence : Nat := 0x16
abbrev typeNumberRange : Nat := 0x17
abbrev typeRect2D : Nat := 0x18
abbrev typePhysicalProperties : Nat := 0x19
abbrev typeColor3uint8 : Nat := 0x1A
abbrev typeInt64 : Nat := 0x1B
abbrev typeSharedString : Nat := 0x1C

/-- Type.Valid(): TypeString <= t <= TypeSharedString and t != 0x11. -/
def validType (t : Nat) : Bool :=
  decide (1 ≤ t) && decide (t ≤ 0x1C) && decide (t ≠ 0x11)

/-! ## The value taxonomy (values.go) -/

/-- A Vector3 payload: the f32 bit patterns of X, Y, Z. -/
structure Vec3 where
  x : Nat
  y : Nat
  z : Nat
deriving DecidableEq

/-- NumberSequence keypoint: f32 bit patterns of Time, Value, Envelope. -/
structure NSK where
  time : Nat
  val : Nat
  env : Nat
deriving DecidableEq

/-- ColorSequence keypoint: f32 bit patterns of Time, R, G, B, Envelope. -/
structure CSK where
  time : Nat
  r : Nat
  g : Nat
  b : Nat
  env : Nat
deriving DecidableEq

/-- The tagged value variants of values.go. Numeric payloads follow the
modelling conventions in the file header (floats as bit patterns, signed
machine integers as Int). -/
inductive Value where
  | str (s : List Nat)
  | bool (b : Bool)
  | int (n : Int)
  | float (f : Nat)
  | double (d : Nat)
  | udim (scale : Nat) (offset : Int)
  | udim2 (scaleX scaleY : Nat) (offsetX offsetY : Int)
  | ray (ox oy oz dx dy dz : Nat)
  | faces (right top back left bottom front : Bool)
  | axes (x y z : Bool)
  | brickColor (n : Nat)
  | color3 (r g b : Nat)
  | vector2 (x y : Nat)
  | vector3 (x y z : Nat)
  | vector2int16 (x y : Int)
  | cframe (special : Nat) (rotation : List Nat) (position : Vec3)
  | token (n : Nat)
  | reference (n : Int)
  | vector3int16 (x y z : Int)
  | numberSequence (ks : List NSK)
  | colorSequence (ks : List CSK)
  | numberRange (lo hi : Nat)
  | rect2d (minX minY maxX maxY : Nat)
  | physicalProperties (customPhysics : Nat)
      (density friction elasticity frictionWeight elasticityWeight : Nat)
  | color3uint8 (r g b : Nat)
  | int64 (n : Int)
  | sharedString (n : Nat)
deriving DecidableEq

/-- Value.Type() of each variant. -/
def ty : Value → Nat
  | .str _ => typeString
  | .bool _ => typeBool
  | .int _ => typeInt
  | .float _ => typeFloat
  | .double _ => typeDouble
  | .udim _ _ => typeUDim
  | .udim2 _ _ _ _ => typeUDim2
  | .ray _ _ _ _ _ _ => typeRay
  | .faces _ _ _ _ _ _ => typeFaces
  | .axes _ _ _ => typeAxes
  | .brickColor _ => typeBrickColor
  | .color3 _ _ _ => typeColor3
  | .vector2 _ _ => typeVector2
  | .vector3 _ _ _ => typeVector3
  | .vector2int16 _ _ => typeVector2int16
  | .cframe _ _ _ => typeCFrame
  | .token _ => typeToken
  | .reference _ => typeReference
  | .vector3int16 _ _ _ => typeVector3int16
  | .numberSequence _ => typeNumberSequence
  | .colorSequence _ => typeColorSequence
  | .numberRange _ _ => typeNumberRange
  | .rect2d _ _ _ _ => typeRect2D
  | .physicalProperties _ _ _ _ _ _ => typePhysicalProperties
  | .color3uint8 _ _ _ => typeColor3uint8
  | .int64 _ => typeInt64
  | .sharedString _ => typeSharedString

/-- ValueVector3.Bytes(): three Roblox-float fields, big-endian each. -/
def vec3Bytes (p : Vec3) : List Nat :=
  u32BE (encodeRobloxFloat p.x) ++ u32BE (encodeRobloxFloat p.y) ++
    u32BE (encodeRobloxFloat p.z)

/-- Value.Bytes() of each variant, following the per-type Bytes methods of
values.go. -/
def bytesOf : Value → List Nat
  | .str s => u32LE s.length ++ s
  | .bool b => [if b then 1 else 0]
  | .int n => u32BE (encodeZigzag32 n)
  | .float f => u32BE (encodeRobloxFloat f)
  | .double d => u64LE d
  | .udim sc off => u32BE (encodeRobloxFloat sc) ++ u32BE (encodeZigzag32 off)
  | .udim2 sx sy ox oy =>
      u32BE (encodeRobloxFloat sx) ++ u32BE (encodeRobloxFloat sy) ++
        u32BE (encodeZigzag32 ox) ++ u32BE (encodeZigzag32 oy)
  | .ray ox oy oz dx dy dz =>
      u32LE ox ++ u32LE oy ++ u32LE oz ++ u32LE dx ++ u32LE dy ++ u32LE dz
  | .faces r t bk l bt f =>
      [(if r then 1 else 0) + (if t then 2 else 0) + (if bk then 4 else 0) +
        (if l then 8 else 0) + (if bt then 16 else 0) + (if f then 32 else 0)]
  | .axes x y z =>
      [(if x then 1 else 0) + (if y then 2 else 0) + (if z then 4 else 0)]
  | .brickColor n => u32BE n
  | .color3 r g b =>
      u32BE (encodeRobloxFloat r) ++ u32BE (encodeRobloxFloat g) ++
        u32BE (encodeRobloxFloat b)
  | .vector2 x y => u32BE (encodeRobloxFloat x) ++ u32BE (encodeRobloxFloat y)
  | .vector3 x y z =>
      u32BE (encodeRobloxFloat x) ++ u32BE (encodeRobloxFloat y) ++
        u32BE (encodeRobloxFloat z)
  | .vector2int16 x y => u16LE x ++ u16LE y
  | .cframe sp rot pos =>
      if sp = 0 then 0 :: ((rot.map u32LE).flatten ++ vec3Bytes pos)
      else sp :: vec3Bytes pos
  | .token n => u32BE n
  | .reference n => u32BE (encodeZigzag32 n)
  | .vector3int16 x y z => u16LE x ++ u16LE y ++ u16LE z
  | .numberSequence ks =>
      u32LE ks.length ++
        (ks.map (fun k => u32LE k.time ++ u32LE k.val ++ u32LE k.env)).flatten
  | .colorSequence ks =>
      u32LE ks.length ++
        (ks.map (fun k => u32LE k.time ++ u32LE k.r ++ u32LE k.g ++ u32LE k.b ++
          u32LE k.env)).flatten
  | .numberRange lo hi => u32LE lo ++ u32LE hi
  | .rect2d mnx mny mxx mxy =>
      u32BE (encodeRobloxFloat mnx) ++ u32BE (encodeRobloxFloat mny) ++
        u32BE (encodeRobloxFloat mxx) ++ u32BE (encodeRobloxFloat mxy)
  | .physicalProperties c d f e fw ew =>
      if c ≠ 0 then c :: (u32LE d ++ u32LE f ++ u32LE e ++ u32LE fw ++ u32LE ew)
      else [0]
  | .color3uint8 r g b => [r, g, b]
  | .int64 n => u64BE (encodeZigzag64 n)
  | .sharedString n => u32BE n

/-! ## FromBytes of each kind (values.go) -/

def stringFromBytes (b : List Nat) : Except Err Value :=
  if b.length < 4 then .error (.msg "array length must be greater than or equal to 4")
  else
    let length := readU32LE (b.take 4)
    let s := b.drop 4
    if s.length ≠ length then
      .error (.msg "string length does not match integer length")
    else .ok (.str s)

def boolFromBytes (b : List Nat) : Except Err Value :=
  if b.length ≠ 1 then .error (.msg "array length must be 1")
  else .ok (.bool (b.getD 0 0 ≠ 0))

def intFromBytes (b : List Nat) : Except Err Value :=
  if b.length ≠ 4 then .error (.msg "array length must be 4")
  else .ok (.int (decodeZigzag32 (readU32BE b)))

def floatFromBytes (b : List Nat) : Except Err Value :=
  if b.length ≠ 4 then .error (.msg "array length must be 4")
  else .ok (.float (decodeRobloxFloat (readU32BE b)))

def doubleFromBytes (b : List Nat) : Except Err Value :=
  if b.length ≠ 8 then .error (.msg "array length must be 8")
  else .ok (.double (readU64LE b))

def udimFromBytes (b : List Nat) : Except Err Value :=
  if b.length ≠ 8 then .error (.msg "array length must be 8")
  else .ok (.udim (decodeRobloxFloat (readU32BE (b.take 4)))
    (decodeZigzag32 (readU32BE ((b.drop 4).take 4))))

def udim2FromBytes (b : List Nat) : Except Err Value :=
  if b.length ≠ 16 then .error (.msg "array length must be 16")
  else .ok (.udim2 (decodeRobloxFloat (readU32BE (b.take 4)))
    (decodeRobloxFloat (readU32BE ((b.drop 4).take 4)))
    (decodeZigzag32 (readU32BE ((b.drop 8).take 4)))
    (decodeZigzag32 (readU32BE ((b.drop 12).take 4))))

def rayFromBytes (b : List Nat) : Except Err Value :=
  if b.length ≠ 24 then .error (.msg "array length must be 24")
  else .ok (.ray (readU32LE (b.take 4)) (readU32LE ((b.drop 4).take 4))
    (readU32LE ((b.drop 8).take 4)) (readU32LE ((b.drop 12).take 4))
    (readU32LE ((b.drop 16).take 4)) (readU32LE ((b.drop 20).take 4)))

def facesFromBytes (b : List Nat) : Except Err Value :=
  if b.length ≠ 1 then .error (.msg "array length must be 1")
  else
    let x := b.getD 0 0
    .ok (.faces (x.testBit 0) (x.testBit 1) (x.testBit 2) (x.testBit 3)
      (x.testBit 4) (x.testBit 5))

def axesFromBytes (b : List Nat) : Except Err Value :=
  if b.length ≠ 1 then .error (.msg "array length must be 1")
  else
    let x := b.getD 0 0
    .ok (.axes (x.testBit 0) (x.testBit 1) (x.testBit 2))

def brickColorFromBytes (b : List Nat) : Except Err Value :=
  if b.length ≠ 4 then .error (.msg "array length must be 4")
  else .ok (.brickColor (readU32BE b))

def color3FromBytes (b : List Nat) : Except Err Value :=
  if b.length ≠ 12 then .error (.msg "array length must be 12")
  else .ok (.color3 (decodeRobloxFloat (readU32BE (b.take 4)))
    (decodeRobloxFloat (readU32BE ((b.drop 4).take 4)))
    (decodeRobloxFloat (readU32BE ((b.drop 8).take 4))))

def vector2FromBytes (b : List Nat) : Except Err Value :=
  if b.length ≠ 8 then .error (.msg "array length must be 8")
  else .ok (.vector2 (decodeRobloxFloat (readU32BE (b.take 4)))
    (decodeRobloxFloat (readU32BE ((b.drop 4).take 4))))

def vector3FromBytes (b : List Nat) : Except Err Value :=
  if b.length ≠ 12 then .error (.msg "array length must be 12")
  else .ok (.vector3 (decodeRobloxFloat (readU32BE (b.take 4)))
    (decodeRobloxFloat (readU32BE ((b.drop 4).take 4)))
    (decodeRobloxFloat (readU32BE ((b.drop 8).take 4))))

def vector2int16FromBytes (b : List Nat) : Except Err Value :=
  if b.length ≠ 4 then .error (.msg "array length must be 4")
  else .ok (.vector2int16 (readI16LE (b.take 2)) (readI16LE ((b.drop 2).take 2)))

/-- Reads the nine rotation components, each 4 raw little-endian bytes. -/
def readRotation (r : List Nat) : List Nat :=
  [readU32LE (r.take 4), readU32LE ((r.drop 4).take 4), readU32LE ((r.drop 8).take 4),
   readU32LE ((r.drop 12).take 4), readU32LE ((r.drop 16).take 4),
   readU32LE ((r.drop 20).take 4), readU32LE ((r.drop 24).take 4),
   readU32LE ((r.drop 28).take 4), readU32LE ((r.drop 32).take 4)]

/-- Reads a Vector3 from 12 bytes (three Roblox floats, big-endian). -/
def readVec3 (b : List Nat) : Vec3 :=
  Vec3.mk (decodeRobloxFloat (readU32BE (b.take 4)))
    (decodeRobloxFloat (readU32BE ((b.drop 4).take 4)))
    (decodeRobloxFloat (readU32BE ((b.drop 8).take 4)))

/-- ValueCFrame.FromBytes. The source reads b[0] before any length check, so
an empty buffer is a runtime panic, not an error. -/
def cframeFromBytes (b : List Nat) : Except Err Value :=
  match b with
  | [] => .error (.panicked "index out of range")
  | b0 :: _ =>
    if b0 = 0 ∧ b.length ≠ 49 then .error (.msg "array length must be 49")
    else if b0 ≠ 0 ∧ b.length ≠ 13 then .error (.msg "array length must be 13")
    else if b0 = 0 then
      .ok (.cframe 0 (readRotation (b.drop 1)) (readVec3 (b.drop (b.length - 12))))
    else
      .ok (.cframe b0 (List.replicate 9 0) (readVec3 (b.drop (b.length - 12))))

def tokenFromBytes (b : List Nat) : Except Err Value :=
  if b.length ≠ 4 then .error (.msg "array length must be 4")
  else .ok (.token (readU32BE b))

def referenceFromBytes (b : List Nat) : Except Err Value :=
  if b.length ≠ 4 then .error (.msg "array length must be 4")
  else .ok (.reference (decodeZigzag32 (readU32BE b)))

def vector3int16FromBytes (b : List Nat) : Except Err Value :=
  if b.length ≠ 6 then .error (.msg "array length must be 6")
  else .ok (.vector3int16 (readI16LE (b.take 2)) (readI16LE ((b.drop 2).take 2))
    (readI16LE ((b.drop 4).take 2)))

/-- Parses n NumberSequence keypoints of 12 bytes each. -/
def parseNSKs : Nat → List Nat → List NSK
  | 0, _ => []
  | n + 1, ba =>
    NSK.mk (readU32LE (ba.take 4)) (readU32LE ((ba.drop 4).take 4))
      (readU32LE ((ba.drop 8).take 4)) :: parseNSKs n (ba.drop 12)

def numberSequenceFromBytes (b : List Nat) : Except Err Value :=
  if b.length < 4 then .error (.msg "array length must be at least 4")
  else
    let length := readU32LE (b.take 4)
    let ba := b.drop 4
    if ba.length ≠ 12 * length then .error (.msg "unexpected array length")
    else .ok (.numberSequence (parseNSKs length ba))

/-- Parses n ColorSequence keypoints of 20 bytes each. -/
def parseCSKs : Nat → List Nat → List CSK
  | 0, _ => []
  | n + 1, ba =>
    CSK.mk (readU32LE (ba.take 4)) (readU32LE ((ba.drop 4).take 4))
      (readU32LE ((ba.drop 8).take 4)) (readU32LE ((ba.drop 12).take 4))
      (readU32LE ((ba.drop 16).take 4)) :: parseCSKs n (ba.drop 20)

def colorSequenceFromBytes (b : List Nat) : Except Err Value :=
  if b.length < 4 then .error (.msg "array length must be at least 4")
  else
    let length := readU32LE (b.take 4)
    let ba := b.drop 4
    if ba.length ≠ 20 * length then .error (.msg "unexpected array length")
    else .ok (.colorSequence (parseCSKs length ba))

def numberRangeFromBytes (b : List Nat) : Except Err Value :=
  if b.length ≠ 8 then .error (.msg "array length must be 8")
  else .ok (.numberRange (readU32LE (b.take 4)) (readU32LE ((b.drop 4).take 4)))

def rect2dFromBytes (b : List Nat) : Except Err Value :=
  if b.length ≠ 16 then .error (.msg "array length must be 16")
  else .ok (.rect2d (decodeRobloxFloat (readU32BE (b.take 4)))
    (decodeRobloxFloat (readU32BE ((b.drop 4).take 4)))
    (decodeRobloxFloat (readU32BE ((b.drop 8).take 4)))
    (decodeRobloxFloat (readU32BE ((b.drop 12).take 4))))

/-- ValuePhysicalProperties.FromBytes. The source checks
(b[0] == 0 && len != 21) and (b[0] != 0 && len != 1) — note these branch
conditions pair the discriminator with the length of the OTHER branch of
Bytes(). It reads b[0] before any length check (panic on empty input), and
when b[0] != 0 and len == 1 it reads p[0:4] of an empty tail (panic). -/
def physicalPropertiesFromBytes (b : List Nat) : Except Err Value :=
  match b with
  | [] => .error (.panicked "index out of range")
  | b0 :: _rest =>
    if b0 = 0 ∧ b.length ≠ 21 then .error (.msg "array length must be 21")
    else if b0 ≠ 0 ∧ b.length ≠ 1 then .error (.msg "array length must be 1")
    else if b0 ≠ 0 then
      -- here b = [b0]: the five-float read from the empty tail is out of range
      .error (.panicked "index out of range")
    else
      .ok (.physicalProperties 0 0 0 0 0 0)

def color3uint8FromBytes (b : List Nat) : Except Err Value :=
  if b.length ≠ 3 then .error (.msg "array length must be 3")
  else .ok (.color3uint8 (b.getD 0 0) (b.getD 1 0) (b.getD 2 0))

def int64FromBytes (b : List Nat) : Except Err Value :=
  if b.length ≠ 8 then .error (.msg "array length must be 8")
  else .ok (.int64 (decodeZigzag64 (readU64BE b)))

def sharedStringFromBytes (b : List Nat) : Except Err Value :=
  if b.length ≠ 4 then .error (.msg "array length must be 4")
  else .ok (.sharedString (readU32BE b))

/-- Dispatch of FromBytes through the valueGenerators table: valid type tags
construct the corresponding zero value and fill it from b. -/
def fromBytes (t : Nat) (b : List Nat) : Except Err Value :=
  if t = typeString then stringFromBytes b
  else if t = typeBool then boolFromBytes b
  else if t = typeInt then intFromBytes b
  else if t = typeFloat then floatFromBytes b
  else if t = typeDouble then doubleFromBytes b
  else if t = typeUDim then udimFromBytes b
  else if t = typeUDim2 then udim2FromBytes b
  else if t = typeRay then rayFromBytes b
  else if t = typeFaces then facesFromBytes b
  else if t = typeAxes then axesFromBytes b
  else if t = typeBrickColor then brickColorFromBytes b
  else if t = typeColor3 then color3FromBytes b
  else if t = typeVector2 then vector2FromBytes b
  else if t = typeVector3 then vector3FromBytes b
  else if t = typeVector2int16 then vector2int16FromBytes b
  else if t = typeCFrame then cframeFromBytes b
  else if t = typeToken then tokenFromBytes b
  else if t = typeReference then referenceFromBytes b
  else if t = typeVector3int16 then vector3int16FromBytes b
  else if t = typeNumberSequence then numberSequenceFromBytes b
  else if t = typeColorSequence then colorSequenceFromBytes b
  else if t = typeNumberRange then numberRangeFromBytes b
  else if t = typeRect2D then rect2dFromBytes b
  else if t = typePhysicalProperties then physicalPropertiesFromBytes b
  else if t = typeColor3uint8 then color3uint8FromBytes b
  else if t = typeInt64 then int64FromBytes b
  else if t = typeSharedString then sharedStringFromBytes b
  else .error (.msg "invalid type")

/-! ## Well-formedness and canonicity of values -/

/-- Machine-range well-formedness of a value: every component lies in the
range of the Go field type that holds it (u32/u64 bit patterns, int32/int64,
int16, bytes), lengths fit in the uint32 length prefix, and a CFrame carries
exactly nine rotation components. -/
def wf : Value → Prop
  | .str s => s.length < 4294967296 ∧ ∀ x ∈ s, x < 256
  | .bool _ => True
  | .int n => -2147483648 ≤ n ∧ n < 2147483648
  | .float f => f < 4294967296
  | .double d => d < 18446744073709551616
  | .udim sc off => sc < 4294967296 ∧ -2147483648 ≤ off ∧ off < 2147483648
  | .udim2 sx sy ox oy => sx < 4294967296 ∧ sy < 4294967296 ∧
      -2147483648 ≤ ox ∧ ox < 2147483648 ∧ -2147483648 ≤ oy ∧ oy < 2147483648
  | .ray ox oy oz dx dy dz => ox < 4294967296 ∧ oy < 4294967296 ∧ oz < 4294967296 ∧
      dx < 4294967296 ∧ dy < 4294967296 ∧ dz < 4294967296
  | .faces _ _ _ _ _ _ => True
  | .axes _ _ _ => True
  | .brickColor n => n < 4294967296
  | .color3 r g b => r < 4294967296 ∧ g < 4294967296 ∧ b < 4294967296
  | .vector2 x y => x < 4294967296 ∧ y < 4294967296
  | .vector3 x y z => x < 4294967296 ∧ y < 4294967296 ∧ z < 4294967296
  | .vector2int16 x y => -32768 ≤ x ∧ x < 32768 ∧ -32768 ≤ y ∧ y < 32768
  | .cframe sp rot pos => sp < 256 ∧ rot.length = 9 ∧ (∀ x ∈ rot, x < 4294967296) ∧
      pos.x < 4294967296 ∧ pos.y < 4294967296 ∧ pos.z < 4294967296
  | .token n => n < 4294967296
  | .reference n => -2147483648 ≤ n ∧ n < 2147483648
  | .vector3int16 x y z => -32768 ≤ x ∧ x < 32768 ∧ -32768 ≤ y ∧ y < 32768 ∧
      -32768 ≤ z ∧ z < 32768
  | .numberSequence ks => ks.length < 4294967296 ∧
      ∀ k ∈ ks, k.time < 4294967296 ∧ k.val < 4294967296 ∧ k.env < 4294967296
  | .colorSequence ks => ks.length < 4294967296 ∧
      ∀ k ∈ ks, k.time < 4294967296 ∧ k.r < 4294967296 ∧ k.g < 4294967296 ∧
        k.b < 4294967296 ∧ k.env < 4294967296
  | .numberRange lo hi => lo < 4294967296 ∧ hi < 4294967296
  | .rect2d mnx mny mxx mxy => mnx < 4294967296 ∧ mny < 4294967296 ∧
      mxx < 4294967296 ∧ mxy < 4294967296
  | .physicalProperties c d f e fw ew => c < 256 ∧ d < 4294967296 ∧
      f < 4294967296 ∧ e < 4294967296 ∧ fw < 4294967296 ∧ ew < 4294967296
  | .color3uint8 r g b => r < 256 ∧ g < 256 ∧ b < 256
  | .int64 n => -9223372036854775808 ≤ n ∧ n < 9223372036854775808
  | .sharedString n => n < 4294967296

/-- Canonicity: the fields that the wire format drops are zero. A CFrame
with a special (nonzero) rotation code carries a zero rotation matrix; a
PhysicalProperties with CustomPhysics == 0 carries five zero floats. -/
def canon : Value → Prop
  | .cframe sp rot _ => sp ≠ 0 → rot = List.replicate 9 0
  | .physicalProperties c d f e fw ew =>
      c = 0 → d = 0 ∧ f = 0 ∧ e = 0 ∧ fw = 0 ∧ ew = 0
  | _ => True

/-! ## Array codec building blocks (arrays.go) -/

/-- appendValueBytes: concatenate Bytes() of each value after checking its
type against the declared one. -/
def appendValueBytes (t : Nat) (a : List Value) : Except Err (List Nat) :=
  if a.any (fun v => ty v != t) then .error (.msg "element type mismatch")
  else .ok ((a.map bytesOf).flatten)

/-- appendByteValues with a fixed positive size: read chunks of that size
while a full chunk remains (a trailing remainder shorter than one chunk is
left unread). Structurally recursive on a fuel that starts at the buffer
length (one byte of fuel per loop step suffices since size > 0). -/
def appendFixedAux (t size : Nat) : Nat → List Nat → Except Err (List Value)
  | 0, _ => .ok []
  | fuel + 1, b =>
    if 0 < size ∧ size ≤ b.length then do
      let v ← fromBytes t (b.take size)
      let rest ← appendFixedAux t size fuel (b.drop size)
      pure (v :: rest)
    else .ok []

def appendFixed (t size : Nat) (b : List Nat) : Except Err (List Value) :=
  appendFixedAux t size b.length b

/-- appendByteValues with size < 0 (variable length): read a 4-byte length
prefix, then size*field payload bytes, repeatedly. -/
def appendVarAux (t field : Nat) : Nat → List Nat → Except Err (List Value)
  | 0, _ => .ok []
  | fuel + 1, b =>
    if b.length = 0 then .ok []
    else if b.length < 4 then .error (.msg "expected 4 more bytes in array")
    else
      let size := readU32LE (b.take 4)
      if b.length - 4 < size * field then .error (.msg "expected more bytes in array")
      else do
        let v ← fromBytes t (b.take (4 + size * field))
        let rest ← appendVarAux t field fuel (b.drop (4 + size * field))
        pure (v :: rest)

def appendVar (t field : Nat) (b : List Nat) : Except Err (List Value) :=
  appendVarAux t field b.length b

/-- fieldLen() of the fielder kinds (the field widths in declaration order);
empty for kinds that do not implement the fielder interface. -/
def fieldLens (t : Nat) : List Nat :=
  if t = typeUDim then [4, 4]
  else if t = typeUDim2 then [4, 4, 4, 4]
  else if t = typeColor3 then [4, 4, 4]
  else if t = typeVector2 then [4, 4]
  else if t = typeVector3 then [4, 4, 4]
  else if t = typeRect2D then [4, 4, 4, 4]
  else if t = typeColor3uint8 then [1, 1, 1]
  else []

/-- fieldGet(i): the bytes of the i-th field of a fielder value. -/
def fieldGet (v : Value) (i : Nat) : List Nat :=
  match v, i with
  | .udim sc _, 0 => u32BE (encodeRobloxFloat sc)
  | .udim _ off, 1 => u32BE (encodeZigzag32 off)
  | .udim2 sx _ _ _, 0 => u32BE (encodeRobloxFloat sx)
  | .udim2 _ sy _ _, 1 => u32BE (encodeRobloxFloat sy)
  | .udim2 _ _ ox _, 2 => u32BE (encodeZigzag32 ox)
  | .udim2 _ _ _ oy, 3 => u32BE (encodeZigzag32 oy)
  | .color3 r _ _, 0 => u32BE (encodeRobloxFloat r)
  | .color3 _ g _, 1 => u32BE (encodeRobloxFloat g)
  | .color3 _ _ b, 2 => u32BE (encodeRobloxFloat b)
  | .vector2 x _, 0 => u32BE (encodeRobloxFloat x)
  | .vector2 _ y, 1 => u32BE (encodeRobloxFloat y)
  | .vector3 x _ _, 0 => u32BE (encodeRobloxFloat x)
  | .vector3 _ y _, 1 => u32BE (encodeRobloxFloat y)
  | .vector3 _ _ z, 2 => u32BE (encodeRobloxFloat z)
  | .rect2d mnx _ _ _, 0 => u32BE (encodeRobloxFloat mnx)
  | .rect2d _ mny _ _, 1 => u32BE (encodeRobloxFloat mny)
  | .rect2d _ _ mxx _, 2 => u32BE (encodeRobloxFloat mxx)
  | .rect2d _ _ _ mxy, 3 => u32BE (encodeRobloxFloat mxy)
  | .color3uint8 r _ _, 0 => [r]
  | .color3uint8 _ g _, 1 => [g]
  | .color3uint8 _ _ b, 2 => [b]
  | _, _ => []

/-- fieldSet over a fresh zero value: build a fielder value of kind t from
its per-field byte slices. The fallback for non-fielder kinds is unreachable
from the exported functions. -/
def valueFromFields (t : Nat) (fb : List (List Nat)) : Value :=
  if t = typeUDim then
    .udim (decodeRobloxFloat (readU32BE (fb.getD 0 [])))
      (decodeZigzag32 (readU32BE (fb.getD 1 [])))
  else if t = typeUDim2 then
    .udim2 (decodeRobloxFloat (readU32BE (fb.getD 0 [])))
      (decodeRobloxFloat (readU32BE (fb.getD 1 [])))
      (decodeZigzag32 (readU32BE (fb.getD 2 [])))
      (decodeZigzag32 (readU32BE (fb.getD 3 [])))
  else if t = typeColor3 then
    .color3 (decodeRobloxFloat (readU32BE (fb.getD 0 [])))
      (decodeRobloxFloat (readU32BE (fb.getD 1 [])))
      (decodeRobloxFloat (readU32BE (fb.getD 2 [])))
  else if t = typeVector2 then
    .vector2 (decodeRobloxFloat (readU32BE (fb.getD 0 [])))
      (decodeRobloxFloat (readU32BE (fb.getD 1 [])))
  else if t = typeVector3 then
    .vector3 (decodeRobloxFloat (readU32BE (fb.getD 0 [])))
      (decodeRobloxFloat (readU32BE (fb.getD 1 [])))
      (decodeRobloxFloat (readU32BE (fb.getD 2 [])))
  else if t = typeRect2D then
    .rect2d (decodeRobloxFloat (readU32BE (fb.getD 0 [])))
      (decodeRobloxFloat (readU32BE (fb.getD 1 [])))
      (decodeRobloxFloat (readU32BE (fb.getD 2 [])))
      (decodeRobloxFloat (readU32BE (fb.getD 3 [])))
  else if t = typeColor3uint8 then
    .color3uint8 ((fb.getD 0 []).getD 0 0) ((fb.getD 1 []).getD 0 0)
      ((fb.getD 2 []).getD 0 0)
  else .bool false

/-- The per-field column of interleaveFields: the f-th field bytes of all
values laid out contiguously. -/
def buildCols (a : List Value) (nfields : Nat) : List (List Nat) :=
  (List.range nfields).map (fun f => (a.map (fun v => fieldGet v f)).flatten)

/-- Interleave each column with its field width and concatenate in order. -/
def interleaveCols : List (List Nat × Nat) → Except Err (List Nat)
  | [] => .ok []
  | (col, w) :: rest => do
    let c ← interleave col w
    let r ← interleaveCols rest
    pure (c ++ r)

/-- interleaveFields from arrays.go. -/
def interleaveFields (id : Nat) (a : List Value) : Except Err (List Nat) :=
  if a.length = 0 then .ok []
  else if a.any (fun v => ty v != id) then .error (.msg "element type mismatch")
  else
    let nbytes := fieldLens id
    interleaveCols ((buildCols a nbytes.length).zip nbytes)

/-- Cut b into the per-field column slices of widths w*n in order. -/
def splitCols : List Nat → Nat → List Nat → List (List Nat)
  | [], _, _ => []
  | w :: ws, n, b => b.take (w * n) :: splitCols ws n (b.drop (w * n))

/-- Deinterleave each column slice in place. -/
def deinterleaveCols : List (List Nat × Nat) → Except Err (List (List Nat))
  | [] => .ok []
  | (col, w) :: rest => do
    let c ← deinterleave col w
    let r ← deinterleaveCols rest
    pure (c :: r)

/-- The i-th value's per-field byte slices out of the deinterleaved columns. -/
def fieldsAt (cols : List (List Nat)) (ws : List Nat) (i : Nat) : List (List Nat) :=
  (cols.zip ws).map (fun p => (p.1.drop (i * p.2)).take p.2)

/-- deinterleaveFields from arrays.go. The columns are slices of the input
buffer and are deinterleaved in place, so the final contents of the caller's
buffer (the concatenation of the deinterleaved columns) is returned next to
the decoded values. -/
def deinterleaveFields (id : Nat) (b : List Nat) : Except Err (List Value × List Nat) :=
  if b.length = 0 then .ok ([], b)
  else if ¬ validType id then .error (.msg "type identifier is not a valid Type")
  else
    let nbytes := fieldLens id
    let tbytes := nbytes.sum
    if tbytes = 0 then
      -- the source would cast a non-fielder value to the fielder interface
      .error (.panicked "interface conversion")
    else if b.length % tbytes ≠ 0 then
      .error (.msg "length of array is not divisible by value byte size")
    else
      let nvalues := b.length / tbytes
      match deinterleaveCols ((splitCols nbytes nvalues b).zip nbytes) with
      | .error e => .error e
      | .ok cols =>
        .ok ((List.range nvalues).map (fun i => valueFromFields id (fieldsAt cols nbytes i)),
          cols.flatten)

/-! ## Reference delta coding and the CFrame / PhysicalProperties loops -/

/-- The underlying int32 of a Reference value (values are type-checked before
this is reached). -/
def refVal (v : Value) : Int :=
  match v with
  | .reference n => n
  | _ => 0

/-- Bytes of the values after the first: zigzag of the int32 difference to
the previous value. -/
def refDeltasAux (prev : Int) : List Value → List Nat
  | [] => []
  | v :: rest =>
    u32BE (encodeZigzag32 (wrap32 (refVal v - prev))) ++ refDeltasAux (refVal v) rest

/-- The TypeReference encode byte stream before interleaving: first value as
its own zigzag bytes, later values delta-encoded. -/
def refBytes (a : List Value) : List Nat :=
  match a with
  | [] => []
  | v :: rest => u32BE (encodeZigzag32 (refVal v)) ++ refDeltasAux (refVal v) rest

/-- Read len(bc)/4 zigzag-decoded int32 values from the deinterleaved buffer. -/
def refReadDeltas : Nat → List Nat → List Int
  | 0, _ => []
  | fuel + 1, bc =>
    if 4 ≤ bc.length then
      decodeZigzag32 (readU32BE (bc.take 4)) :: refReadDeltas fuel (bc.drop 4)
    else []

/-- Accumulate relative references into absolute ones with int32 addition. -/
def refAccum (prev : Int) : List Int → List Int
  | [] => []
  | d :: ds => wrap32 (prev + d) :: refAccum (wrap32 (prev + d)) ds

/-- First value is absolute; the rest accumulate. -/
def refDecode (ds : List Int) : List Int :=
  match ds with
  | [] => []
  | d :: ds => d :: refAccum d ds

/-- The matrix-region bytes of one CFrame: the Special byte, plus the nine
raw little-endian rotation words when Special == 0. -/
def cfMatrixBytes (v : Value) : List Nat :=
  match v with
  | .cframe sp rot _ => if sp = 0 then 0 :: (rot.map u32LE).flatten else [sp]
  | _ => []

/-- The position of a CFrame as a Vector3 value (for interleaveFields). -/
def cfPosition (v : Value) : Value :=
  match v with
  | .cframe _ _ p => .vector3 p.x p.y p.z
  | _ => v

/-- The Special byte of a CFrame value. -/
def cfSpecial (v : Value) : Nat :=
  match v with
  | .cframe sp _ _ => sp
  | _ => 0

/-- The rotation matrix words of a CFrame value. -/
def cfRotation (v : Value) : List Nat :=
  match v with
  | .cframe _ rot _ => rot
  | _ => []

/-- The greedy matrix-region scan of the TypeCFrame decoder: reads one
Special byte (and 36 rotation bytes when it is zero) per matrix while the
remaining byte count exceeds 12 per matrix read so far; returns the parsed
(Special, Rotation) pairs and the final read position. Fuel starts at the
buffer length; when fuel reaches zero the remaining count is zero and the
loop exit branch is taken. -/
def cframeScan (b : List Nat) : Nat → Nat → Nat → Except Err (List (Nat × List Nat) × Nat)
  | 0, i, _ => .ok ([], i)
  | fuel + 1, i, n =>
    if b.length - i > n then
      let sp := b.getD i 0
      if sp = 0 then
        if b.length - (i + 1) < 36 then .error (.msg "expected 36 more bytes in array")
        else do
          let (rest, j) ← cframeScan b fuel (i + 1 + 36) (n + 12)
          pure ((0, readRotation ((b.drop (i + 1)).take 36)) :: rest, j)
      else do
        let (rest, j) ← cframeScan b fuel (i + 1) (n + 12)
        pure ((sp, List.replicate 9 0) :: rest, j)
    else .ok ([], i)

/-- The PhysicalProperties encode bytes of one value: the CustomPhysics byte,
plus five raw little-endian float words when it is nonzero. -/
def ppBytes (v : Value) : List Nat :=
  match v with
  | .physicalProperties c d f e fw ew =>
    if c ≠ 0 then c :: (u32LE d ++ u32LE f ++ u32LE e ++ u32LE fw ++ u32LE ew)
    else [c]
  | _ => []

/-- The TypePhysicalProperties decode loop: one discriminator byte, then 20
float bytes when it is nonzero, per value, until the buffer is exhausted. -/
def ppScan : Nat → List Nat → Except Err (List Value)
  | 0, _ => .ok []
  | fuel + 1, b =>
    match b with
    | [] => .ok []
    | c :: rest =>
      if c ≠ 0 then
        if rest.length < 20 then .error (.msg "expected 20 more bytes in array")
        else do
          let vs ← ppScan fuel (rest.drop 20)
          pure (.physicalProperties c (readU32LE (rest.take 4))
            (readU32LE ((rest.drop 4).take 4)) (readU32LE ((rest.drop 8).take 4))
            (readU32LE ((rest.drop 12).take 4)) (readU32LE ((rest.drop 16).take 4)) :: vs)
      else do
        let vs ← ppScan fuel rest
        pure (.physicalProperties 0 0 0 0 0 0 :: vs)

/-! ## The exported array codec (arrays.go) -/

/-- ValuesToBytes(t, a). -/
def valuesToBytes (t : Nat) (a : List Value) : Except Err (List Nat) :=
  if ¬ validType t then .error (.msg "invalid type")
  else if a.any (fun v => ty v != t) then .error (.msg "element type mismatch")
  else if t = typeString ∨ t = typeBool ∨ t = typeDouble ∨ t = typeRay ∨
      t = typeFaces ∨ t = typeAxes ∨ t = typeVector3int16 ∨
      t = typeNumberSequence ∨ t = typeColorSequence ∨ t = typeNumberRange then
    appendValueBytes t a
  else if t = typeInt ∨ t = typeFloat ∨ t = typeBrickColor ∨ t = typeToken ∨
      t = typeSharedString then do
    let b ← appendValueBytes t a
    interleave b 4
  else if t = typeInt64 then do
    let b ← appendValueBytes t a
    interleave b 8
  else if t = typeUDim ∨ t = typeUDim2 ∨ t = typeColor3 ∨ t = typeVector2 ∨
      t = typeVector3 ∨ t = typeRect2D ∨ t = typeColor3uint8 then
    interleaveFields t a
  else if t = typeCFrame then
    -- the error of the position interleaveFields is discarded by the source
    .ok ((a.map cfMatrixBytes).flatten ++
      (match interleaveFields typeVector3 (a.map cfPosition) with
       | .ok pb => pb
       | .error _ => []))
  else if t = typeReference then
    if a.length = 0 then .ok []
    else interleave (refBytes a) 4
  else if t = typePhysicalProperties then
    .ok ((a.map ppBytes).flatten)
  else .error (.msg "not implemented")

/-- ValuesFromBytes(t, b). The second component of a successful result is the
final contents of the caller's buffer b (the source deinterleaves slices of b
in place on the field-split paths and copies b first on the others). -/
def valuesFromBytes (t : Nat) (b : List Nat) : Except Err (List Value × List Nat) :=
  if ¬ validType t then .error (.msg "invalid type")
  else if t = typeBool ∨ t = typeFaces ∨ t = typeAxes then
    (appendFixed t 1 b).map (fun a => (a, b))
  else if t = typeVector3int16 then
    (appendFixed t 6 b).map (fun a => (a, b))
  else if t = typeDouble ∨ t = typeNumberRange then
    (appendFixed t 8 b).map (fun a => (a, b))
  else if t = typeRay then
    (appendFixed t 24 b).map (fun a => (a, b))
  else if t = typeString then
    (appendVar t 1 b).map (fun a => (a, b))
  else if t = typeNumberSequence then
    (appendVar t 12 b).map (fun a => (a, b))
  else if t = typeColorSequence then
    (appendVar t 20 b).map (fun a => (a, b))
  else if t = typeInt ∨ t = typeFloat ∨ t = typeBrickColor ∨ t = typeToken ∨
      t = typeSharedString then
    match deinterleave b 4 with
    | .error e => .error e
    | .ok bc => (appendFixed t 4 bc).map (fun a => (a, b))
  else if t = typeInt64 then
    match deinterleave b 8 with
    | .error e => .error e
    | .ok bc => (appendFixed t 8 bc).map (fun a => (a, b))
  else if t = typeUDim ∨ t = typeUDim2 ∨ t = typeColor3 ∨ t = typeVector2 ∨
      t = typeVector3 ∨ t = typeRect2D ∨ t = typeColor3uint8 then
    deinterleaveFields t b
  else if t = typeCFrame then
    match cframeScan b b.length 0 0 with
    | .error e => .error e
    | .ok (ms, i) =>
      match deinterleaveFields typeVector3 (b.drop i) with
      | .error e => .error e
      | .ok (ps, post) =>
        if ps.length ≠ ms.length then
          .error (.msg "number of positions does not match number of matrices")
        else
          .ok ((List.zip ms ps).map (fun mp =>
            match mp.2 with
            | .vector3 x y z => Value.cframe mp.1.1 mp.1.2 (Vec3.mk x y z)
            | _ => mp.2), b.take i ++ post)
  else if t = typeReference then
    if b.length = 0 then .ok ([], b)
    else if b.length % 4 ≠ 0 then .error (.msg "array must be divisible by 4")
    else
      match deinterleave b 4 with
      | .error e => .error e
      | .ok bc =>
        .ok ((refDecode (refReadDeltas bc.length bc)).map (fun n => Value.reference n), b)
  else if t = typePhysicalProperties then
    (ppScan b.length b).map (fun a => (a, b))
  else .error (.msg "not implemented")

/-! ## Single-value round trips -/

theorem roundtrip_str (s : List Nat) (h : s.length < 4294967296) :
    stringFromBytes (bytesOf (.str s)) = .ok (.str s) := by
  have hlen : (bytesOf (Value.str s)).length = 4 + s.length := by
    simp [bytesOf, u32LE]
    omega
  have e1 : (bytesOf (Value.str s)).take 4 = u32LE s.length := rfl
  have e2 : (bytesOf (Value.str s)).drop 4 = s := rfl
  unfold stringFromBytes
  rw [if_neg (by omega), e1, e2, readU32LE_u32LE _ h, if_neg (by omega)]

theorem roundtrip_bool (b : Bool) : boolFromBytes (bytesOf (.bool b)) = .ok (.bool b) := by
  cases b <;> rfl

theorem roundtrip_int (n : Int) (h1 : -2147483648 ≤ n) (h2 : n < 2147483648) :
    intFromBytes (bytesOf (.int n)) = .ok (.int n) := by
  have hlen : (bytesOf (Value.int n)).length = 4 := rfl
  unfold intFromBytes
  rw [if_neg (by omega)]
  have e : bytesOf (Value.int n) = u32BE (encodeZigzag32 n) := rfl
  rw [e, readU32BE_u32BE _ (encodeZigzag32_lt _ h1 h2), decode_encode_zigzag32 _ h1 h2]

theorem roundtrip_float (f : Nat) (h : f < 4294967296) :
    floatFromBytes (bytesOf (.float f)) = .ok (.float f) := by
  have hlen : (bytesOf (Value.float f)).length = 4 := rfl
  unfold floatFromBytes
  rw [if_neg (by omega)]
  have e : bytesOf (Value.float f) = u32BE (encodeRobloxFloat f) := rfl
  rw [e, readU32BE_u32BE _ (encodeRobloxFloat_lt _ h), decode_encode_robloxFloat _ h]

theorem roundtrip_double (d : Nat) (h : d < 18446744073709551616) :
    doubleFromBytes (bytesOf (.double d)) = .ok (.double d) := by
  have hlen : (bytesOf (Value.double d)).length = 8 := rfl
  unfold doubleFromBytes
  rw [if_neg (by omega)]
  have e : bytesOf (Value.double d) = u64LE d := rfl
  rw [e, readU64LE_u64LE _ h]

theorem roundtrip_ray (ox oy oz dx dy dz : Nat) (h1 : ox < 4294967296)
    (h2 : oy < 4294967296) (h3 : oz < 4294967296) (h4 : dx < 4294967296)
    (h5 : dy < 4294967296) (h6 : dz < 4294967296) :
    rayFromBytes (bytesOf (.ray ox oy oz dx dy dz)) = .ok (.ray ox oy oz dx dy dz) := by
  have hlen : (bytesOf (Value.ray ox oy oz dx dy dz)).length = 24 := by
    simp [bytesOf, u32LE]
  unfold rayFromBytes
  rw [if_neg (by omega)]
  have e1 : (bytesOf (Value.ray ox oy oz dx dy dz)).take 4 = u32LE ox := rfl
  have e2 : ((bytesOf (Value.ray ox oy oz dx dy dz)).drop 4).take 4 = u32LE oy := rfl
  have e3 : ((bytesOf (Value.ray ox oy oz dx dy dz)).drop 8).take 4 = u32LE oz := rfl
  have e4 : ((bytesOf (Value.ray ox oy oz dx dy dz)).drop 12).take 4 = u32LE dx := rfl
  have e5 : ((bytesOf (Value.ray ox oy oz dx dy dz)).drop 16).take 4 = u32LE dy := rfl
  have e6 : ((bytesOf (Value.ray ox oy oz dx dy dz)).drop 20).take 4 = u32LE dz := rfl
  rw [e1, e2, e3, e4, e5, e6]
  rw [readU32LE_u32LE _ h1, readU32LE_u32LE _ h2, readU32LE_u32LE _ h3,
    readU32LE_u32LE _ h4, readU32LE_u32LE _ h5, readU32LE_u32LE _ h6]

theorem roundtrip_faces (r t bk l bt f : Bool) :
    facesFromBytes (bytesOf (.faces r t bk l bt f)) = .ok (.faces r t bk l bt f) := by
  cases r <;> cases t <;> cases bk <;> cases l <;> cases bt <;> cases f <;> rfl

theorem roundtrip_axes (x y z : Bool) :
    axesFromBytes (bytesOf (.axes x y z)) = .ok (.axes x y z) := by
  cases x <;> cases y <;> cases z <;> rfl

theorem roundtrip_brickColor (n : Nat) (h : n < 4294967296) :
    brickColorFromBytes (bytesOf (.brickColor n)) = .ok (.brickColor n) := by
  have hlen : (bytesOf (Value.brickColor n)).length = 4 := rfl
  unfold brickColorFromBytes
  rw [if_neg (by omega)]
  have e : bytesOf (Value.brickColor n) = u32BE n := rfl
  rw [e, readU32BE_u32BE _ h]

theorem roundtrip_vector3int16 (x y z : Int) (h1 : -32768 ≤ x) (h2 : x < 32768)
    (h3 : -32768 ≤ y) (h4 : y < 32768) (h5 : -32768 ≤ z) (h6 : z < 32768) :
    vector3int16FromBytes (bytesOf (.vector3int16 x y z)) = .ok (.vector3int16 x y z) := by
  have hlen : (bytesOf (Value.vector3int16 x y z)).length = 6 := by
    simp [bytesOf, u16LE]
  unfold vector3int16FromBytes
  rw [if_neg (by omega)]
  have e1 : (bytesOf (Value.vector3int16 x y z)).take 2 = u16LE x := rfl
  have e2 : ((bytesOf (Value.vector3int16 x y z)).drop 2).take 2 = u16LE y := rfl
  have e3 : ((bytesOf (Value.vector3int16 x y z)).drop 4).take 2 = u16LE z := rfl
  rw [e1, e2, e3, readI16LE_u16LE _ h1 h2, readI16LE_u16LE _ h3 h4, readI16LE_u16LE _ h5 h6]

theorem roundtrip_numberRange (lo hi : Nat) (h1 : lo < 4294967296) (h2 : hi < 4294967296) :
    numberRangeFromBytes (bytesOf (.numberRange lo hi)) = .ok (.numberRange lo hi) := by
  have hlen : (bytesOf (Value.numberRange lo hi)).length = 8 := by
    simp [bytesOf, u32LE]
  unfold numberRangeFromBytes
  rw [if_neg (by omega)]
  have e1 : (bytesOf (Value.numberRange lo hi)).take 4 = u32LE lo := rfl
  have e2 : ((bytesOf (Value.numberRange lo hi)).drop 4).take 4 = u32LE hi := rfl
  rw [e1, e2, readU32LE_u32LE _ h1, readU32LE_u32LE _ h2]

theorem roundtrip_token (n : Nat) (h : n < 4294967296) :
    tokenFromBytes (bytesOf (.token n)) = .ok (.token n) := by
  have hlen : (bytesOf (Value.token n)).length = 4 := rfl
  unfold tokenFromBytes
  rw [if_neg (by omega)]
  have e : bytesOf (Value.token n) = u32BE n := rfl
  rw [e, readU32BE_u32BE _ h]

theorem roundtrip_sharedString (n : Nat) (h : n < 4294967296) :
    sharedStringFromBytes (bytesOf (.sharedString n)) = .ok (.sharedString n) := by
  have hlen : (bytesOf (Value.sharedString n)).length = 4 := rfl
  unfold sharedStringFromBytes
  rw [if_neg (by omega)]
  have e : bytesOf (Value.sharedString n) = u32BE n := rfl
  rw [e, readU32BE_u32BE _ h]

theorem roundtrip_int64 (n : Int) (h1 : -9223372036854775808 ≤ n)
    (h2 : n < 9223372036854775808) :
    int64FromBytes (bytesOf (.int64 n)) = .ok (.int64 n) := by
  have hlen : (bytesOf (Value.int64 n)).length = 8 := rfl
  unfold int64FromBytes
  rw [if_neg (by omega)]
  have e : bytesOf (Value.int64 n) = u64BE (encodeZigzag64 n) := rfl
  rw [e, readU64BE_u64BE _ (encodeZigzag64_lt _ h1 h2), decode_encode_zigzag64 _ h1 h2]

/-! ## List chunking helpers -/

theorem take_len_append (l1 l2 : List Nat) (n : Nat) (h : l1.length = n) :
    (l1 ++ l2).take n = l1 := by
  rw [← h]
  exact List.take_left l1 l2

theorem drop_len_append (l1 l2 : List Nat) (n : Nat) (h : l1.length = n) :
    (l1 ++ l2).drop n = l2 := by
  rw [← h]
  exact List.drop_left l1 l2

theorem take_of_length_eq (l : List Nat) (n : Nat) (h : l.length = n) : l.take n = l := by
  rw [← h, List.take_length]

theorem take_append_of_le (l1 l2 : List Nat) (k : Nat) (h : k ≤ l1.length) :
    (l1 ++ l2).take k = l1.take k := by
  rw [List.take_append_eq_append_take]
  have : k - l1.length = 0 := by omega
  rw [this, List.take_zero, List.append_nil]

theorem flatten_map_length {α : Type} (l : List α) (f : α → List Nat) (w : Nat)
    (h : ∀ x ∈ l, (f x).length = w) : ((l.map f).flatten).length = w * l.length := by
  induction l with
  | nil => simp
  | cons x rest ih =>
    simp only [List.map_cons, List.flatten_cons, List.length_append]
    rw [h x (List.mem_cons_self _ _), ih (fun y hy => h y (List.mem_cons_of_mem _ hy))]
    simp [Nat.mul_succ, Nat.mul_comm]
    ring

theorem flatten_slice (g : Value → List Nat) (xs : List Value) (w : Nat) :
    ∀ (i : Nat) (hi : i < xs.length), (∀ v ∈ xs, (g v).length = w) →
    (((xs.map g).flatten).drop (i * w)).take w = g xs[i] := by
  induction xs with
  | nil => intro i hi; simp at hi
  | cons v rest ih =>
    intro i hi h
    simp only [List.map_cons, List.flatten_cons]
    have hv : (g v).length = w := h v (List.mem_cons_self _ _)
    cases i with
    | zero =>
      simp only [Nat.zero_mul, List.drop_zero]
      rw [take_append_of_le _ _ w (by omega), take_of_length_eq _ _ hv]
      rfl
    | succ i =>
      have e1 : (i + 1) * w = (g v).length + i * w := by
        rw [hv]
        ring
      rw [e1, List.drop_append]
      have := ih i (by simpa using hi) (fun y hy => h y (List.mem_cons_of_mem _ hy))
      rw [this]
      rfl

theorem sum_mul_of_map {α : Type} (l : List α) (f : α → Nat) (n : Nat) :
    (l.map (fun x => f x * n)).sum = (l.map f).sum * n := by
  induction l with
  | nil => simp
  | cons x rest ih =>
    simp only [List.map_cons, List.sum_cons, ih]
    ring

/-! ## appendFixed / appendVar on concatenated value bytes -/

theorem appendFixedAux_flatten (t size : Nat) (hsz : 0 < size) :
    ∀ (xs : List Value) (fuel : Nat),
    (∀ v ∈ xs, (bytesOf v).length = size) →
    (∀ v ∈ xs, fromBytes t (bytesOf v) = .ok v) →
    ((xs.map bytesOf).flatten).length ≤ fuel →
    appendFixedAux t size fuel ((xs.map bytesOf).flatten) = .ok xs := by
  intro xs
  induction xs with
  | nil =>
    intro fuel _ _ _
    cases fuel with
    | zero => rfl
    | succ f =>
      simp only [List.map_nil, List.flatten_nil, appendFixedAux]
      rw [if_neg (by simp; omega)]
  | cons v rest ih =>
    intro fuel hlen hrt hfuel
    have hv : (bytesOf v).length = size := hlen v (List.mem_cons_self _ _)
    simp only [List.map_cons, List.flatten_cons] at hfuel ⊢
    have hrl : ((rest.map bytesOf).flatten).length =
        (bytesOf v ++ (rest.map bytesOf).flatten).length - size := by
      simp [List.length_append, hv]
    have hge : size ≤ (bytesOf v ++ (rest.map bytesOf).flatten).length := by
      simp [List.length_append, hv]
    cases fuel with
    | zero =>
      exfalso
      simp only [List.length_append, hv] at hfuel
      omega
    | succ f =>
      simp only [appendFixedAux]
      rw [if_pos ⟨hsz, hge⟩]
      rw [take_len_append _ _ _ hv, drop_len_append _ _ _ hv]
      rw [hrt v (List.mem_cons_self _ _)]
      rw [ih f (fun y hy => hlen y (List.mem_cons_of_mem _ hy))
        (fun y hy => hrt y (List.mem_cons_of_mem _ hy))
        (by simp only [List.length_append, hv] at hfuel; omega)]
      rfl

theorem appendFixed_flatten (t size : Nat) (xs : List Value) (hsz : 0 < size)
    (hlen : ∀ v ∈ xs, (bytesOf v).length = size)
    (hrt : ∀ v ∈ xs, fromBytes t (bytesOf v) = .ok v) :
    appendFixed t size ((xs.map bytesOf).flatten) = .ok xs :=
  appendFixedAux_flatten t size hsz xs _ hlen hrt (le_refl _)

theorem appendVarAux_flatten (t field : Nat) :
    ∀ (xs : List Value) (fuel : Nat),
    (∀ v ∈ xs, ∃ cnt, (bytesOf v).take 4 = u32LE cnt ∧ cnt < 4294967296 ∧
      (bytesOf v).length = 4 + cnt * field) →
    (∀ v ∈ xs, fromBytes t (bytesOf v) = .ok v) →
    ((xs.map bytesOf).flatten).length ≤ fuel →
    appendVarAux t field fuel ((xs.map bytesOf).flatten) = .ok xs := by
  intro xs
  induction xs with
  | nil =>
    intro fuel _ _ _
    cases fuel with
    | zero => rfl
    | succ f => rfl
  | cons v rest ih =>
    intro fuel hshape hrt hfuel
    rcases hshape v (List.mem_cons_self _ _) with ⟨cnt, hc1, hc2, hc3⟩
    simp only [List.map_cons, List.flatten_cons] at hfuel ⊢
    have hblen : (bytesOf v ++ (rest.map bytesOf).flatten).length =
        (4 + cnt * field) + ((rest.map bytesOf).flatten).length := by
      simp [List.length_append, hc3]
    cases fuel with
    | zero =>
      exfalso
      omega
    | succ f =>
      simp only [appendVarAux]
      rw [if_neg (by omega), if_neg (by omega)]
      have ht4 : (bytesOf v ++ (rest.map bytesOf).flatten).take 4 = u32LE cnt := by
        rw [take_append_of_le _ _ 4 (by omega), hc1]
      rw [ht4, readU32LE_u32LE _ hc2]
      rw [if_neg (by omega)]
      rw [take_len_append _ _ _ hc3, drop_len_append _ _ _ hc3]
      rw [hrt v (List.mem_cons_self _ _)]
      rw [ih f (fun y hy => hshape y (List.mem_cons_of_mem _ hy))
        (fun y hy => hrt y (List.mem_cons_of_mem _ hy)) (by omega)]
      rfl

theorem appendVar_flatten (t field : Nat) (xs : List Value)
    (hshape : ∀ v ∈ xs, ∃ cnt, (bytesOf v).take 4 = u32LE cnt ∧ cnt < 4294967296 ∧
      (bytesOf v).length = 4 + cnt * field)
    (hrt : ∀ v ∈ xs, fromBytes t (bytesOf v) = .ok v) :
    appendVar t field ((xs.map bytesOf).flatten) = .ok xs :=
  appendVarAux_flatten t field xs _ hshape hrt (le_refl _)

/-! ## Field-split (interleaveFields / deinterleaveFields) round trip -/

theorem interleaveCols_spec : ∀ (ps : List (List Nat × Nat)) (n : Nat),
    (∀ p ∈ ps, p.2 ≠ 0 ∧ p.1.length = p.2 * n) →
    interleaveCols ps = .ok ((ps.map (fun p => transpose p.2 n p.1)).flatten) := by
  intro ps
  induction ps with
  | nil => intro n _; rfl
  | cons p rest ih =>
    intro n h
    obtain ⟨col, w⟩ := p
    rcases h (col, w) (List.mem_cons_self _ _) with ⟨hw, hlen⟩
    simp only [interleaveCols]
    rw [interleave_eq_transpose col w hw (by rw [hlen]; exact Nat.mul_mod_right w n)]
    have hdiv : col.length / w = n := by
      rw [hlen, Nat.mul_div_cancel_left n (by omega)]
    rw [hdiv, ih n (fun q hq => h q (List.mem_cons_of_mem _ hq))]
    rfl

theorem splitCols_spec : ∀ (ws : List Nat) (ds : List (List Nat)) (n : Nat),
    ds.length = ws.length →
    (∀ (i : Nat) (h1 : i < ds.length) (h2 : i < ws.length), ds[i].length = ws[i] * n) →
    splitCols ws n ds.flatten = ds := by
  intro ws
  induction ws with
  | nil =>
    intro ds n hlen _
    have : ds = [] := List.eq_nil_of_length_eq_zero (by simpa using hlen)
    subst this
    rfl
  | cons w ws ih =>
    intro ds n hlen hl
    cases ds with
    | nil => simp at hlen
    | cons d ds' =>
      simp only [List.flatten_cons, splitCols]
      have hd : d.length = w * n := hl 0 (by simp) (by simp)
      rw [take_len_append _ _ _ hd, drop_len_append _ _ _ hd]
      rw [ih ds' n (by simpa using hlen)
        (fun i h1 h2 => by
          have := hl (i + 1) (by simpa using h1) (by simpa using h2)
          simpa using this)]

theorem deinterleaveCols_transpose : ∀ (ps : List (List Nat × Nat)) (n : Nat),
    n ≠ 0 → (∀ p ∈ ps, p.2 ≠ 0 ∧ p.1.length = p.2 * n) →
    deinterleaveCols (ps.map (fun p => (transpose p.2 n p.1, p.2))) =
      .ok (ps.map Prod.fst) := by
  intro ps
  induction ps with
  | nil => intro n _ _; rfl
  | cons p rest ih =>
    intro n hn h
    obtain ⟨col, w⟩ := p
    rcases h (col, w) (List.mem_cons_self _ _) with ⟨hw, hlen⟩
    simp only [List.map_cons, deinterleaveCols]
    rw [deinterleave_transpose col w n hlen hw hn]
    rw [ih n hn (fun q hq => h q (List.mem_cons_of_mem _ hq))]
    rfl

theorem zip_map_pair {A B C : Type} : ∀ (ps : List (A × B)) (g : A × B → C),
    (ps.map g).zip (ps.map Prod.snd) = ps.map (fun p => (g p, p.2)) := by
  intro ps g
  induction ps with
  | nil => rfl
  | cons p rest ih => simp [ih]

theorem zip_map_pair2 {A B C : Type} (ps : List (A × B)) (ws : List B) (g : A × B → C)
    (h : ps.map Prod.snd = ws) :
    (ps.map g).zip ws = ps.map (fun p => (g p, p.2)) := by
  rw [← h]
  exact zip_map_pair ps g

theorem fieldsAt_buildCols (ws : List Nat) (xs : List Value) (i : Nat) (hi : i < xs.length)
    (hget : ∀ v ∈ xs, ∀ (f : Nat) (hf : f < ws.length), (fieldGet v f).length = ws[f]) :
    fieldsAt (buildCols xs ws.length) ws i =
      (List.range ws.length).map (fun f => fieldGet xs[i] f) := by
  have hbc : (buildCols xs ws.length).length = ws.length := by simp [buildCols]
  apply List.ext_getElem
  · simp [fieldsAt, buildCols]
  intro f h1 h2
  simp only [fieldsAt, List.getElem_map, List.getElem_zip, List.getElem_range]
  have hfw : f < ws.length := by
    simp only [fieldsAt, List.length_map, List.length_zip, hbc] at h1
    omega
  have hfb : f < (buildCols xs ws.length).length := by omega
  have hcol : (buildCols xs ws.length)[f] =
      ((xs.map (fun v => fieldGet v f)).flatten) := by
    simp [buildCols]
  rw [hcol]
  exact flatten_slice (fun v => fieldGet v f) xs ws[f] i hi
    (fun v hv => hget v hv f hfw)

/-- Encode-then-decode round trip of the field-split packing, generic in the
fielder kind: interleaveFields produces a blob that deinterleaveFields turns
back into the same values, with the deinterleaved column content as the final
buffer state. -/
theorem fielder_roundtrip (t : Nat) (xs : List Value)
    (hvalid : validType t = true)
    (hne : xs.length ≠ 0)
    (hty : ∀ v ∈ xs, ty v = t)
    (hget : ∀ v ∈ xs, ∀ (f : Nat) (hf : f < (fieldLens t).length),
      (fieldGet v f).length = (fieldLens t)[f])
    (hrebuild : ∀ v ∈ xs, valueFromFields t
      ((List.range (fieldLens t).length).map (fun f => fieldGet v f)) = v)
    (hwpos : ∀ w ∈ fieldLens t, w ≠ 0)
    (hsum : (fieldLens t).sum ≠ 0) :
    ∃ B, interleaveFields t xs = .ok B ∧
      deinterleaveFields t B = .ok (xs, (buildCols xs (fieldLens t).length).flatten) ∧
      B.length = (fieldLens t).sum * xs.length := by
  set ws := fieldLens t with hws
  set k := ws.length with hk
  set n := xs.length with hn
  set cs := buildCols xs k with hcs
  have hcslen : cs.length = k := by simp [hcs, buildCols]
  -- columns paired with widths
  have hzlen : (cs.zip ws).length = k := by
    rw [List.length_zip, hcslen]
    omega
  have hpair : ∀ p ∈ cs.zip ws, p.2 ≠ 0 ∧ p.1.length = p.2 * n := by
    intro p hp
    rcases List.mem_iff_getElem.mp hp with ⟨f, hf, heq⟩
    rw [List.getElem_zip] at heq
    subst heq
    have hfk : f < k := by omega
    constructor
    · exact hwpos _ (List.getElem_mem _)
    · have hfcs : f < cs.length := by omega
      have : cs[f] = ((xs.map (fun v => fieldGet v f)).flatten) := by
        simp [hcs, buildCols]
      rw [this]
      exact flatten_map_length xs _ _ (fun v hv => hget v hv f (by omega))
  -- encode
  have hany : (xs.any fun v => ty v != t) = false := by
    rw [List.any_eq_false]
    intro v hv
    simp [hty v hv]
  have henc : interleaveFields t xs =
      .ok (((cs.zip ws).map (fun p => transpose p.2 n p.1)).flatten) := by
    unfold interleaveFields
    rw [if_neg hne, if_neg (by rw [hany]; simp)]
    exact interleaveCols_spec (cs.zip ws) n hpair
  set Ts := (cs.zip ws).map (fun p => transpose p.2 n p.1) with hTs
  have hTlen : Ts.length = k := by
    rw [hTs, List.length_map, hzlen]
  have hTelem : ∀ (i : Nat) (h1 : i < Ts.length) (h2 : i < ws.length),
      Ts[i].length = ws[i] * n := by
    intro i h1 h2
    simp only [hTs, List.getElem_map, List.getElem_zip, length_transpose]
  have hTflat : Ts.flatten.length = ws.sum * n := by
    rw [List.length_flatten]
    have e1 : Ts.map List.length = ws.map (fun w => w * n) := by
      apply List.ext_getElem
      · simp only [List.length_map]
        rw [hTlen, hk]
      intro f hf1 hf2
      simp only [List.length_map] at hf1 hf2
      simp only [List.getElem_map]
      exact hTelem f (by omega) (by omega)
    rw [e1, sum_mul_of_map ws (fun w => w) n]
    simp
  -- decode
  have hts0 : ws.sum ≠ 0 := hsum
  have hn0 : n ≠ 0 := hne
  have hBlen0 : Ts.flatten.length ≠ 0 := by
    rw [hTflat]
    exact Nat.mul_ne_zero hts0 hn0
  refine ⟨Ts.flatten, henc, ?_, hTflat⟩
  unfold deinterleaveFields
  rw [if_neg hBlen0, if_neg (by rw [hvalid]; simp), ← hws, if_neg hts0]
  rw [if_neg (by rw [hTflat]; rw [Nat.mul_comm]; simp [Nat.mul_mod_right])]
  have hnv : Ts.flatten.length / ws.sum = n := by
    rw [hTflat]
    exact Nat.mul_div_cancel_left n (Nat.pos_of_ne_zero hts0)
  rw [hnv]
  have hsplit : splitCols ws n Ts.flatten = Ts := by
    apply splitCols_spec ws Ts n (by omega)
    intro i h1 h2
    exact hTelem i h1 h2
  have hzip2 : Ts.zip ws = (cs.zip ws).map (fun p => (transpose p.2 n p.1, p.2)) := by
    have hwssnd : (cs.zip ws).map Prod.snd = ws := by
      apply List.map_snd_zip
      omega
    rw [hTs]
    exact zip_map_pair2 (cs.zip ws) ws _ hwssnd
  have hfst : (cs.zip ws).map Prod.fst = cs := by
    apply List.map_fst_zip
    omega
  have hrest := deinterleaveCols_transpose (cs.zip ws) n hn0 hpair
  rw [hfst] at hrest
  have hvals : (List.range n).map (fun i => valueFromFields t (fieldsAt cs ws i)) = xs := by
    apply List.ext_getElem
    · simp [hn]
    intro i h1 h2
    simp only [List.getElem_map, List.getElem_range]
    have hik : i < xs.length := by simpa using h2
    have := fieldsAt_buildCols ws xs i hik (fun v hv f hf => hget v hv f hf)
    rw [← hk, ← hcs] at this
    rw [this]
    exact hrebuild _ (List.getElem_mem _)
  show (let nvalues := n;
    match deinterleaveCols ((splitCols ws nvalues Ts.flatten).zip ws) with
    | Except.error e => Except.error e
    | Except.ok cols =>
      Except.ok (List.map (fun i => valueFromFields t (fieldsAt cols ws i))
        (List.range nvalues), cols.flatten)) = Except.ok (xs, cs.flatten)
  simp only [hsplit, hzip2, hrest, hvals]


/-! ## Constructor inversion from type tags -/

theorem ty_inv_str (v : Value) (h : ty v = typeString) : ∃ s, v = .str s := by
  cases v <;> simp [ty] at h ⊢

theorem ty_inv_bool (v : Value) (h : ty v = typeBool) : ∃ b, v = .bool b := by
  cases v <;> simp [ty] at h ⊢

theorem ty_inv_int (v : Value) (h : ty v = typeInt) : ∃ n, v = .int n := by
  cases v <;> simp [ty] at h ⊢

theorem ty_inv_float (v : Value) (h : ty v = typeFloat) : ∃ f, v = .float f := by
  cases v <;> simp [ty] at h ⊢

theorem ty_inv_double (v : Value) (h : ty v = typeDouble) : ∃ d, v = .double d := by
  cases v <;> simp [ty] at h ⊢

theorem ty_inv_udim (v : Value) (h : ty v = typeUDim) : ∃ sc off, v = .udim sc off := by
  cases v <;> simp [ty] at h ⊢

theorem ty_inv_udim2 (v : Value) (h : ty v = typeUDim2) : ∃ sx sy ox oy, v = .udim2 sx sy ox oy := by
  cases v <;> simp [ty] at h ⊢

theorem ty_inv_ray (v : Value) (h : ty v = typeRay) : ∃ ox oy oz dx dy dz, v = .ray ox oy oz dx dy dz := by
  cases v <;> simp [ty] at h ⊢

theorem ty_inv_faces (v : Value) (h : ty v = typeFaces) : ∃ r t2 bk l bt f, v = .faces r t2 bk l bt f := by
  cases v <;> simp [ty] at h ⊢

theorem ty_inv_axes (v : Value) (h : ty v = typeAxes) : ∃ x y z, v = .axes x y z := by
  cases v <;> simp [ty] at h ⊢

theorem ty_inv_brickColor (v : Value) (h : ty v = typeBrickColor) : ∃ n, v = .brickColor n := by
  cases v <;> simp [ty] at h ⊢

theorem ty_inv_color3 (v : Value) (h : ty v = typeColor3) : ∃ r g b, v = .color3 r g b := by
  cases v <;> simp [ty] at h ⊢

theorem ty_inv_vector2 (v : Value) (h : ty v = typeVector2) : ∃ x y, v = .vector2 x y := by
  cases v <;> simp [ty] at h ⊢

theorem ty_inv_vector3 (v : Value) (h : ty v = typeVector3) : ∃ x y z, v = .vector3 x y z := by
  cases v <;> simp [ty] at h ⊢

theorem ty_inv_cframe (v : Value) (h : ty v = typeCFrame) : ∃ sp rot pos, v = .cframe sp rot pos := by
  cases v <;> simp [ty] at h ⊢

theorem ty_inv_token (v : Value) (h : ty v = typeToken) : ∃ n, v = .token n := by
  cases v <;> simp [ty] at h ⊢

theorem ty_inv_reference (v : Value) (h : ty v = typeReference) : ∃ n, v = .reference n := by
  cases v <;> simp [ty] at h ⊢

theorem ty_inv_vector3int16 (v : Value) (h : ty v = typeVector3int16) : ∃ x y z, v = .vector3int16 x y z := by
  cases v <;> simp [ty] at h ⊢

theorem ty_inv_numberSequence (v : Value) (h : ty v = typeNumberSequence) : ∃ ks, v = .numberSequence ks := by
  cases v <;> simp [ty] at h ⊢

theorem ty_inv_colorSequence (v : Value) (h : ty v = typeColorSequence) : ∃ ks, v = .colorSequence ks := by
  cases v <;> simp [ty] at h ⊢

theorem ty_inv_numberRange (v : Value) (h : ty v = typeNumberRange) : ∃ lo hi, v = .numberRange lo hi := by
  cases v <;> simp [ty] at h ⊢

theorem ty_inv_rect2d (v : Value) (h : ty v = typeRect2D) : ∃ a b c d, v = .rect2d a b c d := by
  cases v <;> simp [ty] at h ⊢

theorem ty_inv_physicalProperties (v : Value) (h : ty v = typePhysicalProperties) : ∃ c d f e fw ew, v = .physicalProperties c d f e fw ew := by
  cases v <;> simp [ty] at h ⊢

theorem ty_inv_color3uint8 (v : Value) (h : ty v = typeColor3uint8) : ∃ r g b, v = .color3uint8 r g b := by
  cases v <;> simp [ty] at h ⊢

theorem ty_inv_int64 (v : Value) (h : ty v = typeInt64) : ∃ n, v = .int64 n := by
  cases v <;> simp [ty] at h ⊢

theorem ty_inv_sharedString (v : Value) (h : ty v = typeSharedString) : ∃ n, v = .sharedString n := by
  cases v <;> simp [ty] at h ⊢

/-! ## Except helpers -/

theorem bind_ok {α β : Type} (x : α) (f : α → Except Err β) :
    (Except.ok x : Except Err α).bind f = f x := rfl

theorem map_ok {α β : Type} (x : α) (f : α → β) :
    (Except.ok x : Except Err α).map f = .ok (f x) := rfl

/-! ## Sequence keypoint parsing round trips -/

theorem parseNSKs_flatten : ∀ (ks : List NSK),
    (∀ k ∈ ks, k.time < 4294967296 ∧ k.val < 4294967296 ∧ k.env < 4294967296) →
    parseNSKs ks.length
      ((ks.map (fun k => u32LE k.time ++ u32LE k.val ++ u32LE k.env)).flatten) = ks := by
  intro ks
  induction ks with
  | nil => intro _; rfl
  | cons k rest ih =>
    intro h
    rcases h k (List.mem_cons_self _ _) with ⟨h1, h2, h3⟩
    simp only [List.map_cons, List.flatten_cons, List.length_cons]
    show NSK.mk _ _ _ :: parseNSKs rest.length _ = _
    have e1 : (((u32LE k.time ++ u32LE k.val ++ u32LE k.env) ++
        (rest.map (fun k => u32LE k.time ++ u32LE k.val ++ u32LE k.env)).flatten).take 4)
        = u32LE k.time := rfl
    have e2 : ((((u32LE k.time ++ u32LE k.val ++ u32LE k.env) ++
        (rest.map (fun k => u32LE k.time ++ u32LE k.val ++ u32LE k.env)).flatten).drop 4).take 4)
        = u32LE k.val := rfl
    have e3 : ((((u32LE k.time ++ u32LE k.val ++ u32LE k.env) ++
        (rest.map (fun k => u32LE k.time ++ u32LE k.val ++ u32LE k.env)).flatten).drop 8).take 4)
        = u32LE k.env := rfl
    have e4 : (((u32LE k.time ++ u32LE k.val ++ u32LE k.env) ++
        (rest.map (fun k => u32LE k.time ++ u32LE k.val ++ u32LE k.env)).flatten).drop 12)
        = (rest.map (fun k => u32LE k.time ++ u32LE k.val ++ u32LE k.env)).flatten := rfl
    rw [e1, e2, e3, e4, readU32LE_u32LE _ h1, readU32LE_u32LE _ h2, readU32LE_u32LE _ h3]
    rw [ih (fun y hy => h y (List.mem_cons_of_mem _ hy))]

theorem parseCSKs_flatten : ∀ (ks : List CSK),
    (∀ k ∈ ks, k.time < 4294967296 ∧ k.r < 4294967296 ∧ k.g < 4294967296 ∧
      k.b < 4294967296 ∧ k.env < 4294967296) →
    parseCSKs ks.length
      ((ks.map (fun k => u32LE k.time ++ u32LE k.r ++ u32LE k.g ++ u32LE k.b ++
        u32LE k.env)).flatten) = ks := by
  intro ks
  induction ks with
  | nil => intro _; rfl
  | cons k rest ih =>
    intro h
    rcases h k (List.mem_cons_self _ _) with ⟨h1, h2, h3, h4, h5⟩
    simp only [List.map_cons, List.flatten_cons, List.length_cons]
    show CSK.mk _ _ _ _ _ :: parseCSKs rest.length _ = _
    have e1 : (((u32LE k.time ++ u32LE k.r ++ u32LE k.g ++ u32LE k.b ++ u32LE k.env) ++
        (rest.map (fun k => u32LE k.time ++ u32LE k.r ++ u32LE k.g ++ u32LE k.b ++
          u32LE k.env)).flatten).take 4) = u32LE k.time := rfl
    have e2 : ((((u32LE k.time ++ u32LE k.r ++ u32LE k.g ++ u32LE k.b ++ u32LE k.env) ++
        (rest.map (fun k => u32LE k.time ++ u32LE k.r ++ u32LE k.g ++ u32LE k.b ++
          u32LE k.env)).flatten).drop 4).take 4) = u32LE k.r := rfl
    have e3 : ((((u32LE k.time ++ u32LE k.r ++ u32LE k.g ++ u32LE k.b ++ u32LE k.env) ++
        (rest.map (fun k => u32LE k.time ++ u32LE k.r ++ u32LE k.g ++ u32LE k.b ++
          u32LE k.env)).flatten).drop 8).take 4) = u32LE k.g := rfl
    have e4 : ((((u32LE k.time ++ u32LE k.r ++ u32LE k.g ++ u32LE k.b ++ u32LE k.env) ++
        (rest.map (fun k => u32LE k.time ++ u32LE k.r ++ u32LE k.g ++ u32LE k.b ++
          u32LE k.env)).flatten).drop 12).take 4) = u32LE k.b := rfl
    have e5 : ((((u32LE k.time ++ u32LE k.r ++ u32LE k.g ++ u32LE k.b ++ u32LE k.env) ++
        (rest.map (fun k => u32LE k.time ++ u32LE k.r ++ u32LE k.g ++ u32LE k.b ++
          u32LE k.env)).flatten).drop 16).take 4) = u32LE k.env := rfl
    have e6 : (((u32LE k.time ++ u32LE k.r ++ u32LE k.g ++ u32LE k.b ++ u32LE k.env) ++
        (rest.map (fun k => u32LE k.time ++ u32LE k.r ++ u32LE k.g ++ u32LE k.b ++
          u32LE k.env)).flatten).drop 20)
        = (rest.map (fun k => u32LE k.time ++ u32LE k.r ++ u32LE k.g ++ u32LE k.b ++
          u32LE k.env)).flatten := rfl
    rw [e1, e2, e3, e4, e5, e6, readU32LE_u32LE _ h1, readU32LE_u32LE _ h2,
      readU32LE_u32LE _ h3, readU32LE_u32LE _ h4, readU32LE_u32LE _ h5]
    rw [ih (fun y hy => h y (List.mem_cons_of_mem _ hy))]

theorem roundtrip_numberSequence (ks : List NSK) (hl : ks.length < 4294967296)
    (hb : ∀ k ∈ ks, k.time < 4294967296 ∧ k.val < 4294967296 ∧ k.env < 4294967296) :
    numberSequenceFromBytes (bytesOf (.numberSequence ks)) = .ok (.numberSequence ks) := by
  have hflat : ((ks.map (fun k => u32LE k.time ++ u32LE k.val ++ u32LE k.env)).flatten).length
      = 12 * ks.length := by
    have := flatten_map_length ks (fun k => u32LE k.time ++ u32LE k.val ++ u32LE k.env) 12
      (fun k _ => by simp [u32LE])
    omega
  have hlen : (bytesOf (Value.numberSequence ks)).length = 4 + 12 * ks.length := by
    show (u32LE ks.length ++ _).length = _
    rw [List.length_append, length_u32LE]
    omega
  have e1 : (bytesOf (Value.numberSequence ks)).take 4 = u32LE ks.length := rfl
  have e2 : (bytesOf (Value.numberSequence ks)).drop 4 =
      ((ks.map (fun k => u32LE k.time ++ u32LE k.val ++ u32LE k.env)).flatten) := rfl
  unfold numberSequenceFromBytes
  rw [if_neg (by omega), e1, e2, readU32LE_u32LE _ hl, if_neg (by omega),
    parseNSKs_flatten ks hb]

theorem roundtrip_colorSequence (ks : List CSK) (hl : ks.length < 4294967296)
    (hb : ∀ k ∈ ks, k.time < 4294967296 ∧ k.r < 4294967296 ∧ k.g < 4294967296 ∧
      k.b < 4294967296 ∧ k.env < 4294967296) :
    colorSequenceFromBytes (bytesOf (.colorSequence ks)) = .ok (.colorSequence ks) := by
  have hflat : ((ks.map (fun k => u32LE k.time ++ u32LE k.r ++ u32LE k.g ++ u32LE k.b ++
      u32LE k.env)).flatten).length = 20 * ks.length := by
    have := flatten_map_length ks
      (fun k => u32LE k.time ++ u32LE k.r ++ u32LE k.g ++ u32LE k.b ++ u32LE k.env) 20
      (fun k _ => by simp [u32LE])
    omega
  have hlen : (bytesOf (Value.colorSequence ks)).length = 4 + 20 * ks.length := by
    show (u32LE ks.length ++ _).length = _
    rw [List.length_append, length_u32LE]
    omega
  have e1 : (bytesOf (Value.colorSequence ks)).take 4 = u32LE ks.length := rfl
  have e2 : (bytesOf (Value.colorSequence ks)).drop 4 =
      ((ks.map (fun k => u32LE k.time ++ u32LE k.r ++ u32LE k.g ++ u32LE k.b ++
        u32LE k.env)).flatten) := rfl
  unfold colorSequenceFromBytes
  rw [if_neg (by omega), e1, e2, readU32LE_u32LE _ hl, if_neg (by omega),
    parseCSKs_flatten ks hb]

/-! ## Rebuilding fielder values from their own field bytes -/

theorem rebuild_udim (sc : Nat) (off : Int) (h1 : sc < 4294967296)
    (h2 : -2147483648 ≤ off) (h3 : off < 2147483648) :
    valueFromFields typeUDim ((List.range (fieldLens typeUDim).length).map
      (fun f => fieldGet (.udim sc off) f)) = .udim sc off := by
  have e : valueFromFields typeUDim ((List.range (fieldLens typeUDim).length).map
      (fun f => fieldGet (.udim sc off) f)) =
      .udim (decodeRobloxFloat (readU32BE (u32BE (encodeRobloxFloat sc))))
        (decodeZigzag32 (readU32BE (u32BE (encodeZigzag32 off)))) := rfl
  rw [e, readU32BE_u32BE _ (encodeRobloxFloat_lt _ h1),
    readU32BE_u32BE _ (encodeZigzag32_lt _ h2 h3),
    decode_encode_robloxFloat _ h1, decode_encode_zigzag32 _ h2 h3]

theorem rebuild_udim2 (sx sy : Nat) (ox oy : Int) (h1 : sx < 4294967296)
    (h2 : sy < 4294967296) (h3 : -2147483648 ≤ ox) (h4 : ox < 2147483648)
    (h5 : -2147483648 ≤ oy) (h6 : oy < 2147483648) :
    valueFromFields typeUDim2 ((List.range (fieldLens typeUDim2).length).map
      (fun f => fieldGet (.udim2 sx sy ox oy) f)) = .udim2 sx sy ox oy := by
  have e : valueFromFields typeUDim2 ((List.range (fieldLens typeUDim2).length).map
      (fun f => fieldGet (.udim2 sx sy ox oy) f)) =
      .udim2 (decodeRobloxFloat (readU32BE (u32BE (encodeRobloxFloat sx))))
        (decodeRobloxFloat (readU32BE (u32BE (encodeRobloxFloat sy))))
        (decodeZigzag32 (readU32BE (u32BE (encodeZigzag32 ox))))
        (decodeZigzag32 (readU32BE (u32BE (encodeZigzag32 oy)))) := rfl
  rw [e, readU32BE_u32BE _ (encodeRobloxFloat_lt _ h1),
    readU32BE_u32BE _ (encodeRobloxFloat_lt _ h2),
    readU32BE_u32BE _ (encodeZigzag32_lt _ h3 h4),
    readU32BE_u32BE _ (encodeZigzag32_lt _ h5 h6),
    decode_encode_robloxFloat _ h1, decode_encode_robloxFloat _ h2,
    decode_encode_zigzag32 _ h3 h4, decode_encode_zigzag32 _ h5 h6]

theorem rebuild_color3 (r g b : Nat) (h1 : r < 4294967296) (h2 : g < 4294967296)
    (h3 : b < 4294967296) :
    valueFromFields typeColor3 ((List.range (fieldLens typeColor3).length).map
      (fun f => fieldGet (.color3 r g b) f)) = .color3 r g b := by
  have e : valueFromFields typeColor3 ((List.range (fieldLens typeColor3).length).map
      (fun f => fieldGet (.color3 r g b) f)) =
      .color3 (decodeRobloxFloat (readU32BE (u32BE (encodeRobloxFloat r))))
        (decodeRobloxFloat (readU32BE (u32BE (encodeRobloxFloat g))))
        (decodeRobloxFloat (readU32BE (u32BE (encodeRobloxFloat b)))) := rfl
  rw [e, readU32BE_u32BE _ (encodeRobloxFloat_lt _ h1),
    readU32BE_u32BE _ (encodeRobloxFloat_lt _ h2),
    readU32BE_u32BE _ (encodeRobloxFloat_lt _ h3),
    decode_encode_robloxFloat _ h1, decode_encode_robloxFloat _ h2,
    decode_encode_robloxFloat _ h3]

theorem rebuild_vector2 (x y : Nat) (h1 : x < 4294967296) (h2 : y < 4294967296) :
    valueFromFields typeVector2 ((List.range (fieldLens typeVector2).length).map
      (fun f => fieldGet (.vector2 x y) f)) = .vector2 x y := by
  have e : valueFromFields typeVector2 ((List.range (fieldLens typeVector2).length).map
      (fun f => fieldGet (.vector2 x y) f)) =
      .vector2 (decodeRobloxFloat (readU32BE (u32BE (encodeRobloxFloat x))))
        (decodeRobloxFloat (readU32BE (u32BE (encodeRobloxFloat y)))) := rfl
  rw [e, readU32BE_u32BE _ (encodeRobloxFloat_lt _ h1),
    readU32BE_u32BE _ (encodeRobloxFloat_lt _ h2),
    decode_encode_robloxFloat _ h1, decode_encode_robloxFloat _ h2]

theorem rebuild_vector3 (x y z : Nat) (h1 : x < 4294967296) (h2 : y < 4294967296)
    (h3 : z < 4294967296) :
    valueFromFields typeVector3 ((List.range (fieldLens typeVector3).length).map
      (fun f => fieldGet (.vector3 x y z) f)) = .vector3 x y z := by
  have e : valueFromFields typeVector3 ((List.range (fieldLens typeVector3).length).map
      (fun f => fieldGet (.vector3 x y z) f)) =
      .vector3 (decodeRobloxFloat (readU32BE (u32BE (encodeRobloxFloat x))))
        (decodeRobloxFloat (readU32BE (u32BE (encodeRobloxFloat y))))
        (decodeRobloxFloat (readU32BE (u32BE (encodeRobloxFloat z)))) := rfl
  rw [e, readU32BE_u32BE _ (encodeRobloxFloat_lt _ h1),
    readU32BE_u32BE _ (encodeRobloxFloat_lt _ h2),
    readU32BE_u32BE _ (encodeRobloxFloat_lt _ h3),
    decode_encode_robloxFloat _ h1, decode_encode_robloxFloat _ h2,
    decode_encode_robloxFloat _ h3]

theorem rebuild_rect2d (a b c d : Nat) (h1 : a < 4294967296) (h2 : b < 4294967296)
    (h3 : c < 4294967296) (h4 : d < 4294967296) :
    valueFromFields typeRect2D ((List.range (fieldLens typeRect2D).length).map
      (fun f => fieldGet (.rect2d a b c d) f)) = .rect2d a b c d := by
  have e : valueFromFields typeRect2D ((List.range (fieldLens typeRect2D).length).map
      (fun f => fieldGet (.rect2d a b c d) f)) =
      .rect2d (decodeRobloxFloat (readU32BE (u32BE (encodeRobloxFloat a))))
        (decodeRobloxFloat (readU32BE (u32BE (encodeRobloxFloat b))))
        (decodeRobloxFloat (readU32BE (u32BE (encodeRobloxFloat c))))
        (decodeRobloxFloat (readU32BE (u32BE (encodeRobloxFloat d)))) := rfl
  rw [e, readU32BE_u32BE _ (encodeRobloxFloat_lt _ h1),
    readU32BE_u32BE _ (encodeRobloxFloat_lt _ h2),
    readU32BE_u32BE _ (encodeRobloxFloat_lt _ h3),
    readU32BE_u32BE _ (encodeRobloxFloat_lt _ h4),
    decode_encode_robloxFloat _ h1, decode_encode_robloxFloat _ h2,
    decode_encode_robloxFloat _ h3, decode_encode_robloxFloat _ h4]

theorem rebuild_color3uint8 (r g b : Nat) :
    valueFromFields typeColor3uint8 ((List.range (fieldLens typeColor3uint8).length).map
      (fun f => fieldGet (.color3uint8 r g b) f)) = .color3uint8 r g b := rfl


/-! ## Array round trips: plain concatenation kinds -/

theorem rt_bool (xs : List Value) (hty : ∀ v ∈ xs, ty v = typeBool)
    (hwf : ∀ v ∈ xs, wf v) :
    (valuesToBytes typeBool xs).bind
      (fun b => (valuesFromBytes typeBool b).map Prod.fst) = .ok xs := by
  have hany : (xs.any fun v => ty v != typeBool) = false := by
    rw [List.any_eq_false]
    intro v hv
    simp [hty v hv]
  have hlen1 : ∀ v ∈ xs, (bytesOf v).length = 1 := by
    intro v hv
    obtain ⟨b, rfl⟩ := ty_inv_bool v (hty v hv)
    simp [bytesOf, u32LE, u64LE, u16LE]
  have hrt1 : ∀ v ∈ xs, fromBytes typeBool (bytesOf v) = .ok v := by
    intro v hv
    obtain ⟨b, rfl⟩ := ty_inv_bool v (hty v hv)
    exact roundtrip_bool b
  have henc : valuesToBytes typeBool xs = .ok ((xs.map bytesOf).flatten) := by
    unfold valuesToBytes
    rw [if_neg (by decide), if_neg (by rw [hany]; simp)]
    show appendValueBytes typeBool xs = _
    unfold appendValueBytes
    rw [if_neg (by rw [hany]; simp)]
  rw [henc, bind_ok]
  have hdec : valuesFromBytes typeBool ((xs.map bytesOf).flatten) =
      .ok (xs, (xs.map bytesOf).flatten) := by
    show (appendFixed typeBool 1 ((xs.map bytesOf).flatten)).map
      (fun a => (a, (xs.map bytesOf).flatten)) = _
    rw [appendFixed_flatten _ _ _ (by omega) hlen1 hrt1]
    rfl
  rw [hdec, map_ok]

theorem rt_faces (xs : List Value) (hty : ∀ v ∈ xs, ty v = typeFaces)
    (hwf : ∀ v ∈ xs, wf v) :
    (valuesToBytes typeFaces xs).bind
      (fun b => (valuesFromBytes typeFaces b).map Prod.fst) = .ok xs := by
  have hany : (xs.any fun v => ty v != typeFaces) = false := by
    rw [List.any_eq_false]
    intro v hv
    simp [hty v hv]
  have hlen1 : ∀ v ∈ xs, (bytesOf v).length = 1 := by
    intro v hv
    obtain ⟨r, t2, bk, l, bt, f, rfl⟩ := ty_inv_faces v (hty v hv)
    simp [bytesOf, u32LE, u64LE, u16LE]
  have hrt1 : ∀ v ∈ xs, fromBytes typeFaces (bytesOf v) = .ok v := by
    intro v hv
    obtain ⟨r, t2, bk, l, bt, f, rfl⟩ := ty_inv_faces v (hty v hv)
    exact roundtrip_faces r t2 bk l bt f
  have henc : valuesToBytes typeFaces xs = .ok ((xs.map bytesOf).flatten) := by
    unfold valuesToBytes
    rw [if_neg (by decide), if_neg (by rw [hany]; simp)]
    show appendValueBytes typeFaces xs = _
    unfold appendValueBytes
    rw [if_neg (by rw [hany]; simp)]
  rw [henc, bind_ok]
  have hdec : valuesFromBytes typeFaces ((xs.map bytesOf).flatten) =
      .ok (xs, (xs.map bytesOf).flatten) := by
    show (appendFixed typeFaces 1 ((xs.map bytesOf).flatten)).map
      (fun a => (a, (xs.map bytesOf).flatten)) = _
    rw [appendFixed_flatten _ _ _ (by omega) hlen1 hrt1]
    rfl
  rw [hdec, map_ok]

theorem rt_axes (xs : List Value) (hty : ∀ v ∈ xs, ty v = typeAxes)
    (hwf : ∀ v ∈ xs, wf v) :
    (valuesToBytes typeAxes xs).bind
      (fun b => (valuesFromBytes typeAxes b).map Prod.fst) = .ok xs := by
  have hany : (xs.any fun v => ty v != typeAxes) = false := by
    rw [List.any_eq_false]
    intro v hv
    simp [hty v hv]
  have hlen1 : ∀ v ∈ xs, (bytesOf v).length = 1 := by
    intro v hv
    obtain ⟨x, y, z, rfl⟩ := ty_inv_axes v (hty v hv)
    simp [bytesOf, u32LE, u64LE, u16LE]
  have hrt1 : ∀ v ∈ xs, fromBytes typeAxes (bytesOf v) = .ok v := by
    intro v hv
    obtain ⟨x, y, z, rfl⟩ := ty_inv_axes v (hty v hv)
    exact roundtrip_axes x y z
  have henc : valuesToBytes typeAxes xs = .ok ((xs.map bytesOf).flatten) := by
    unfold valuesToBytes
    rw [if_neg (by decide), if_neg (by rw [hany]; simp)]
    show appendValueBytes typeAxes xs = _
    unfold appendValueBytes
    rw [if_neg (by rw [hany]; simp)]
  rw [henc, bind_ok]
  have hdec : valuesFromBytes typeAxes ((xs.map bytesOf).flatten) =
      .ok (xs, (xs.map bytesOf).flatten) := by
    show (appendFixed typeAxes 1 ((xs.map bytesOf).flatten)).map
      (fun a => (a, (xs.map bytesOf).flatten)) = _
    rw [appendFixed_flatten _ _ _ (by omega) hlen1 hrt1]
    rfl
  rw [hdec, map_ok]

theorem rt_vector3int16 (xs : List Value) (hty : ∀ v ∈ xs, ty v = typeVector3int16)
    (hwf : ∀ v ∈ xs, wf v) :
    (valuesToBytes typeVector3int16 xs).bind
      (fun b => (valuesFromBytes typeVector3int16 b).map Prod.fst) = .ok xs := by
  have hany : (xs.any fun v => ty v != typeVector3int16) = false := by
    rw [List.any_eq_false]
    intro v hv
    simp [hty v hv]
  have hlen1 : ∀ v ∈ xs, (bytesOf v).length = 6 := by
    intro v hv
    obtain ⟨x, y, z, rfl⟩ := ty_inv_vector3int16 v (hty v hv)
    simp [bytesOf, u32LE, u64LE, u16LE]
  have hrt1 : ∀ v ∈ xs, fromBytes typeVector3int16 (bytesOf v) = .ok v := by
    intro v hv
    obtain ⟨x, y, z, rfl⟩ := ty_inv_vector3int16 v (hty v hv)
    have hw := hwf _ hv
    simp only [wf] at hw
    exact roundtrip_vector3int16 x y z hw.1 hw.2.1 hw.2.2.1 hw.2.2.2.1 hw.2.2.2.2.1 hw.2.2.2.2.2
  have henc : valuesToBytes typeVector3int16 xs = .ok ((xs.map bytesOf).flatten) := by
    unfold valuesToBytes
    rw [if_neg (by decide), if_neg (by rw [hany]; simp)]
    show appendValueBytes typeVector3int16 xs = _
    unfold appendValueBytes
    rw [if_neg (by rw [hany]; simp)]
  rw [henc, bind_ok]
  have hdec : valuesFromBytes typeVector3int16 ((xs.map bytesOf).flatten) =
      .ok (xs, (xs.map bytesOf).flatten) := by
    show (appendFixed typeVector3int16 6 ((xs.map bytesOf).flatten)).map
      (fun a => (a, (xs.map bytesOf).flatten)) = _
    rw [appendFixed_flatten _ _ _ (by omega) hlen1 hrt1]
    rfl
  rw [hdec, map_ok]

theorem rt_double (xs : List Value) (hty : ∀ v ∈ xs, ty v = typeDouble)
    (hwf : ∀ v ∈ xs, wf v) :
    (valuesToBytes typeDouble xs).bind
      (fun b => (valuesFromBytes typeDouble b).map Prod.fst) = .ok xs := by
  have hany : (xs.any fun v => ty v != typeDouble) = false := by
    rw [List.any_eq_false]
    intro v hv
    simp [hty v hv]
  have hlen1 : ∀ v ∈ xs, (bytesOf v).length = 8 := by
    intro v hv
    obtain ⟨d, rfl⟩ := ty_inv_double v (hty v hv)
    simp [bytesOf, u32LE, u64LE, u16LE]
  have hrt1 : ∀ v ∈ xs, fromBytes typeDouble (bytesOf v) = .ok v := by
    intro v hv
    obtain ⟨d, rfl⟩ := ty_inv_double v (hty v hv)
    have hw := hwf _ hv
    simp only [wf] at hw
    exact roundtrip_double d hw
  have henc : valuesToBytes typeDouble xs = .ok ((xs.map bytesOf).flatten) := by
    unfold valuesToBytes
    rw [if_neg (by decide), if_neg (by rw [hany]; simp)]
    show appendValueBytes typeDouble xs = _
    unfold appendValueBytes
    rw [if_neg (by rw [hany]; simp)]
  rw [henc, bind_ok]
  have hdec : valuesFromBytes typeDouble ((xs.map bytesOf).flatten) =
      .ok (xs, (xs.map bytesOf).flatten) := by
    show (appendFixed typeDouble 8 ((xs.map bytesOf).flatten)).map
      (fun a => (a, (xs.map bytesOf).flatten)) = _
    rw [appendFixed_flatten _ _ _ (by omega) hlen1 hrt1]
    rfl
  rw [hdec, map_ok]

theorem rt_numberRange (xs : List Value) (hty : ∀ v ∈ xs, ty v = typeNumberRange)
    (hwf : ∀ v ∈ xs, wf v) :
    (valuesToBytes typeNumberRange xs).bind
      (fun b => (valuesFromBytes typeNumberRange b).map Prod.fst) = .ok xs := by
  have hany : (xs.any fun v => ty v != typeNumberRange) = false := by
    rw [List.any_eq_false]
    intro v hv
    simp [hty v hv]
  have hlen1 : ∀ v ∈ xs, (bytesOf v).length = 8 := by
    intro v hv
    obtain ⟨lo, hi, rfl⟩ := ty_inv_numberRange v (hty v hv)
    simp [bytesOf, u32LE, u64LE, u16LE]
  have hrt1 : ∀ v ∈ xs, fromBytes typeNumberRange (bytesOf v) = .ok v := by
    intro v hv
    obtain ⟨lo, hi, rfl⟩ := ty_inv_numberRange v (hty v hv)
    have hw := hwf _ hv
    simp only [wf] at hw
    exact roundtrip_numberRange lo hi hw.1 hw.2
  have henc : valuesToBytes typeNumberRange xs = .ok ((xs.map bytesOf).flatten) := by
    unfold valuesToBytes
    rw [if_neg (by decide), if_neg (by rw [hany]; simp)]
    show appendValueBytes typeNumberRange xs = _
    unfold appendValueBytes
    rw [if_neg (by rw [hany]; simp)]
  rw [henc, bind_ok]
  have hdec : valuesFromBytes typeNumberRange ((xs.map bytesOf).flatten) =
      .ok (xs, (xs.map bytesOf).flatten) := by
    show (appendFixed typeNumberRange 8 ((xs.map bytesOf).flatten)).map
      (fun a => (a, (xs.map bytesOf).flatten)) = _
    rw [appendFixed_flatten _ _ _ (by omega) hlen1 hrt1]
    rfl
  rw [hdec, map_ok]

theorem rt_ray (xs : List Value) (hty : ∀ v ∈ xs, ty v = typeRay)
    (hwf : ∀ v ∈ xs, wf v) :
    (valuesToBytes typeRay xs).bind
      (fun b => (valuesFromBytes typeRay b).map Prod.fst) = .ok xs := by
  have hany : (xs.any fun v => ty v != typeRay) = false := by
    rw [List.any_eq_false]
    intro v hv
    simp [hty v hv]
  have hlen1 : ∀ v ∈ xs, (bytesOf v).length = 24 := by
    intro v hv
    obtain ⟨ox, oy, oz, dx, dy, dz, rfl⟩ := ty_inv_ray v (hty v hv)
    simp [bytesOf, u32LE, u64LE, u16LE]
  have hrt1 : ∀ v ∈ xs, fromBytes typeRay (bytesOf v) = .ok v := by
    intro v hv
    obtain ⟨ox, oy, oz, dx, dy, dz, rfl⟩ := ty_inv_ray v (hty v hv)
    have hw := hwf _ hv
    simp only [wf] at hw
    exact roundtrip_ray ox oy oz dx dy dz hw.1 hw.2.1 hw.2.2.1 hw.2.2.2.1 hw.2.2.2.2.1 hw.2.2.2.2.2
  have henc : valuesToBytes typeRay xs = .ok ((xs.map bytesOf).flatten) := by
    unfold valuesToBytes
    rw [if_neg (by decide), if_neg (by rw [hany]; simp)]
    show appendValueBytes typeRay xs = _
    unfold appendValueBytes
    rw [if_neg (by rw [hany]; simp)]
  rw [henc, bind_ok]
  have hdec : valuesFromBytes typeRay ((xs.map bytesOf).flatten) =
      .ok (xs, (xs.map bytesOf).flatten) := by
    show (appendFixed typeRay 24 ((xs.map bytesOf).flatten)).map
      (fun a => (a, (xs.map bytesOf).flatten)) = _
    rw [appendFixed_flatten _ _ _ (by omega) hlen1 hrt1]
    rfl
  rw [hdec, map_ok]


/-! ## Array round trips: variable-length kinds -/

theorem rt_str (xs : List Value) (hty : ∀ v ∈ xs, ty v = typeString)
    (hwf : ∀ v ∈ xs, wf v) :
    (valuesToBytes typeString xs).bind
      (fun b => (valuesFromBytes typeString b).map Prod.fst) = .ok xs := by
  have hany : (xs.any fun v => ty v != typeString) = false := by
    rw [List.any_eq_false]
    intro v hv
    simp [hty v hv]
  have hshape : ∀ v ∈ xs, ∃ cnt, (bytesOf v).take 4 = u32LE cnt ∧ cnt < 4294967296 ∧
      (bytesOf v).length = 4 + cnt * 1 := by
    intro v hv
    obtain ⟨s, rfl⟩ := ty_inv_str v (hty v hv)
    have hw := hwf _ hv
    simp only [wf] at hw
    refine ⟨s.length, rfl, hw.1, ?_⟩
    show (u32LE s.length ++ s).length = _
    rw [List.length_append, length_u32LE]
    omega
  have hrt1 : ∀ v ∈ xs, fromBytes typeString (bytesOf v) = .ok v := by
    intro v hv
    obtain ⟨s, rfl⟩ := ty_inv_str v (hty v hv)
    have hw := hwf _ hv
    simp only [wf] at hw
    exact roundtrip_str s hw.1
  have henc : valuesToBytes typeString xs = .ok ((xs.map bytesOf).flatten) := by
    unfold valuesToBytes
    rw [if_neg (by decide), if_neg (by rw [hany]; simp)]
    show appendValueBytes typeString xs = _
    unfold appendValueBytes
    rw [if_neg (by rw [hany]; simp)]
  rw [henc, bind_ok]
  have hdec : valuesFromBytes typeString ((xs.map bytesOf).flatten) =
      .ok (xs, (xs.map bytesOf).flatten) := by
    show (appendVar typeString 1 ((xs.map bytesOf).flatten)).map
      (fun a => (a, (xs.map bytesOf).flatten)) = _
    rw [appendVar_flatten _ _ _ hshape hrt1]
    rfl
  rw [hdec, map_ok]

theorem rt_numberSequence (xs : List Value) (hty : ∀ v ∈ xs, ty v = typeNumberSequence)
    (hwf : ∀ v ∈ xs, wf v) :
    (valuesToBytes typeNumberSequence xs).bind
      (fun b => (valuesFromBytes typeNumberSequence b).map Prod.fst) = .ok xs := by
  have hany : (xs.any fun v => ty v != typeNumberSequence) = false := by
    rw [List.any_eq_false]
    intro v hv
    simp [hty v hv]
  have hshape : ∀ v ∈ xs, ∃ cnt, (bytesOf v).take 4 = u32LE cnt ∧ cnt < 4294967296 ∧
      (bytesOf v).length = 4 + cnt * 12 := by
    intro v hv
    obtain ⟨ks, rfl⟩ := ty_inv_numberSequence v (hty v hv)
    have hw := hwf _ hv
    simp only [wf] at hw
    refine ⟨ks.length, rfl, hw.1, ?_⟩
    show (u32LE ks.length ++ _).length = _
    rw [List.length_append, length_u32LE,
      flatten_map_length ks _ 12 (fun k _ => by simp [u32LE])]
    ring
  have hrt1 : ∀ v ∈ xs, fromBytes typeNumberSequence (bytesOf v) = .ok v := by
    intro v hv
    obtain ⟨ks, rfl⟩ := ty_inv_numberSequence v (hty v hv)
    have hw := hwf _ hv
    simp only [wf] at hw
    exact roundtrip_numberSequence ks hw.1 hw.2
  have henc : valuesToBytes typeNumberSequence xs = .ok ((xs.map bytesOf).flatten) := by
    unfold valuesToBytes
    rw [if_neg (by decide), if_neg (by rw [hany]; simp)]
    show appendValueBytes typeNumberSequence xs = _
    unfold appendValueBytes
    rw [if_neg (by rw [hany]; simp)]
  rw [henc, bind_ok]
  have hdec : valuesFromBytes typeNumberSequence ((xs.map bytesOf).flatten) =
      .ok (xs, (xs.map bytesOf).flatten) := by
    show (appendVar typeNumberSequence 12 ((xs.map bytesOf).flatten)).map
      (fun a => (a, (xs.map bytesOf).flatten)) = _
    rw [appendVar_flatten _ _ _ hshape hrt1]
    rfl
  rw [hdec, map_ok]

theorem rt_colorSequence (xs : List Value) (hty : ∀ v ∈ xs, ty v = typeColorSequence)
    (hwf : ∀ v ∈ xs, wf v) :
    (valuesToBytes typeColorSequence xs).bind
      (fun b => (valuesFromBytes typeColorSequence b).map Prod.fst) = .ok xs := by
  have hany : (xs.any fun v => ty v != typeColorSequence) = false := by
    rw [List.any_eq_false]
    intro v hv
    simp [hty v hv]
  have hshape : ∀ v ∈ xs, ∃ cnt, (bytesOf v).take 4 = u32LE cnt ∧ cnt < 4294967296 ∧
      (bytesOf v).length = 4 + cnt * 20 := by
    intro v hv
    obtain ⟨ks, rfl⟩ := ty_inv_colorSequence v (hty v hv)
    have hw := hwf _ hv
    simp only [wf] at hw
    refine ⟨ks.length, rfl, hw.1, ?_⟩
    show (u32LE ks.length ++ _).length = _
    rw [List.length_append, length_u32LE,
      flatten_map_length ks _ 20 (fun k _ => by simp [u32LE])]
    ring
  have hrt1 : ∀ v ∈ xs, fromBytes typeColorSequence (bytesOf v) = .ok v := by
    intro v hv
    obtain ⟨ks, rfl⟩ := ty_inv_colorSequence v (hty v hv)
    have hw := hwf _ hv
    simp only [wf] at hw
    exact roundtrip_colorSequence ks hw.1 hw.2
  have henc : valuesToBytes typeColorSequence xs = .ok ((xs.map bytesOf).flatten) := by
    unfold valuesToBytes
    rw [if_neg (by decide), if_neg (by rw [hany]; simp)]
    show appendValueBytes typeColorSequence xs = _
    unfold appendValueBytes
    rw [if_neg (by rw [hany]; simp)]
  rw [henc, bind_ok]
  have hdec : valuesFromBytes typeColorSequence ((xs.map bytesOf).flatten) =
      .ok (xs, (xs.map bytesOf).flatten) := by
    show (appendVar typeColorSequence 20 ((xs.map bytesOf).flatten)).map
      (fun a => (a, (xs.map bytesOf).flatten)) = _
    rw [appendVar_flatten _ _ _ hshape hrt1]
    rfl
  rw [hdec, map_ok]


/-! ## Array round trips: stride-interleaved scalar kinds -/

theorem rt_int (xs : List Value) (hty : ∀ v ∈ xs, ty v = typeInt)
    (hwf : ∀ v ∈ xs, wf v) (hne : xs ≠ []) :
    (valuesToBytes typeInt xs).bind
      (fun b => (valuesFromBytes typeInt b).map Prod.fst) = .ok xs := by
  have hany : (xs.any fun v => ty v != typeInt) = false := by
    rw [List.any_eq_false]
    intro v hv
    simp [hty v hv]
  have hlen1 : ∀ v ∈ xs, (bytesOf v).length = 4 := by
    intro v hv
    obtain ⟨n, rfl⟩ := ty_inv_int v (hty v hv)
    rfl
  have hrt1 : ∀ v ∈ xs, fromBytes typeInt (bytesOf v) = .ok v := by
    intro v hv
    obtain ⟨n, rfl⟩ := ty_inv_int v (hty v hv)
    have hw := hwf _ hv
    simp only [wf] at hw
    exact roundtrip_int n hw.1 hw.2
  have hFlen : ((xs.map bytesOf).flatten).length = 4 * xs.length :=
    flatten_map_length xs bytesOf 4 hlen1
  have hxs0 : xs.length ≠ 0 := by
    intro h
    exact hne (List.eq_nil_of_length_eq_zero h)
  have henc : valuesToBytes typeInt xs = interleave ((xs.map bytesOf).flatten) 4 := by
    unfold valuesToBytes
    rw [if_neg (by decide), if_neg (by rw [hany]; simp)]
    show (do
      let b ← appendValueBytes typeInt xs
      interleave b 4) = _
    unfold appendValueBytes
    rw [if_neg (by rw [hany]; simp)]
    rfl
  have hitl : interleave ((xs.map bytesOf).flatten) 4 =
      .ok (transpose 4 (((xs.map bytesOf).flatten).length / 4)
        ((xs.map bytesOf).flatten)) :=
    interleave_eq_transpose _ 4 (by omega) (by omega)
  have hdi : deinterleave (transpose 4 (((xs.map bytesOf).flatten).length / 4)
      ((xs.map bytesOf).flatten)) 4 = .ok ((xs.map bytesOf).flatten) :=
    deinterleave_transpose _ 4 _ (by omega) (by omega) (by omega)
  rw [henc, hitl, bind_ok]
  have hdec : valuesFromBytes typeInt (transpose 4
      (((xs.map bytesOf).flatten).length / 4) ((xs.map bytesOf).flatten)) =
      .ok (xs, transpose 4 (((xs.map bytesOf).flatten).length / 4)
        ((xs.map bytesOf).flatten)) := by
    show (match deinterleave (transpose 4 (((xs.map bytesOf).flatten).length / 4)
        ((xs.map bytesOf).flatten)) 4 with
      | Except.error e => Except.error e
      | Except.ok bc => (appendFixed typeInt 4 bc).map
          (fun a => (a, transpose 4 (((xs.map bytesOf).flatten).length / 4)
            ((xs.map bytesOf).flatten)))) = _
    rw [hdi]
    show (appendFixed typeInt 4 ((xs.map bytesOf).flatten)).map _ = _
    rw [appendFixed_flatten _ _ _ (by omega) hlen1 hrt1]
    rfl
  rw [hdec, map_ok]

theorem rt_float (xs : List Value) (hty : ∀ v ∈ xs, ty v = typeFloat)
    (hwf : ∀ v ∈ xs, wf v) (hne : xs ≠ []) :
    (valuesToBytes typeFloat xs).bind
      (fun b => (valuesFromBytes typeFloat b).map Prod.fst) = .ok xs := by
  have hany : (xs.any fun v => ty v != typeFloat) = false := by
    rw [List.any_eq_false]
    intro v hv
    simp [hty v hv]
  have hlen1 : ∀ v ∈ xs, (bytesOf v).length = 4 := by
    intro v hv
    obtain ⟨f, rfl⟩ := ty_inv_float v (hty v hv)
    rfl
  have hrt1 : ∀ v ∈ xs, fromBytes typeFloat (bytesOf v) = .ok v := by
    intro v hv
    obtain ⟨f, rfl⟩ := ty_inv_float v (hty v hv)
    have hw := hwf _ hv
    simp only [wf] at hw
    exact roundtrip_float f hw
  have hFlen : ((xs.map bytesOf).flatten).length = 4 * xs.length :=
    flatten_map_length xs bytesOf 4 hlen1
  have hxs0 : xs.length ≠ 0 := by
    intro h
    exact hne (List.eq_nil_of_length_eq_zero h)
  have henc : valuesToBytes typeFloat xs = interleave ((xs.map bytesOf).flatten) 4 := by
    unfold valuesToBytes
    rw [if_neg (by decide), if_neg (by rw [hany]; simp)]
    show (do
      let b ← appendValueBytes typeFloat xs
      interleave b 4) = _
    unfold appendValueBytes
    rw [if_neg (by rw [hany]; simp)]
    rfl
  have hitl : interleave ((xs.map bytesOf).flatten) 4 =
      .ok (transpose 4 (((xs.map bytesOf).flatten).length / 4)
        ((xs.map bytesOf).flatten)) :=
    interleave_eq_transpose _ 4 (by omega) (by omega)
  have hdi : deinterleave (transpose 4 (((xs.map bytesOf).flatten).length / 4)
      ((xs.map bytesOf).flatten)) 4 = .ok ((xs.map bytesOf).flatten) :=
    deinterleave_transpose _ 4 _ (by omega) (by omega) (by omega)
  rw [henc, hitl, bind_ok]
  have hdec : valuesFromBytes typeFloat (transpose 4
      (((xs.map bytesOf).flatten).length / 4) ((xs.map bytesOf).flatten)) =
      .ok (xs, transpose 4 (((xs.map bytesOf).flatten).length / 4)
        ((xs.map bytesOf).flatten)) := by
    show (match deinterleave (transpose 4 (((xs.map bytesOf).flatten).length / 4)
        ((xs.map bytesOf).flatten)) 4 with
      | Except.error e => Except.error e
      | Except.ok bc => (appendFixed typeFloat 4 bc).map
          (fun a => (a, transpose 4 (((xs.map bytesOf).flatten).length / 4)
            ((xs.map bytesOf).flatten)))) = _
    rw [hdi]
    show (appendFixed typeFloat 4 ((xs.map bytesOf).flatten)).map _ = _
    rw [appendFixed_flatten _ _ _ (by omega) hlen1 hrt1]
    rfl
  rw [hdec, map_ok]

theorem rt_brickColor (xs : List Value) (hty : ∀ v ∈ xs, ty v = typeBrickColor)
    (hwf : ∀ v ∈ xs, wf v) (hne : xs ≠ []) :
    (valuesToBytes typeBrickColor xs).bind
      (fun b => (valuesFromBytes typeBrickColor b).map Prod.fst) = .ok xs := by
  have hany : (xs.any fun v => ty v != typeBrickColor) = false := by
    rw [List.any_eq_false]
    intro v hv
    simp [hty v hv]
  have hlen1 : ∀ v ∈ xs, (bytesOf v).length = 4 := by
    intro v hv
    obtain ⟨n, rfl⟩ := ty_inv_brickColor v (hty v hv)
    rfl
  have hrt1 : ∀ v ∈ xs, fromBytes typeBrickColor (bytesOf v) = .ok v := by
    intro v hv
    obtain ⟨n, rfl⟩ := ty_inv_brickColor v (hty v hv)
    have hw := hwf _ hv
    simp only [wf] at hw
    exact roundtrip_brickColor n hw
  have hFlen : ((xs.map bytesOf).flatten).length = 4 * xs.length :=
    flatten_map_length xs bytesOf 4 hlen1
  have hxs0 : xs.length ≠ 0 := by
    intro h
    exact hne (List.eq_nil_of_length_eq_zero h)
  have henc : valuesToBytes typeBrickColor xs = interleave ((xs.map bytesOf).flatten) 4 := by
    unfold valuesToBytes
    rw [if_neg (by decide), if_neg (by rw [hany]; simp)]
    show (do
      let b ← appendValueBytes typeBrickColor xs
      interleave b 4) = _
    unfold appendValueBytes
    rw [if_neg (by rw [hany]; simp)]
    rfl
  have hitl : interleave ((xs.map bytesOf).flatten) 4 =
      .ok (transpose 4 (((xs.map bytesOf).flatten).length / 4)
        ((xs.map bytesOf).flatten)) :=
    interleave_eq_transpose _ 4 (by omega) (by omega)
  have hdi : deinterleave (transpose 4 (((xs.map bytesOf).flatten).length / 4)
      ((xs.map bytesOf).flatten)) 4 = .ok ((xs.map bytesOf).flatten) :=
    deinterleave_transpose _ 4 _ (by omega) (by omega) (by omega)
  rw [henc, hitl, bind_ok]
  have hdec : valuesFromBytes typeBrickColor (transpose 4
      (((xs.map bytesOf).flatten).length / 4) ((xs.map bytesOf).flatten)) =
      .ok (xs, transpose 4 (((xs.map bytesOf).flatten).length / 4)
        ((xs.map bytesOf).flatten)) := by
    show (match deinterleave (transpose 4 (((xs.map bytesOf).flatten).length / 4)
        ((xs.map bytesOf).flatten)) 4 with
      | Except.error e => Except.error e
      | Except.ok bc => (appendFixed typeBrickColor 4 bc).map
          (fun a => (a, transpose 4 (((xs.map bytesOf).flatten).length / 4)
            ((xs.map bytesOf).flatten)))) = _
    rw [hdi]
    show (appendFixed typeBrickColor 4 ((xs.map bytesOf).flatten)).map _ = _
    rw [appendFixed_flatten _ _ _ (by omega) hlen1 hrt1]
    rfl
  rw [hdec, map_ok]

theorem rt_token (xs : List Value) (hty : ∀ v ∈ xs, ty v = typeToken)
    (hwf : ∀ v ∈ xs, wf v) (hne : xs ≠ []) :
    (valuesToBytes typeToken xs).bind
      (fun b => (valuesFromBytes typeToken b).map Prod.fst) = .ok xs := by
  have hany : (xs.any fun v => ty v != typeToken) = false := by
    rw [List.any_eq_false]
    intro v hv
    simp [hty v hv]
  have hlen1 : ∀ v ∈ xs, (bytesOf v).length = 4 := by
    intro v hv
    obtain ⟨n, rfl⟩ := ty_inv_token v (hty v hv)
    rfl
  have hrt1 : ∀ v ∈ xs, fromBytes typeToken (bytesOf v) = .ok v := by
    intro v hv
    obtain ⟨n, rfl⟩ := ty_inv_token v (hty v hv)
    have hw := hwf _ hv
    simp only [wf] at hw
    exact roundtrip_token n hw
  have hFlen : ((xs.map bytesOf).flatten).length = 4 * xs.length :=
    flatten_map_length xs bytesOf 4 hlen1
  have hxs0 : xs.length ≠ 0 := by
    intro h
    exact hne (List.eq_nil_of_length_eq_zero h)
  have henc : valuesToBytes typeToken xs = interleave ((xs.map bytesOf).flatten) 4 := by
    unfold valuesToBytes
    rw [if_neg (by decide), if_neg (by rw [hany]; simp)]
    show (do
      let b ← appendValueBytes typeToken xs
      interleave b 4) = _
    unfold appendValueBytes
    rw [if_neg (by rw [hany]; simp)]
    rfl
  have hitl : interleave ((xs.map bytesOf).flatten) 4 =
      .ok (transpose 4 (((xs.map bytesOf).flatten).length / 4)
        ((xs.map bytesOf).flatten)) :=
    interleave_eq_transpose _ 4 (by omega) (by omega)
  have hdi : deinterleave (transpose 4 (((xs.map bytesOf).flatten).length / 4)
      ((xs.map bytesOf).flatten)) 4 = .ok ((xs.map bytesOf).flatten) :=
    deinterleave_transpose _ 4 _ (by omega) (by omega) (by omega)
  rw [henc, hitl, bind_ok]
  have hdec : valuesFromBytes typeToken (transpose 4
      (((xs.map bytesOf).flatten).length / 4) ((xs.map bytesOf).flatten)) =
      .ok (xs, transpose 4 (((xs.map bytesOf).flatten).length / 4)
        ((xs.map bytesOf).flatten)) := by
    show (match deinterleave (transpose 4 (((xs.map bytesOf).flatten).length / 4)
        ((xs.map bytesOf).flatten)) 4 with
      | Except.error e => Except.error e
      | Except.ok bc => (appendFixed typeToken 4 bc).map
          (fun a => (a, transpose 4 (((xs.map bytesOf).flatten).length / 4)
            ((xs.map bytesOf).flatten)))) = _
    rw [hdi]
    show (appendFixed typeToken 4 ((xs.map bytesOf).flatten)).map _ = _
    rw [appendFixed_flatten _ _ _ (by omega) hlen1 hrt1]
    rfl
  rw [hdec, map_ok]

theorem rt_sharedString (xs : List Value) (hty : ∀ v ∈ xs, ty v = typeSharedString)
    (hwf : ∀ v ∈ xs, wf v) (hne : xs ≠ []) :
    (valuesToBytes typeSharedString xs).bind
      (fun b => (valuesFromBytes typeSharedString b).map Prod.fst) = .ok xs := by
  have hany : (xs.any fun v => ty v != typeSharedString) = false := by
    rw [List.any_eq_false]
    intro v hv
    simp [hty v hv]
  have hlen1 : ∀ v ∈ xs, (bytesOf v).length = 4 := by
    intro v hv
    obtain ⟨n, rfl⟩ := ty_inv_sharedString v (hty v hv)
    rfl
  have hrt1 : ∀ v ∈ xs, fromBytes typeSharedString (bytesOf v) = .ok v := by
    intro v hv
    obtain ⟨n, rfl⟩ := ty_inv_sharedString v (hty v hv)
    have hw := hwf _ hv
    simp only [wf] at hw
    exact roundtrip_sharedString n hw
  have hFlen : ((xs.map bytesOf).flatten).length = 4 * xs.length :=
    flatten_map_length xs bytesOf 4 hlen1
  have hxs0 : xs.length ≠ 0 := by
    intro h
    exact hne (List.eq_nil_of_length_eq_zero h)
  have henc : valuesToBytes typeSharedString xs = interleave ((xs.map bytesOf).flatten) 4 := by
    unfold valuesToBytes
    rw [if_neg (by decide), if_neg (by rw [hany]; simp)]
    show (do
      let b ← appendValueBytes typeSharedString xs
      interleave b 4) = _
    unfold appendValueBytes
    rw [if_neg (by rw [hany]; simp)]
    rfl
  have hitl : interleave ((xs.map bytesOf).flatten) 4 =
      .ok (transpose 4 (((xs.map bytesOf).flatten).length / 4)
        ((xs.map bytesOf).flatten)) :=
    interleave_eq_transpose _ 4 (by omega) (by omega)
  have hdi : deinterleave (transpose 4 (((xs.map bytesOf).flatten).length / 4)
      ((xs.map bytesOf).flatten)) 4 = .ok ((xs.map bytesOf).flatten) :=
    deinterleave_transpose _ 4 _ (by omega) (by omega) (by omega)
  rw [henc, hitl, bind_ok]
  have hdec : valuesFromBytes typeSharedString (transpose 4
      (((xs.map bytesOf).flatten).length / 4) ((xs.map bytesOf).flatten)) =
      .ok (xs, transpose 4 (((xs.map bytesOf).flatten).length / 4)
        ((xs.map bytesOf).flatten)) := by
    show (match deinterleave (transpose 4 (((xs.map bytesOf).flatten).length / 4)
        ((xs.map bytesOf).flatten)) 4 with
      | Except.error e => Except.error e
      | Except.ok bc => (appendFixed typeSharedString 4 bc).map
          (fun a => (a, transpose 4 (((xs.map bytesOf).flatten).length / 4)
            ((xs.map bytesOf).flatten)))) = _
    rw [hdi]
    show (appendFixed typeSharedString 4 ((xs.map bytesOf).flatten)).map _ = _
    rw [appendFixed_flatten _ _ _ (by omega) hlen1 hrt1]
    rfl
  rw [hdec, map_ok]

theorem rt_int64 (xs : List Value) (hty : ∀ v ∈ xs, ty v = typeInt64)
    (hwf : ∀ v ∈ xs, wf v) (hne : xs ≠ []) :
    (valuesToBytes typeInt64 xs).bind
      (fun b => (valuesFromBytes typeInt64 b).map Prod.fst) = .ok xs := by
  have hany : (xs.any fun v => ty v != typeInt64) = false := by
    rw [List.any_eq_false]
    intro v hv
    simp [hty v hv]
  have hlen1 : ∀ v ∈ xs, (bytesOf v).length = 8 := by
    intro v hv
    obtain ⟨n, rfl⟩ := ty_inv_int64 v (hty v hv)
    rfl
  have hrt1 : ∀ v ∈ xs, fromBytes typeInt64 (bytesOf v) = .ok v := by
    intro v hv
    obtain ⟨n, rfl⟩ := ty_inv_int64 v (hty v hv)
    have hw := hwf _ hv
    simp only [wf] at hw
    exact roundtrip_int64 n hw.1 hw.2
  have hFlen : ((xs.map bytesOf).flatten).length = 8 * xs.length :=
    flatten_map_length xs bytesOf 8 hlen1
  have hxs0 : xs.length ≠ 0 := by
    intro h
    exact hne (List.eq_nil_of_length_eq_zero h)
  have henc : valuesToBytes typeInt64 xs = interleave ((xs.map bytesOf).flatten) 8 := by
    unfold valuesToBytes
    rw [if_neg (by decide), if_neg (by rw [hany]; simp)]
    show (do
      let b ← appendValueBytes typeInt64 xs
      interleave b 8) = _
    unfold appendValueBytes
    rw [if_neg (by rw [hany]; simp)]
    rfl
  have hitl : interleave ((xs.map bytesOf).flatten) 8 =
      .ok (transpose 8 (((xs.map bytesOf).flatten).length / 8)
        ((xs.map bytesOf).flatten)) :=
    interleave_eq_transpose _ 8 (by omega) (by omega)
  have hdi : deinterleave (transpose 8 (((xs.map bytesOf).flatten).length / 8)
      ((xs.map bytesOf).flatten)) 8 = .ok ((xs.map bytesOf).flatten) :=
    deinterleave_transpose _ 8 _ (by omega) (by omega) (by omega)
  rw [henc, hitl, bind_ok]
  have hdec : valuesFromBytes typeInt64 (transpose 8
      (((xs.map bytesOf).flatten).length / 8) ((xs.map bytesOf).flatten)) =
      .ok (xs, transpose 8 (((xs.map bytesOf).flatten).length / 8)
        ((xs.map bytesOf).flatten)) := by
    show (match deinterleave (transpose 8 (((xs.map bytesOf).flatten).length / 8)
        ((xs.map bytesOf).flatten)) 8 with
      | Except.error e => Except.error e
      | Except.ok bc => (appendFixed typeInt64 8 bc).map
          (fun a => (a, transpose 8 (((xs.map bytesOf).flatten).length / 8)
            ((xs.map bytesOf).flatten)))) = _
    rw [hdi]
    show (appendFixed typeInt64 8 ((xs.map bytesOf).flatten)).map _ = _
    rw [appendFixed_flatten _ _ _ (by omega) hlen1 hrt1]
    rfl
  rw [hdec, map_ok]


/-! ## Array round trips: field-split kinds -/

theorem rt_udim (xs : List Value) (hty : ∀ v ∈ xs, ty v = typeUDim)
    (hwf : ∀ v ∈ xs, wf v) :
    (valuesToBytes typeUDim xs).bind
      (fun b => (valuesFromBytes typeUDim b).map Prod.fst) = .ok xs := by
  by_cases hx : xs.length = 0
  · have : xs = [] := List.eq_nil_of_length_eq_zero hx
    subst this
    rfl
  · have hany : (xs.any fun v => ty v != typeUDim) = false := by
      rw [List.any_eq_false]
      intro v hv
      simp [hty v hv]
    have hget : ∀ v ∈ xs, ∀ (f2 : Nat) (hf : f2 < (fieldLens typeUDim).length),
        (fieldGet v f2).length = (fieldLens typeUDim)[f2] := by
      intro v hv f2 hf
      obtain ⟨sc, off, rfl⟩ := ty_inv_udim v (hty v hv)
      have hf2 : f2 < 2 := hf
      interval_cases f2 <;> rfl
    have hrebuild : ∀ v ∈ xs, valueFromFields typeUDim
        ((List.range (fieldLens typeUDim).length).map (fun f2 => fieldGet v f2)) = v := by
      intro v hv
      obtain ⟨sc, off, rfl⟩ := ty_inv_udim v (hty v hv)
      have hw := hwf _ hv
      simp only [wf] at hw
      exact rebuild_udim sc off hw.1 hw.2.1 hw.2.2
    obtain ⟨B, hB1, hB2, hB3⟩ := fielder_roundtrip typeUDim xs (by decide) hx hty hget hrebuild
      (by decide) (by decide)
    have henc : valuesToBytes typeUDim xs = interleaveFields typeUDim xs := by
      unfold valuesToBytes
      rw [if_neg (by decide), if_neg (by rw [hany]; simp)]
      rfl
    have hdec : valuesFromBytes typeUDim B = deinterleaveFields typeUDim B := rfl
    rw [henc, hB1, bind_ok, hdec, hB2, map_ok]

theorem rt_udim2 (xs : List Value) (hty : ∀ v ∈ xs, ty v = typeUDim2)
    (hwf : ∀ v ∈ xs, wf v) :
    (valuesToBytes typeUDim2 xs).bind
      (fun b => (valuesFromBytes typeUDim2 b).map Prod.fst) = .ok xs := by
  by_cases hx : xs.length = 0
  · have : xs = [] := List.eq_nil_of_length_eq_zero hx
    subst this
    rfl
  · have hany : (xs.any fun v => ty v != typeUDim2) = false := by
      rw [List.any_eq_false]
      intro v hv
      simp [hty v hv]
    have hget : ∀ v ∈ xs, ∀ (f2 : Nat) (hf : f2 < (fieldLens typeUDim2).length),
        (fieldGet v f2).length = (fieldLens typeUDim2)[f2] := by
      intro v hv f2 hf
      obtain ⟨sx, sy, ox, oy, rfl⟩ := ty_inv_udim2 v (hty v hv)
      have hf2 : f2 < 4 := hf
      interval_cases f2 <;> rfl
    have hrebuild : ∀ v ∈ xs, valueFromFields typeUDim2
        ((List.range (fieldLens typeUDim2).length).map (fun f2 => fieldGet v f2)) = v := by
      intro v hv
      obtain ⟨sx, sy, ox, oy, rfl⟩ := ty_inv_udim2 v (hty v hv)
      have hw := hwf _ hv
      simp only [wf] at hw
      exact rebuild_udim2 sx sy ox oy hw.1 hw.2.1 hw.2.2.1 hw.2.2.2.1 hw.2.2.2.2.1 hw.2.2.2.2.2
    obtain ⟨B, hB1, hB2, hB3⟩ := fielder_roundtrip typeUDim2 xs (by decide) hx hty hget hrebuild
      (by decide) (by decide)
    have henc : valuesToBytes typeUDim2 xs = interleaveFields typeUDim2 xs := by
      unfold valuesToBytes
      rw [if_neg (by decide), if_neg (by rw [hany]; simp)]
      rfl
    have hdec : valuesFromBytes typeUDim2 B = deinterleaveFields typeUDim2 B := rfl
    rw [henc, hB1, bind_ok, hdec, hB2, map_ok]

theorem rt_color3 (xs : List Value) (hty : ∀ v ∈ xs, ty v = typeColor3)
    (hwf : ∀ v ∈ xs, wf v) :
    (valuesToBytes typeColor3 xs).bind
      (fun b => (valuesFromBytes typeColor3 b).map Prod.fst) = .ok xs := by
  by_cases hx : xs.length = 0
  · have : xs = [] := List.eq_nil_of_length_eq_zero hx
    subst this
    rfl
  · have hany : (xs.any fun v => ty v != typeColor3) = false := by
      rw [List.any_eq_false]
      intro v hv
      simp [hty v hv]
    have hget : ∀ v ∈ xs, ∀ (f2 : Nat) (hf : f2 < (fieldLens typeColor3).length),
        (fieldGet v f2).length = (fieldLens typeColor3)[f2] := by
      intro v hv f2 hf
      obtain ⟨r, g, b, rfl⟩ := ty_inv_color3 v (hty v hv)
      have hf2 : f2 < 3 := hf
      interval_cases f2 <;> rfl
    have hrebuild : ∀ v ∈ xs, valueFromFields typeColor3
        ((List.range (fieldLens typeColor3).length).map (fun f2 => fieldGet v f2)) = v := by
      intro v hv
      obtain ⟨r, g, b, rfl⟩ := ty_inv_color3 v (hty v hv)
      have hw := hwf _ hv
      simp only [wf] at hw
      exact rebuild_color3 r g b hw.1 hw.2.1 hw.2.2
    obtain ⟨B, hB1, hB2, hB3⟩ := fielder_roundtrip typeColor3 xs (by decide) hx hty hget hrebuild
      (by decide) (by decide)
    have henc : valuesToBytes typeColor3 xs = interleaveFields typeColor3 xs := by
      unfold valuesToBytes
      rw [if_neg (by decide), if_neg (by rw [hany]; simp)]
      rfl
    have hdec : valuesFromBytes typeColor3 B = deinterleaveFields typeColor3 B := rfl
    rw [henc, hB1, bind_ok, hdec, hB2, map_ok]

theorem rt_vector2 (xs : List Value) (hty : ∀ v ∈ xs, ty v = typeVector2)
    (hwf : ∀ v ∈ xs, wf v) :
    (valuesToBytes typeVector2 xs).bind
      (fun b => (valuesFromBytes typeVector2 b).map Prod.fst) = .ok xs := by
  by_cases hx : xs.length = 0
  · have : xs = [] := List.eq_nil_of_length_eq_zero hx
    subst this
    rfl
  · have hany : (xs.any fun v => ty v != typeVector2) = false := by
      rw [List.any_eq_false]
      intro v hv
      simp [hty v hv]
    have hget : ∀ v ∈ xs, ∀ (f2 : Nat) (hf : f2 < (fieldLens typeVector2).length),
        (fieldGet v f2).length = (fieldLens typeVector2)[f2] := by
      intro v hv f2 hf
      obtain ⟨x, y, rfl⟩ := ty_inv_vector2 v (hty v hv)
      have hf2 : f2 < 2 := hf
      interval_cases f2 <;> rfl
    have hrebuild : ∀ v ∈ xs, valueFromFields typeVector2
        ((List.range (fieldLens typeVector2).length).map (fun f2 => fieldGet v f2)) = v := by
      intro v hv
      obtain ⟨x, y, rfl⟩ := ty_inv_vector2 v (hty v hv)
      have hw := hwf _ hv
      simp only [wf] at hw
      exact rebuild_vector2 x y hw.1 hw.2
    obtain ⟨B, hB1, hB2, hB3⟩ := fielder_roundtrip typeVector2 xs (by decide) hx hty hget hrebuild
      (by decide) (by decide)
    have henc : valuesToBytes typeVector2 xs = interleaveFields typeVector2 xs := by
      unfold valuesToBytes
      rw [if_neg (by decide), if_neg (by rw [hany]; simp)]
      rfl
    have hdec : valuesFromBytes typeVector2 B = deinterleaveFields typeVector2 B := rfl
    rw [henc, hB1, bind_ok, hdec, hB2, map_ok]

theorem rt_vector3 (xs : List Value) (hty : ∀ v ∈ xs, ty v = typeVector3)
    (hwf : ∀ v ∈ xs, wf v) :
    (valuesToBytes typeVector3 xs).bind
      (fun b => (valuesFromBytes typeVector3 b).map Prod.fst) = .ok xs := by
  by_cases hx : xs.length = 0
  · have : xs = [] := List.eq_nil_of_length_eq_zero hx
    subst this
    rfl
  · have hany : (xs.any fun v => ty v != typeVector3) = false := by
      rw [List.any_eq_false]
      intro v hv
      simp [hty v hv]
    have hget : ∀ v ∈ xs, ∀ (f2 : Nat) (hf : f2 < (fieldLens typeVector3).length),
        (fieldGet v f2).length = (fieldLens typeVector3)[f2] := by
      intro v hv f2 hf
      obtain ⟨x, y, z, rfl⟩ := ty_inv_vector3 v (hty v hv)
      have hf2 : f2 < 3 := hf
      interval_cases f2 <;> rfl
    have hrebuild : ∀ v ∈ xs, valueFromFields typeVector3
        ((List.range (fieldLens typeVector3).length).map (fun f2 => fieldGet v f2)) = v := by
      intro v hv
      obtain ⟨x, y, z, rfl⟩ := ty_inv_vector3 v (hty v hv)
      have hw := hwf _ hv
      simp only [wf] at hw
      exact rebuild_vector3 x y z hw.1 hw.2.1 hw.2.2
    obtain ⟨B, hB1, hB2, hB3⟩ := fielder_roundtrip typeVector3 xs (by decide) hx hty hget hrebuild
      (by decide) (by decide)
    have henc : valuesToBytes typeVector3 xs = interleaveFields typeVector3 xs := by
      unfold valuesToBytes
      rw [if_neg (by decide), if_neg (by rw [hany]; simp)]
      rfl
    have hdec : valuesFromBytes typeVector3 B = deinterleaveFields typeVector3 B := rfl
    rw [henc, hB1, bind_ok, hdec, hB2, map_ok]

theorem rt_rect2d (xs : List Value) (hty : ∀ v ∈ xs, ty v = typeRect2D)
    (hwf : ∀ v ∈ xs, wf v) :
    (valuesToBytes typeRect2D xs).bind
      (fun b => (valuesFromBytes typeRect2D b).map Prod.fst) = .ok xs := by
  by_cases hx : xs.length = 0
  · have : xs = [] := List.eq_nil_of_length_eq_zero hx
    subst this
    rfl
  · have hany : (xs.any fun v => ty v != typeRect2D) = false := by
      rw [List.any_eq_false]
      intro v hv
      simp [hty v hv]
    have hget : ∀ v ∈ xs, ∀ (f2 : Nat) (hf : f2 < (fieldLens typeRect2D).length),
        (fieldGet v f2).length = (fieldLens typeRect2D)[f2] := by
      intro v hv f2 hf
      obtain ⟨a, b, c, d, rfl⟩ := ty_inv_rect2d v (hty v hv)
      have hf2 : f2 < 4 := hf
      interval_cases f2 <;> rfl
    have hrebuild : ∀ v ∈ xs, valueFromFields typeRect2D
        ((List.range (fieldLens typeRect2D).length).map (fun f2 => fieldGet v f2)) = v := by
      intro v hv
      obtain ⟨a, b, c, d, rfl⟩ := ty_inv_rect2d v (hty v hv)
      have hw := hwf _ hv
      simp only [wf] at hw
      exact rebuild_rect2d a b c d hw.1 hw.2.1 hw.2.2.1 hw.2.2.2
    obtain ⟨B, hB1, hB2, hB3⟩ := fielder_roundtrip typeRect2D xs (by decide) hx hty hget hrebuild
      (by decide) (by decide)
    have henc : valuesToBytes typeRect2D xs = interleaveFields typeRect2D xs := by
      unfold valuesToBytes
      rw [if_neg (by decide), if_neg (by rw [hany]; simp)]
      rfl
    have hdec : valuesFromBytes typeRect2D B = deinterleaveFields typeRect2D B := rfl
    rw [henc, hB1, bind_ok, hdec, hB2, map_ok]

theorem rt_color3uint8 (xs : List Value) (hty : ∀ v ∈ xs, ty v = typeColor3uint8)
    (hwf : ∀ v ∈ xs, wf v) :
    (valuesToBytes typeColor3uint8 xs).bind
      (fun b => (valuesFromBytes typeColor3uint8 b).map Prod.fst) = .ok xs := by
  by_cases hx : xs.length = 0
  · have : xs = [] := List.eq_nil_of_length_eq_zero hx
    subst this
    rfl
  · have hany : (xs.any fun v => ty v != typeColor3uint8) = false := by
      rw [List.any_eq_false]
      intro v hv
      simp [hty v hv]
    have hget : ∀ v ∈ xs, ∀ (f2 : Nat) (hf : f2 < (fieldLens typeColor3uint8).length),
        (fieldGet v f2).length = (fieldLens typeColor3uint8)[f2] := by
      intro v hv f2 hf
      obtain ⟨r, g, b, rfl⟩ := ty_inv_color3uint8 v (hty v hv)
      have hf2 : f2 < 3 := hf
      interval_cases f2 <;> rfl
    have hrebuild : ∀ v ∈ xs, valueFromFields typeColor3uint8
        ((List.range (fieldLens typeColor3uint8).length).map (fun f2 => fieldGet v f2)) = v := by
      intro v hv
      obtain ⟨r, g, b, rfl⟩ := ty_inv_color3uint8 v (hty v hv)
      exact rebuild_color3uint8 r g b
    obtain ⟨B, hB1, hB2, hB3⟩ := fielder_roundtrip typeColor3uint8 xs (by decide) hx hty hget hrebuild
      (by decide) (by decide)
    have henc : valuesToBytes typeColor3uint8 xs = interleaveFields typeColor3uint8 xs := by
      unfold valuesToBytes
      rw [if_neg (by decide), if_neg (by rw [hany]; simp)]
      rfl
    have hdec : valuesFromBytes typeColor3uint8 B = deinterleaveFields typeColor3uint8 B := rfl
    rw [henc, hB1, bind_ok, hdec, hB2, map_ok]

/-! ## Array round trip: Reference (delta + interleave) -/

theorem refDeltasAux_length : ∀ (rest : List Value) (prev : Int),
    (refDeltasAux prev rest).length = 4 * rest.length := by
  intro rest
  induction rest with
  | nil => intro prev; rfl
  | cons v r ih =>
    intro prev
    show (u32BE _ ++ refDeltasAux (refVal v) r).length = _
    rw [List.length_append, length_u32BE, ih (refVal v), List.length_cons]
    ring

theorem refAccum_decode : ∀ (rest : List Value) (prev : Int) (fuel : Nat),
    (∀ v ∈ rest, ∃ m, v = Value.reference m ∧ -2147483648 ≤ m ∧ m < 2147483648) →
    (refDeltasAux prev rest).length ≤ fuel →
    refAccum prev (refReadDeltas fuel (refDeltasAux prev rest)) = rest.map refVal := by
  intro rest
  induction rest with
  | nil =>
    intro prev fuel _ _
    cases fuel <;> rfl
  | cons v r ih =>
    intro prev fuel hshape hfuel
    rcases hshape v (List.mem_cons_self _ _) with ⟨m, rfl, hm1, hm2⟩
    have hlen : (refDeltasAux prev (Value.reference m :: r)).length = 4 * (r.length + 1) := by
      rw [refDeltasAux_length]
      simp
    cases fuel with
    | zero => omega
    | succ fu =>
      show refAccum prev (refReadDeltas (fu + 1)
        (u32BE (encodeZigzag32 (wrap32 (refVal (Value.reference m) - prev))) ++
          refDeltasAux (refVal (Value.reference m)) r)) = _
      have hge : 4 ≤ (u32BE (encodeZigzag32 (wrap32 (refVal (Value.reference m) - prev))) ++
          refDeltasAux (refVal (Value.reference m)) r).length := by
        rw [List.length_append, length_u32BE]
        omega
      simp only [refReadDeltas]
      rw [if_pos hge]
      rw [take_len_append _ _ _ (length_u32BE _), drop_len_append _ _ _ (length_u32BE _)]
      have hwr := wrap32_range (refVal (Value.reference m) - prev)
      rw [readU32BE_u32BE _ (encodeZigzag32_lt _ hwr.1 hwr.2),
        decode_encode_zigzag32 _ hwr.1 hwr.2]
      show wrap32 (prev + wrap32 (refVal (Value.reference m) - prev)) ::
        refAccum (wrap32 (prev + wrap32 (refVal (Value.reference m) - prev)))
          (refReadDeltas fu (refDeltasAux (refVal (Value.reference m)) r)) = _
      have hacc : wrap32 (prev + wrap32 (refVal (Value.reference m) - prev)) = refVal (Value.reference m) := by
        rw [wrap32_add_wrap32]
        have : prev + (refVal (Value.reference m) - prev) = refVal (Value.reference m) := by ring
        rw [this]
        exact wrap32_eq_self _ hm1 hm2
      rw [hacc]
      rw [ih (refVal (Value.reference m)) fu
        (fun y hy => hshape y (List.mem_cons_of_mem _ hy))
        (by rw [refDeltasAux_length] at hfuel ⊢; simp at hfuel; omega)]
      rfl

theorem refBytes_decode (xs : List Value)
    (hshape : ∀ v ∈ xs, ∃ m, v = Value.reference m ∧ -2147483648 ≤ m ∧ m < 2147483648)
    (hne : xs ≠ []) :
    (refDecode (refReadDeltas (refBytes xs).length (refBytes xs))).map
      (fun n => Value.reference n) = xs := by
  cases xs with
  | nil => exact absurd rfl hne
  | cons v r =>
    rcases hshape v (List.mem_cons_self _ _) with ⟨m, rfl, hm1, hm2⟩
    have hlen : (refBytes (Value.reference m :: r)).length = 4 + 4 * r.length := by
      show (u32BE _ ++ refDeltasAux _ r).length = _
      rw [List.length_append, length_u32BE, refDeltasAux_length]
    show (refDecode (refReadDeltas (refBytes (Value.reference m :: r)).length
      (u32BE (encodeZigzag32 (refVal (Value.reference m))) ++
        refDeltasAux (refVal (Value.reference m)) r))).map _ = _
    have hfe : ∃ fu, (refBytes (Value.reference m :: r)).length = fu + 1 := by
      rw [hlen]
      exact ⟨3 + 4 * r.length, by omega⟩
    rcases hfe with ⟨fu, hfu⟩
    rw [hfu]
    have hge : 4 ≤ (u32BE (encodeZigzag32 (refVal (Value.reference m))) ++
        refDeltasAux (refVal (Value.reference m)) r).length := by
      rw [List.length_append, length_u32BE]
      omega
    simp only [refReadDeltas]
    rw [if_pos hge]
    rw [take_len_append _ _ _ (length_u32BE _), drop_len_append _ _ _ (length_u32BE _)]
    have hmv : refVal (Value.reference m) = m := rfl
    rw [hmv, readU32BE_u32BE _ (encodeZigzag32_lt _ hm1 hm2),
      decode_encode_zigzag32 _ hm1 hm2]
    show (m :: refAccum m (refReadDeltas fu (refDeltasAux (refVal (Value.reference m)) r))).map
      (fun n => Value.reference n) = _
    rw [hmv]
    rw [refAccum_decode r m fu
      (fun y hy => hshape y (List.mem_cons_of_mem _ hy))
      (by rw [refDeltasAux_length]; rw [hlen] at hfu; omega)]
    show Value.reference m :: (r.map refVal).map (fun n => Value.reference n) = _
    have : (r.map refVal).map (fun n => Value.reference n) = r := by
      rw [List.map_map]
      apply List.ext_getElem (by simp)
      intro i h1 h2
      simp only [List.getElem_map, Function.comp]
      rcases hshape (r[i]) (List.mem_cons_of_mem _ (List.getElem_mem _)) with ⟨mi, hmi, _⟩
      rw [hmi]
      rfl
    rw [this]

theorem rt_reference (xs : List Value) (hty : ∀ v ∈ xs, ty v = typeReference)
    (hwf : ∀ v ∈ xs, wf v) :
    (valuesToBytes typeReference xs).bind
      (fun b => (valuesFromBytes typeReference b).map Prod.fst) = .ok xs := by
  by_cases hx : xs.length = 0
  · have : xs = [] := List.eq_nil_of_length_eq_zero hx
    subst this
    rfl
  · have hany : (xs.any fun v => ty v != typeReference) = false := by
      rw [List.any_eq_false]
      intro v hv
      simp [hty v hv]
    have hshape : ∀ v ∈ xs, ∃ m, v = Value.reference m ∧ -2147483648 ≤ m ∧
        m < 2147483648 := by
      intro v hv
      obtain ⟨m, rfl⟩ := ty_inv_reference v (hty v hv)
      have hw := hwf _ hv
      simp only [wf] at hw
      exact ⟨m, rfl, hw.1, hw.2⟩
    have hRlen : (refBytes xs).length = 4 * xs.length := by
      cases xs with
      | nil => simp at hx
      | cons v r =>
        show (u32BE _ ++ refDeltasAux _ r).length = _
        rw [List.length_append, length_u32BE, refDeltasAux_length, List.length_cons]
        ring
    have henc : valuesToBytes typeReference xs = interleave (refBytes xs) 4 := by
      unfold valuesToBytes
      rw [if_neg (by decide), if_neg (by rw [hany]; simp)]
      show (if xs.length = 0 then Except.ok [] else interleave (refBytes xs) 4) = _
      rw [if_neg hx]
    have hitl : interleave (refBytes xs) 4 =
        .ok (transpose 4 ((refBytes xs).length / 4) (refBytes xs)) :=
      interleave_eq_transpose _ 4 (by omega) (by omega)
    have hdi : deinterleave (transpose 4 ((refBytes xs).length / 4) (refBytes xs)) 4 =
        .ok (refBytes xs) :=
      deinterleave_transpose _ 4 _ (by omega) (by omega) (by omega)
    have hBlen : (transpose 4 ((refBytes xs).length / 4) (refBytes xs)).length =
        (refBytes xs).length := by
      rw [length_transpose]
      omega
    rw [henc, hitl, bind_ok]
    have hdec : valuesFromBytes typeReference
        (transpose 4 ((refBytes xs).length / 4) (refBytes xs)) =
        .ok (xs, transpose 4 ((refBytes xs).length / 4) (refBytes xs)) := by
      have hred : valuesFromBytes typeReference
          (transpose 4 ((refBytes xs).length / 4) (refBytes xs)) =
          (if (transpose 4 ((refBytes xs).length / 4) (refBytes xs)).length = 0 then
            Except.ok (([] : List Value), transpose 4 ((refBytes xs).length / 4) (refBytes xs))
          else if (transpose 4 ((refBytes xs).length / 4) (refBytes xs)).length % 4 ≠ 0 then
            Except.error (Err.msg "array must be divisible by 4")
          else match deinterleave (transpose 4 ((refBytes xs).length / 4) (refBytes xs)) 4 with
            | Except.error e => Except.error e
            | Except.ok bc => Except.ok ((refDecode (refReadDeltas bc.length bc)).map
                (fun n => Value.reference n),
              transpose 4 ((refBytes xs).length / 4) (refBytes xs))) := rfl
      rw [hred, if_neg (by omega), if_neg (by omega), hdi]
      show Except.ok ((refDecode (refReadDeltas (refBytes xs).length (refBytes xs))).map
        (fun n => Value.reference n),
        transpose 4 ((refBytes xs).length / 4) (refBytes xs)) = _
      rw [refBytes_decode xs hshape (by intro h; rw [h] at hx; simp at hx)]
    rw [hdec, map_ok]

/-! ## Array round trip: PhysicalProperties -/

theorem ppScan_cons_ne (fu : Nat) (c : Nat) (rest : List Nat) (hc : c ≠ 0)
    (h20 : ¬ rest.length < 20) :
    ppScan (fu + 1) (c :: rest) =
      (do
        let vs ← ppScan fu (rest.drop 20)
        pure (.physicalProperties c (readU32LE (rest.take 4)) (readU32LE ((rest.drop 4).take 4))
          (readU32LE ((rest.drop 8).take 4)) (readU32LE ((rest.drop 12).take 4))
          (readU32LE ((rest.drop 16).take 4)) :: vs)) := by
  simp only [ppScan]
  rw [if_pos hc, if_neg h20]

theorem ppScan_flatten : ∀ (xs : List Value) (fuel : Nat),
    (∀ v ∈ xs, ∃ c d f e fw ew, v = .physicalProperties c d f e fw ew ∧
      d < 4294967296 ∧ f < 4294967296 ∧ e < 4294967296 ∧ fw < 4294967296 ∧
      ew < 4294967296 ∧ (c = 0 → d = 0 ∧ f = 0 ∧ e = 0 ∧ fw = 0 ∧ ew = 0)) →
    ((xs.map ppBytes).flatten).length ≤ fuel →
    ppScan fuel ((xs.map ppBytes).flatten) = .ok xs := by
  intro xs
  induction xs with
  | nil =>
    intro fuel _ _
    cases fuel <;> rfl
  | cons v rest ih =>
    intro fuel hshape hfuel
    rcases hshape v (List.mem_cons_self _ _) with ⟨c, d, f, e, fw, ew, rfl, hd, hf, he, hfw, hew, hz⟩
    simp only [List.map_cons, List.flatten_cons] at hfuel ⊢
    by_cases hc : c = 0
    · subst hc
      rcases hz rfl with ⟨rfl, rfl, rfl, rfl, rfl⟩
      have hpp : ppBytes (Value.physicalProperties 0 0 0 0 0 0) = [0] := rfl
      rw [hpp] at hfuel ⊢
      cases fuel with
      | zero => simp at hfuel
      | succ fu =>
        show (do
          let vs ← ppScan fu ((rest.map ppBytes).flatten)
          pure (Value.physicalProperties 0 0 0 0 0 0 :: vs)) = _
        rw [ih fu (fun y hy => hshape y (List.mem_cons_of_mem _ hy))
          (by rw [List.length_append, List.length_cons, List.length_nil] at hfuel; omega)]
        rfl
    · have hpp : ppBytes (Value.physicalProperties c d f e fw ew) =
          c :: (u32LE d ++ u32LE f ++ u32LE e ++ u32LE fw ++ u32LE ew) := by
        show (if c ≠ 0 then c :: (u32LE d ++ u32LE f ++ u32LE e ++ u32LE fw ++ u32LE ew)
          else [c]) = _
        rw [if_pos hc]
      rw [hpp] at hfuel ⊢
      have h20 : (u32LE d ++ u32LE f ++ u32LE e ++ u32LE fw ++ u32LE ew).length = 20 := by
        simp [u32LE]
      cases fuel with
      | zero => simp at hfuel
      | succ fu =>
        have hrl : ((u32LE d ++ u32LE f ++ u32LE e ++ u32LE fw ++ u32LE ew) ++
            (rest.map ppBytes).flatten).length = 20 + ((rest.map ppBytes).flatten).length := by
          rw [List.length_append, h20]
        have hstep : (c :: (u32LE d ++ u32LE f ++ u32LE e ++ u32LE fw ++ u32LE ew)) ++
            (rest.map ppBytes).flatten =
            c :: ((u32LE d ++ u32LE f ++ u32LE e ++ u32LE fw ++ u32LE ew) ++
              (rest.map ppBytes).flatten) := rfl
        rw [hstep, ppScan_cons_ne fu c _ hc (by omega)]
        have e1 : (((u32LE d ++ u32LE f ++ u32LE e ++ u32LE fw ++ u32LE ew) ++
            (rest.map ppBytes).flatten).take 4) = u32LE d := rfl
        have e2 : ((((u32LE d ++ u32LE f ++ u32LE e ++ u32LE fw ++ u32LE ew) ++
            (rest.map ppBytes).flatten).drop 4).take 4) = u32LE f := rfl
        have e3 : ((((u32LE d ++ u32LE f ++ u32LE e ++ u32LE fw ++ u32LE ew) ++
            (rest.map ppBytes).flatten).drop 8).take 4) = u32LE e := rfl
        have e4 : ((((u32LE d ++ u32LE f ++ u32LE e ++ u32LE fw ++ u32LE ew) ++
            (rest.map ppBytes).flatten).drop 12).take 4) = u32LE fw := rfl
        have e5 : ((((u32LE d ++ u32LE f ++ u32LE e ++ u32LE fw ++ u32LE ew) ++
            (rest.map ppBytes).flatten).drop 16).take 4) = u32LE ew := rfl
        have e6 : (((u32LE d ++ u32LE f ++ u32LE e ++ u32LE fw ++ u32LE ew) ++
            (rest.map ppBytes).flatten).drop 20) = (rest.map ppBytes).flatten := rfl
        rw [e1, e2, e3, e4, e5, e6, readU32LE_u32LE _ hd, readU32LE_u32LE _ hf,
          readU32LE_u32LE _ he, readU32LE_u32LE _ hfw, readU32LE_u32LE _ hew]
        rw [ih fu (fun y hy => hshape y (List.mem_cons_of_mem _ hy))
          (by rw [hstep, List.length_cons, List.length_append, h20] at hfuel; omega)]
        rfl

theorem rt_physicalProperties (xs : List Value)
    (hty : ∀ v ∈ xs, ty v = typePhysicalProperties)
    (hwf : ∀ v ∈ xs, wf v) (hcanon : ∀ v ∈ xs, canon v) :
    (valuesToBytes typePhysicalProperties xs).bind
      (fun b => (valuesFromBytes typePhysicalProperties b).map Prod.fst) = .ok xs := by
  have hany : (xs.any fun v => ty v != typePhysicalProperties) = false := by
    rw [List.any_eq_false]
    intro v hv
    simp [hty v hv]
  have hshape : ∀ v ∈ xs, ∃ c d f e fw ew, v = .physicalProperties c d f e fw ew ∧
      d < 4294967296 ∧ f < 4294967296 ∧ e < 4294967296 ∧ fw < 4294967296 ∧
      ew < 4294967296 ∧ (c = 0 → d = 0 ∧ f = 0 ∧ e = 0 ∧ fw = 0 ∧ ew = 0) := by
    intro v hv
    obtain ⟨c, d, f, e, fw, ew, rfl⟩ := ty_inv_physicalProperties v (hty v hv)
    have hw := hwf _ hv
    have hcn := hcanon _ hv
    simp only [wf] at hw
    simp only [canon] at hcn
    exact ⟨c, d, f, e, fw, ew, rfl, hw.2.1, hw.2.2.1, hw.2.2.2.1, hw.2.2.2.2.1,
      hw.2.2.2.2.2, hcn⟩
  have henc : valuesToBytes typePhysicalProperties xs = .ok ((xs.map ppBytes).flatten) := by
    unfold valuesToBytes
    rw [if_neg (by decide), if_neg (by rw [hany]; simp)]
    rfl
  rw [henc, bind_ok]
  have hdec : valuesFromBytes typePhysicalProperties ((xs.map ppBytes).flatten) =
      .ok (xs, (xs.map ppBytes).flatten) := by
    show (ppScan ((xs.map ppBytes).flatten).length ((xs.map ppBytes).flatten)).map
      (fun a => (a, (xs.map ppBytes).flatten)) = _
    rw [ppScan_flatten xs _ hshape (le_refl _)]
    rfl
  rw [hdec, map_ok]

/-! ## Array round trip: CFrame -/

theorem getD_drop_zero (l : List Nat) (i : Nat) : l.getD i 0 = (l.drop i).getD 0 0 := by
  induction l generalizing i with
  | nil => cases i <;> rfl
  | cons a t ih =>
    cases i with
    | zero => rfl
    | succ j => simpa using ih j

theorem readRotation_flatten (rot : List Nat) (h9 : rot.length = 9)
    (hlt : ∀ r ∈ rot, r < 4294967296) :
    readRotation ((rot.map u32LE).flatten) = rot := by
  rcases rot with _|⟨r0,_|⟨r1,_|⟨r2,_|⟨r3,_|⟨r4,_|⟨r5,_|⟨r6,_|⟨r7,_|⟨r8,rest⟩⟩⟩⟩⟩⟩⟩⟩⟩
  all_goals simp at h9
  subst h9
  have e0 : ((([r0,r1,r2,r3,r4,r5,r6,r7,r8].map u32LE).flatten)).take 4 = u32LE r0 := rfl
  have e1 : (((([r0,r1,r2,r3,r4,r5,r6,r7,r8].map u32LE).flatten)).drop 4).take 4 =
    u32LE r1 := rfl
  have e2 : (((([r0,r1,r2,r3,r4,r5,r6,r7,r8].map u32LE).flatten)).drop 8).take 4 =
    u32LE r2 := rfl
  have e3 : (((([r0,r1,r2,r3,r4,r5,r6,r7,r8].map u32LE).flatten)).drop 12).take 4 =
    u32LE r3 := rfl
  have e4 : (((([r0,r1,r2,r3,r4,r5,r6,r7,r8].map u32LE).flatten)).drop 16).take 4 =
    u32LE r4 := rfl
  have e5 : (((([r0,r1,r2,r3,r4,r5,r6,r7,r8].map u32LE).flatten)).drop 20).take 4 =
    u32LE r5 := rfl
  have e6 : (((([r0,r1,r2,r3,r4,r5,r6,r7,r8].map u32LE).flatten)).drop 24).take 4 =
    u32LE r6 := rfl
  have e7 : (((([r0,r1,r2,r3,r4,r5,r6,r7,r8].map u32LE).flatten)).drop 28).take 4 =
    u32LE r7 := rfl
  have e8 : (((([r0,r1,r2,r3,r4,r5,r6,r7,r8].map u32LE).flatten)).drop 32).take 4 =
    u32LE r8 := rfl
  unfold readRotation
  rw [e0, e1, e2, e3, e4, e5, e6, e7, e8,
    readU32LE_u32LE r0 (hlt r0 (by simp)), readU32LE_u32LE r1 (hlt r1 (by simp)),
    readU32LE_u32LE r2 (hlt r2 (by simp)), readU32LE_u32LE r3 (hlt r3 (by simp)),
    readU32LE_u32LE r4 (hlt r4 (by simp)), readU32LE_u32LE r5 (hlt r5 (by simp)),
    readU32LE_u32LE r6 (hlt r6 (by simp)), readU32LE_u32LE r7 (hlt r7 (by simp)),
    readU32LE_u32LE r8 (hlt r8 (by simp))]

theorem cframeScan_exit (b : List Nat) (fuel i n : Nat) (hle : ¬ b.length - i > n) :
    cframeScan b fuel i n = .ok ([], i) := by
  cases fuel with
  | zero => rfl
  | succ fu =>
    simp only [cframeScan]
    rw [if_neg hle]

theorem cframeScan_step_zero (b : List Nat) (fu i n : Nat)
    (hgt : b.length - i > n) (hsp : b.getD i 0 = 0) (h36 : ¬ b.length - (i + 1) < 36) :
    cframeScan b (fu + 1) i n =
      (do
        let (rest, j) ← cframeScan b fu (i + 1 + 36) (n + 12)
        pure ((0, readRotation ((b.drop (i + 1)).take 36)) :: rest, j)) := by
  simp only [cframeScan]
  rw [hsp, if_pos hgt, if_pos rfl, if_neg h36]

theorem cframeScan_step_pos (b : List Nat) (fu i n sp : Nat)
    (hgt : b.length - i > n) (hsp : b.getD i 0 = sp) (hne : ¬ sp = 0) :
    cframeScan b (fu + 1) i n =
      (do
        let (rest, j) ← cframeScan b fu (i + 1) (n + 12)
        pure ((sp, List.replicate 9 0) :: rest, j)) := by
  simp only [cframeScan]
  rw [hsp, if_pos hgt, if_neg hne]

theorem cframeScan_flatten (b P : List Nat) (N : Nat) (hP : P.length = 12 * N) :
    ∀ (vs : List Value) (fuel i n : Nat),
    vs.length ≤ fuel →
    n = 12 * (N - vs.length) →
    vs.length ≤ N →
    b.drop i = (vs.map cfMatrixBytes).flatten ++ P →
    (∀ v ∈ vs, ∃ sp rot p, v = .cframe sp rot p ∧ rot.length = 9 ∧
      (∀ r ∈ rot, r < 4294967296) ∧ (sp ≠ 0 → rot = List.replicate 9 0)) →
    cframeScan b fuel i n =
      .ok (vs.map (fun v => (cfSpecial v, cfRotation v)),
        i + ((vs.map cfMatrixBytes).flatten).length) := by
  intro vs
  induction vs with
  | nil =>
    intro fuel i n hfuel hn hN hdrop hshape
    have hlen : b.length - i = 12 * N := by
      have h := congrArg List.length hdrop
      rw [List.length_drop] at h
      simpa [hP] using h
    rw [cframeScan_exit b fuel i n (by simp at hn; omega)]
    simp
  | cons v rest ih =>
    intro fuel i n hfuel hn hN hdrop hshape
    rcases hshape v (List.mem_cons_self _ _) with ⟨sp, rot, p, rfl, h9, hrlt, hcn⟩
    cases fuel with
    | zero => simp at hfuel
    | succ fu =>
    by_cases hsp0 : sp = 0
    · subst hsp0
      have hmb : cfMatrixBytes (Value.cframe 0 rot p) = 0 :: (rot.map u32LE).flatten := rfl
      have h36 : ((rot.map u32LE).flatten).length = 36 := by
        rw [flatten_map_length rot u32LE 4 (fun r _ => by simp [u32LE]), h9]
      have hdropi : b.drop i = 0 :: ((rot.map u32LE).flatten ++
          ((rest.map cfMatrixBytes).flatten ++ P)) := by
        rw [hdrop, List.map_cons, List.flatten_cons, hmb]
        simp only [List.cons_append, List.append_assoc]
      have hli : b.length - i = 37 + (((rest.map cfMatrixBytes).flatten).length + 12 * N) := by
        have h := congrArg List.length hdropi
        rw [List.length_drop] at h
        simp only [List.length_cons, List.length_append, h36, hP] at h
        omega
      have hgt : b.length - i > n := by
        simp only [List.length_cons] at hn
        omega
      have hspl : b.getD i 0 = 0 := by
        rw [getD_drop_zero, hdropi]
        rfl
      have h36c : ¬ b.length - (i + 1) < 36 := by omega
      rw [cframeScan_step_zero b fu i n hgt hspl h36c]
      have hdrop1 : b.drop (i + 1) = (rot.map u32LE).flatten ++
          ((rest.map cfMatrixBytes).flatten ++ P) := by
        have h : b.drop (i + 1) = (b.drop i).drop 1 := by
          rw [List.drop_drop]
        rw [h, hdropi]
        rfl
      have htake36 : (b.drop (i + 1)).take 36 = (rot.map u32LE).flatten := by
        rw [hdrop1]
        exact take_len_append _ _ _ h36
      have hdrop37 : b.drop (i + 1 + 36) = (rest.map cfMatrixBytes).flatten ++ P := by
        have h : b.drop (i + 1 + 36) = (b.drop (i + 1)).drop 36 := by
          rw [List.drop_drop]
        rw [h, hdrop1]
        exact drop_len_append _ _ _ h36
      rw [htake36, readRotation_flatten rot h9 hrlt]
      rw [ih fu (i + 1 + 36) (n + 12)
        (by simp only [List.length_cons] at hfuel; omega)
        (by simp only [List.length_cons] at hn hN; omega)
        (by simp only [List.length_cons] at hN; omega)
        hdrop37 (fun y hy => hshape y (List.mem_cons_of_mem _ hy))]
      have hL : (((Value.cframe 0 rot p :: rest).map cfMatrixBytes).flatten).length =
          37 + ((rest.map cfMatrixBytes).flatten).length := by
        rw [List.map_cons, List.flatten_cons, List.length_append, hmb, List.length_cons, h36]
      have hidx : i + (((Value.cframe 0 rot p :: rest).map cfMatrixBytes).flatten).length =
          i + 1 + 36 + ((rest.map cfMatrixBytes).flatten).length := by
        rw [hL]
        omega
      rw [hidx]
      rfl
    · have hrot : rot = List.replicate 9 0 := hcn hsp0
      subst hrot
      have hmb : cfMatrixBytes (Value.cframe sp (List.replicate 9 0) p) = [sp] := by
        show (if sp = 0 then 0 :: (((List.replicate 9 0).map u32LE)).flatten else [sp]) = [sp]
        rw [if_neg hsp0]
      have hdropi : b.drop i = sp :: ((rest.map cfMatrixBytes).flatten ++ P) := by
        rw [hdrop, List.map_cons, List.flatten_cons, hmb]
        rfl
      have hli : b.length - i = 1 + (((rest.map cfMatrixBytes).flatten).length + 12 * N) := by
        have h := congrArg List.length hdropi
        rw [List.length_drop] at h
        simp only [List.length_cons, List.length_append, hP] at h
        omega
      have hgt : b.length - i > n := by
        simp only [List.length_cons] at hn
        omega
      have hspl : b.getD i 0 = sp := by
        rw [getD_drop_zero, hdropi]
        rfl
      rw [cframeScan_step_pos b fu i n sp hgt hspl hsp0]
      have hdrop1 : b.drop (i + 1) = (rest.map cfMatrixBytes).flatten ++ P := by
        have h : b.drop (i + 1) = (b.drop i).drop 1 := by
          rw [List.drop_drop]
        rw [h, hdropi]
        rfl
      rw [ih fu (i + 1) (n + 12)
        (by simp only [List.length_cons] at hfuel; omega)
        (by simp only [List.length_cons] at hn hN; omega)
        (by simp only [List.length_cons] at hN; omega)
        hdrop1 (fun y hy => hshape y (List.mem_cons_of_mem _ hy))]
      have hL : (((Value.cframe sp (List.replicate 9 0) p :: rest).map cfMatrixBytes).flatten).length =
          1 + ((rest.map cfMatrixBytes).flatten).length := by
        rw [List.map_cons, List.flatten_cons, List.length_append, hmb, List.length_cons,
          List.length_nil]
      have hidx : i + (((Value.cframe sp (List.replicate 9 0) p :: rest).map
          cfMatrixBytes).flatten).length =
          i + 1 + ((rest.map cfMatrixBytes).flatten).length := by
        rw [hL]
        omega
      rw [hidx]
      rfl

theorem rt_cframe (xs : List Value) (hty : ∀ v ∈ xs, ty v = typeCFrame)
    (hwf : ∀ v ∈ xs, wf v) (hcanon : ∀ v ∈ xs, canon v) (hne : xs.length ≠ 0) :
    (valuesToBytes typeCFrame xs).bind
      (fun b => (valuesFromBytes typeCFrame b).map Prod.fst) = .ok xs := by
  have hany : (xs.any fun v => ty v != typeCFrame) = false := by
    rw [List.any_eq_false]
    intro v hv
    simp [hty v hv]
  set ps := xs.map cfPosition with hps
  have hpslen : ps.length = xs.length := by rw [hps, List.length_map]
  have hptys : ∀ v ∈ ps, ty v = typeVector3 := by
    intro v hv
    rw [hps] at hv
    obtain ⟨w, hw, rfl⟩ := List.mem_map.mp hv
    obtain ⟨sp, rot, p, rfl⟩ := ty_inv_cframe w (hty w hw)
    rfl
  have hget : ∀ v ∈ ps, ∀ (f2 : Nat) (hf : f2 < (fieldLens typeVector3).length),
      (fieldGet v f2).length = (fieldLens typeVector3)[f2] := by
    intro v hv f2 hf
    obtain ⟨x, y, z, rfl⟩ := ty_inv_vector3 v (hptys v hv)
    have hf2 : f2 < 3 := hf
    interval_cases f2 <;> rfl
  have hrebuild : ∀ v ∈ ps, valueFromFields typeVector3
      ((List.range (fieldLens typeVector3).length).map (fun f2 => fieldGet v f2)) = v := by
    intro v hv
    rw [hps] at hv
    obtain ⟨w, hw, rfl⟩ := List.mem_map.mp hv
    obtain ⟨sp, rot, p, rfl⟩ := ty_inv_cframe w (hty w hw)
    have hw2 := hwf _ hw
    simp only [wf] at hw2
    exact rebuild_vector3 p.x p.y p.z hw2.2.2.2.1 hw2.2.2.2.2.1 hw2.2.2.2.2.2
  obtain ⟨B, hB1, hB2, hB3⟩ := fielder_roundtrip typeVector3 ps (by decide)
    (by rw [hpslen]; exact hne) hptys hget hrebuild (by decide) (by decide)
  set M := (xs.map cfMatrixBytes).flatten with hM
  have henc : valuesToBytes typeCFrame xs = .ok (M ++ B) := by
    unfold valuesToBytes
    rw [if_neg (by decide), if_neg (by rw [hany]; simp)]
    show Except.ok ((xs.map cfMatrixBytes).flatten ++
      (match interleaveFields typeVector3 (xs.map cfPosition) with
       | .ok pb => pb
       | .error _ => [])) = Except.ok (M ++ B)
    rw [← hps, hB1, hM]
  rw [henc, bind_ok]
  have hBlen : B.length = 12 * xs.length := by
    rw [hB3, hpslen]
    rfl
  have hshape : ∀ v ∈ xs, ∃ sp rot p, v = .cframe sp rot p ∧ rot.length = 9 ∧
      (∀ r ∈ rot, r < 4294967296) ∧ (sp ≠ 0 → rot = List.replicate 9 0) := by
    intro v hv
    obtain ⟨sp, rot, p, rfl⟩ := ty_inv_cframe v (hty v hv)
    have hw := hwf _ hv
    simp only [wf] at hw
    have hc := hcanon _ hv
    simp only [canon] at hc
    exact ⟨sp, rot, p, rfl, hw.2.1, hw.2.2.1, hc⟩
  have happ := cframeScan_flatten (M ++ B) B xs.length hBlen xs ((M ++ B).length) 0 0
    (by rw [List.length_append, hBlen]; omega)
    (by simp)
    (le_refl _)
    (by rw [hM, List.drop_zero])
    hshape
  have hdec1 : valuesFromBytes typeCFrame (M ++ B) =
      (match cframeScan (M ++ B) (M ++ B).length 0 0 with
       | .error e => .error e
       | .ok (ms, i) =>
         match deinterleaveFields typeVector3 ((M ++ B).drop i) with
         | .error e => .error e
         | .ok (ps2, post) =>
           if ps2.length ≠ ms.length then
             Except.error (Err.msg "number of positions does not match number of matrices")
           else .ok ((List.zip ms ps2).map (fun mp =>
             match mp.2 with
             | .vector3 x y z => Value.cframe mp.1.1 mp.1.2 (Vec3.mk x y z)
             | _ => mp.2), (M ++ B).take i ++ post)) := rfl
  have hdropM : (M ++ B).drop (0 + ((xs.map cfMatrixBytes).flatten).length) = B :=
    drop_len_append M B _ (by rw [hM]; omega)
  have hstep2 : valuesFromBytes typeCFrame (M ++ B) =
      (match deinterleaveFields typeVector3
          ((M ++ B).drop (0 + ((xs.map cfMatrixBytes).flatten).length)) with
       | .error e => .error e
       | .ok (ps2, post) =>
         if ps2.length ≠ (xs.map (fun v => (cfSpecial v, cfRotation v))).length then
           Except.error (Err.msg "number of positions does not match number of matrices")
         else .ok ((List.zip (xs.map (fun v => (cfSpecial v, cfRotation v))) ps2).map (fun mp =>
           match mp.2 with
           | .vector3 x y z => Value.cframe mp.1.1 mp.1.2 (Vec3.mk x y z)
           | _ => mp.2),
           (M ++ B).take (0 + ((xs.map cfMatrixBytes).flatten).length) ++ post)) := by
    rw [hdec1, happ]
  rw [hstep2, hdropM, hB2]
  show (if ps.length ≠ (xs.map (fun v => (cfSpecial v, cfRotation v))).length then
      Except.error (Err.msg "number of positions does not match number of matrices")
    else Except.ok ((List.zip (xs.map (fun v => (cfSpecial v, cfRotation v))) ps).map (fun mp =>
      match mp.2 with
      | .vector3 x y z => Value.cframe mp.1.1 mp.1.2 (Vec3.mk x y z)
      | _ => mp.2),
      (M ++ B).take (0 + ((xs.map cfMatrixBytes).flatten).length) ++
        (buildCols ps (fieldLens typeVector3).length).flatten)).map Prod.fst = Except.ok xs
  rw [if_neg (by rw [hpslen, List.length_map]; exact fun h => h rfl), map_ok]
  have hzip : (List.zip (xs.map (fun v => (cfSpecial v, cfRotation v))) ps).map (fun mp =>
      match mp.2 with
      | .vector3 x y z => Value.cframe mp.1.1 mp.1.2 (Vec3.mk x y z)
      | _ => mp.2) = xs := by
    rw [hps, List.zip_map', List.map_map]
    have hid : ∀ v ∈ xs, (((fun mp =>
        match mp.2 with
        | .vector3 x y z => Value.cframe mp.1.1 mp.1.2 (Vec3.mk x y z)
        | _ => mp.2) : (Nat × List Nat) × Value → Value) ∘
        (fun v => ((cfSpecial v, cfRotation v), cfPosition v))) v = v := by
      intro v hv
      obtain ⟨sp, rot, p, rfl⟩ := ty_inv_cframe v (hty v hv)
      rfl
    rw [List.map_congr_left hid]
    exact List.map_id' xs
  rw [hzip]

/-! ## Helper for the frame-effect analysis of valuesFromBytes -/

theorem map_pair_post (x : Except Err (List Value)) (b : List Nat) (vs : List Value)
    (post : List Nat) (h : x.map (fun a => (a, b)) = .ok (vs, post)) : post = b := by
  cases x with
  | error e => exact Except.noConfusion h
  | ok a =>
    have h2 : (Except.ok (a, b) : Except Err (List Value × List Nat)) = .ok (vs, post) := h
    exact (congrArg Prod.snd (Except.ok.inj h2)).symm

/-! ## The claims -/

/-- Claim C1 (amended): for every supported kind T (excluding Vector2int16)
and every array xs of well-formed canonical values of kind T,
ValuesFromBytes(T, ValuesToBytes(T, xs)) returns xs without error, provided
that xs is nonempty when T is one of the stride-interleaved scalar kinds
Int, Float, BrickColor, Token, SharedString, Int64 (for those kinds the
decode of the empty byte sequence fails, because deinterleave of an empty
buffer calls interleave with length 0, which is rejected). -/
theorem claim_C1 (t : Nat) (xs : List Value)
    (hvalid : validType t = true) (hnv : t ≠ typeVector2int16)
    (hty : ∀ v ∈ xs, ty v = t) (hwf : ∀ v ∈ xs, wf v) (hcanon : ∀ v ∈ xs, canon v)
    (hemp : xs = [] → t ≠ typeInt ∧ t ≠ typeFloat ∧ t ≠ typeBrickColor ∧
      t ≠ typeToken ∧ t ≠ typeSharedString ∧ t ≠ typeInt64) :
    (valuesToBytes t xs).bind (fun b => (valuesFromBytes t b).map Prod.fst) = .ok xs := by
  simp only [validType, Bool.and_eq_true, decide_eq_true_eq] at hvalid
  obtain ⟨⟨h1, h2⟩, h3⟩ := hvalid
  interval_cases t
  · exact rt_str xs hty hwf
  · exact rt_bool xs hty hwf
  · by_cases hx : xs = []
    · exact absurd rfl (hemp hx).1
    · exact rt_int xs hty hwf hx
  · by_cases hx : xs = []
    · exact absurd rfl (hemp hx).2.1
    · exact rt_float xs hty hwf hx
  · exact rt_double xs hty hwf
  · exact rt_udim xs hty hwf
  · exact rt_udim2 xs hty hwf
  · exact rt_ray xs hty hwf
  · exact rt_faces xs hty hwf
  · exact rt_axes xs hty hwf
  · by_cases hx : xs = []
    · exact absurd rfl (hemp hx).2.2.1
    · exact rt_brickColor xs hty hwf hx
  · exact rt_color3 xs hty hwf
  · exact rt_vector2 xs hty hwf
  · exact rt_vector3 xs hty hwf
  · exact absurd rfl hnv
  · by_cases hx : xs = []
    · subst hx
      rfl
    · exact rt_cframe xs hty hwf hcanon (fun h => hx (List.eq_nil_of_length_eq_zero h))
  · exact absurd rfl h3
  · by_cases hx : xs = []
    · exact absurd rfl (hemp hx).2.2.2.1
    · exact rt_token xs hty hwf hx
  · exact rt_reference xs hty hwf
  · exact rt_vector3int16 xs hty hwf
  · exact rt_numberSequence xs hty hwf
  · exact rt_colorSequence xs hty hwf
  · exact rt_numberRange xs hty hwf
  · exact rt_rect2d xs hty hwf
  · exact rt_physicalProperties xs hty hwf hcanon
  · exact rt_color3uint8 xs hty hwf
  · by_cases hx : xs = []
    · exact absurd rfl (hemp hx).2.2.2.2.2
    · exact rt_int64 xs hty hwf hx
  · by_cases hx : xs = []
    · exact absurd rfl (hemp hx).2.2.2.2.1
    · exact rt_sharedString xs hty hwf hx

/-- Witness for C1 at the concrete input [Int 5]. -/
theorem claim_C1_witness :
    (valuesToBytes typeInt [Value.int 5]).bind
      (fun b => (valuesFromBytes typeInt b).map Prod.fst) = .ok [Value.int 5] :=
  claim_C1 typeInt [Value.int 5] (by decide) (by decide)
    (fun v hv => by simp at hv; subst hv; rfl)
    (fun v hv => by simp at hv; subst hv; exact ⟨by decide, by decide⟩)
    (fun v hv => by simp at hv; subst hv; trivial)
    (fun h => absurd h (by simp))

/-- Counterexample to C1 as stated: for the stride-interleaved kind Int the
decode of the empty byte sequence is an error, not the empty array. -/
theorem claim_C1_counterexample :
    valuesFromBytes typeInt [] = .error (.msg "length must be greater than 0") := rfl

/-- Claim C2 (code bug): PhysicalProperties.FromBytes has its two length
checks swapped (it demands 21 bytes when CustomPhysics is zero and 1 byte
when it is nonzero), so decoding the bytes produced by encoding a
PhysicalProperties value always fails, in both the CustomPhysics = 0 and
the CustomPhysics != 0 case; the claimed single-value round trip cannot
hold for this kind. -/
theorem claim_C2 :
    physicalPropertiesFromBytes (bytesOf (.physicalProperties 0 0 0 0 0 0)) =
      .error (.msg "array length must be 21") ∧
    physicalPropertiesFromBytes (bytesOf (.physicalProperties 7 1 2 3 4 5)) =
      .error (.msg "array length must be 1") := ⟨rfl, rfl⟩

/-- Claim C3 (amended): ValuesFromBytes leaves the contents of the input
buffer unchanged for every kind that is not one of the field-split kinds
(UDim, UDim2, Color3, Vector2, Vector3, Rect2D, Color3uint8) and not
CFrame; for those excluded kinds deinterleaveFields deinterleaves column
slices of the caller's buffer in place, mutating it. -/
theorem claim_C3 (t : Nat) (b : List Nat) (vs : List Value) (post : List Nat)
    (hnf : t ≠ typeUDim ∧ t ≠ typeUDim2 ∧ t ≠ typeColor3 ∧ t ≠ typeVector2 ∧
      t ≠ typeVector3 ∧ t ≠ typeRect2D ∧ t ≠ typeColor3uint8 ∧ t ≠ typeCFrame)
    (h : valuesFromBytes t b = .ok (vs, post)) : post = b := by
  by_cases hv : validType t = true
  · simp only [validType, Bool.and_eq_true, decide_eq_true_eq] at hv
    obtain ⟨⟨h1, h2⟩, h3⟩ := hv
    interval_cases t
    · have h2 : (appendVar typeString 1 b).map (fun a => (a, b)) = .ok (vs, post) := h
      exact map_pair_post _ _ _ _ h2
    · have h2 : (appendFixed typeBool 1 b).map (fun a => (a, b)) = .ok (vs, post) := h
      exact map_pair_post _ _ _ _ h2
    · have h2 : (match deinterleave b 4 with
          | .error e => (Except.error e : Except Err (List Value × List Nat))
          | .ok bc => (appendFixed typeInt 4 bc).map (fun a => (a, b))) = .ok (vs, post) := h
      cases hd : deinterleave b 4 with
      | error e => rw [hd] at h2; exact Except.noConfusion h2
      | ok bc => rw [hd] at h2; exact map_pair_post _ _ _ _ h2
    · have h2 : (match deinterleave b 4 with
          | .error e => (Except.error e : Except Err (List Value × List Nat))
          | .ok bc => (appendFixed typeFloat 4 bc).map (fun a => (a, b))) = .ok (vs, post) := h
      cases hd : deinterleave b 4 with
      | error e => rw [hd] at h2; exact Except.noConfusion h2
      | ok bc => rw [hd] at h2; exact map_pair_post _ _ _ _ h2
    · have h2 : (appendFixed typeDouble 8 b).map (fun a => (a, b)) = .ok (vs, post) := h
      exact map_pair_post _ _ _ _ h2
    · exact absurd rfl hnf.1
    · exact absurd rfl hnf.2.1
    · have h2 : (appendFixed typeRay 24 b).map (fun a => (a, b)) = .ok (vs, post) := h
      exact map_pair_post _ _ _ _ h2
    · have h2 : (appendFixed typeFaces 1 b).map (fun a => (a, b)) = .ok (vs, post) := h
      exact map_pair_post _ _ _ _ h2
    · have h2 : (appendFixed typeAxes 1 b).map (fun a => (a, b)) = .ok (vs, post) := h
      exact map_pair_post _ _ _ _ h2
    · have h2 : (match deinterleave b 4 with
          | .error e => (Except.error e : Except Err (List Value × List Nat))
          | .ok bc => (appendFixed typeBrickColor 4 bc).map (fun a => (a, b))) =
          .ok (vs, post) := h
      cases hd : deinterleave b 4 with
      | error e => rw [hd] at h2; exact Except.noConfusion h2
      | ok bc => rw [hd] at h2; exact map_pair_post _ _ _ _ h2
    · exact absurd rfl hnf.2.2.1
    · exact absurd rfl hnf.2.2.2.1
    · exact absurd rfl hnf.2.2.2.2.1
    · exact Except.noConfusion h
    · exact absurd rfl hnf.2.2.2.2.2.2.2
    · exact absurd rfl h3
    · have h2 : (match deinterleave b 4 with
          | .error e => (Except.error e : Except Err (List Value × List Nat))
          | .ok bc => (appendFixed typeToken 4 bc).map (fun a => (a, b))) = .ok (vs, post) := h
      cases hd : deinterleave b 4 with
      | error e => rw [hd] at h2; exact Except.noConfusion h2
      | ok bc => rw [hd] at h2; exact map_pair_post _ _ _ _ h2
    · have h2 : (if b.length = 0 then (Except.ok ([], b) : Except Err (List Value × List Nat))
          else if b.length % 4 ≠ 0 then .error (.msg "array must be divisible by 4")
          else match deinterleave b 4 with
            | .error e => .error e
            | .ok bc => .ok ((refDecode (refReadDeltas bc.length bc)).map
               (fun n => Value.reference n), b)) = .ok (vs, post) := h
      by_cases hz : b.length = 0
      · rw [if_pos hz] at h2
        exact (congrArg Prod.snd (Except.ok.inj h2)).symm
      · rw [if_neg hz] at h2
        by_cases h4 : b.length % 4 ≠ 0
        · rw [if_pos h4] at h2
          exact Except.noConfusion h2
        · rw [if_neg h4] at h2
          cases hd : deinterleave b 4 with
          | error e => rw [hd] at h2; exact Except.noConfusion h2
          | ok bc =>
            rw [hd] at h2
            exact (congrArg Prod.snd (Except.ok.inj h2)).symm
    · have h2 : (appendFixed typeVector3int16 6 b).map (fun a => (a, b)) = .ok (vs, post) := h
      exact map_pair_post _ _ _ _ h2
    · have h2 : (appendVar typeNumberSequence 12 b).map (fun a => (a, b)) = .ok (vs, post) := h
      exact map_pair_post _ _ _ _ h2
    · have h2 : (appendVar typeColorSequence 20 b).map (fun a => (a, b)) = .ok (vs, post) := h
      exact map_pair_post _ _ _ _ h2
    · have h2 : (appendFixed typeNumberRange 8 b).map (fun a => (a, b)) = .ok (vs, post) := h
      exact map_pair_post _ _ _ _ h2
    · exact absurd rfl hnf.2.2.2.2.2.1
    · have h2 : (ppScan b.length b).map (fun a => (a, b)) = .ok (vs, post) := h
      exact map_pair_post _ _ _ _ h2
    · exact absurd rfl hnf.2.2.2.2.2.2.1
    · have h2 : (match deinterleave b 8 with
          | .error e => (Except.error e : Except Err (List Value × List Nat))
          | .ok bc => (appendFixed typeInt64 8 bc).map (fun a => (a, b))) = .ok (vs, post) := h
      cases hd : deinterleave b 8 with
      | error e => rw [hd] at h2; exact Except.noConfusion h2
      | ok bc => rw [hd] at h2; exact map_pair_post _ _ _ _ h2
    · have h2 : (match deinterleave b 4 with
          | .error e => (Except.error e : Except Err (List Value × List Nat))
          | .ok bc => (appendFixed typeSharedString 4 bc).map (fun a => (a, b))) =
          .ok (vs, post) := h
      cases hd : deinterleave b 4 with
      | error e => rw [hd] at h2; exact Except.noConfusion h2
      | ok bc => rw [hd] at h2; exact map_pair_post _ _ _ _ h2
  · exfalso
    unfold valuesFromBytes at h
    rw [if_pos hv] at h
    exact Except.noConfusion h

/-- Witness for C3 at the concrete input (Bool, [1]). -/
theorem claim_C3_witness :
    valuesFromBytes typeBool [1] = .ok ([Value.bool true], [1]) ∧ ([1] : List Nat) = [1] :=
  ⟨rfl, claim_C3 typeBool [1] [Value.bool true] [1] (by decide) rfl⟩

/-- Counterexample to C3 as stated: decoding a UDim array from the 16-byte
buffer 0,1,...,15 returns the buffer with its contents permuted in place by
the column deinterleave, not the original contents. -/
theorem claim_C3_counterexample :
    (valuesFromBytes typeUDim (List.range 16)).map Prod.snd =
      .ok [0, 2, 4, 6, 1, 3, 5, 7, 8, 10, 12, 14, 9, 11, 13, 15] ∧
    decide (([0, 2, 4, 6, 1, 3, 5, 7, 8, 10, 12, 14, 9, 11, 13, 15] : List Nat) =
      List.range 16) = false := ⟨rfl, by decide⟩

/-- Claim C4 (code bug): the decoders read the first byte before any length
check, so FromBytes on CFrame and on PhysicalProperties applied to the
empty buffer is an out-of-range index (a runtime panic in the source), not
a returned error value. -/
theorem claim_C4 :
    cframeFromBytes [] = .error (.panicked "index out of range") ∧
    physicalPropertiesFromBytes [] = .error (.panicked "index out of range") := ⟨rfl, rfl⟩

/-- Claim C5 (amended): for every nonempty buffer and every stride that is
positive and divides the buffer length, deinterleave after interleave is
the identity, and interleave is an involution in the square case; for the
empty buffer the composition fails instead, because deinterleave calls
interleave with length 0. -/
theorem claim_C5 (b : List Nat) (s : Nat) (h0 : s ≠ 0) (h1 : b.length % s = 0)
    (h2 : b ≠ []) :
    (interleave b s).bind (fun x => deinterleave x s) = .ok b ∧
    (s = b.length / s → (interleave b s).bind (fun x => interleave x s) = .ok b) :=
  ⟨interleave_then_deinterleave b s h0 h1 h2,
   fun hsq => interleave_involution b s h0 h1 hsq⟩

/-- Witness for C5 at the concrete input ([1,2,3,4], 2). -/
theorem claim_C5_witness :
    (interleave [1, 2, 3, 4] 2).bind (fun x => deinterleave x 2) = .ok [1, 2, 3, 4] ∧
    (2 = ([1, 2, 3, 4] : List Nat).length / 2 →
      (interleave [1, 2, 3, 4] 2).bind (fun x => interleave x 2) = .ok [1, 2, 3, 4]) :=
  claim_C5 [1, 2, 3, 4] 2 (by decide) (by decide) (by decide)

/-- Counterexample to C5 as stated: the empty buffer with stride 1 satisfies
the stated precondition (stride positive and dividing the length), yet the
round trip errors out. -/
theorem claim_C5_counterexample :
    (interleave ([] : List Nat) 1).bind (fun x => deinterleave x 1) =
      .error (.msg "length must be greater than 0") := rfl

/-- Claim C6 (amended): for the field-split kinds the divisibility check
does hold - decoding a Vector3 array from a nonempty buffer whose length is
not a multiple of 12 fails with the divisibility error; but for the plain
fixed-size kinds the decode loop silently drops a trailing remainder
instead of failing. -/
theorem claim_C6 (b : List Nat) (h0 : b.length ≠ 0) (h12 : b.length % 12 ≠ 0) :
    valuesFromBytes typeVector3 b =
      .error (.msg "length of array is not divisible by value byte size") := by
  show deinterleaveFields typeVector3 b = _
  simp only [deinterleaveFields]
  have h12b : b.length % (fieldLens typeVector3).sum ≠ 0 := h12
  rw [if_neg h0, if_neg (by decide), if_neg (by decide), if_pos h12b]

/-- Witness for C6 at a 13-byte buffer. -/
theorem claim_C6_witness :
    valuesFromBytes typeVector3 (List.replicate 13 0) =
      .error (.msg "length of array is not divisible by value byte size") :=
  claim_C6 (List.replicate 13 0) (by decide) (by decide)

/-- Counterexample to C6 as stated: Double is a fixed-size kind with
per-value size 8, yet decoding a 9-byte buffer does not fail - it returns
the one value that fits and silently ignores the trailing byte. -/
theorem claim_C6_counterexample :
    valuesFromBytes typeDouble (List.replicate 9 0) =
      .ok ([Value.double 0], List.replicate 9 0) := rfl

/-- Claim C7 (amended): encoding [Reference(10), Reference(12),
Reference(9)] zigzag-encodes the deltas 10, 2, -3 to 20, 4, 5, concatenates
their big-endian bytes and interleaves with stride 4, producing the 12-byte
blob 00 00 00 00 00 00 00 00 00 14 04 05 (nine zero bytes, not the eleven
of the spec's 14-byte blob), and decoding that blob reproduces the values. -/
theorem claim_C7 :
    valuesToBytes typeReference [.reference 10, .reference 12, .reference 9] =
      .ok [0, 0, 0, 0, 0, 0, 0, 0, 0, 20, 4, 5] ∧
    (valuesFromBytes typeReference [0, 0, 0, 0, 0, 0, 0, 0, 0, 20, 4, 5]).map Prod.fst =
      .ok [.reference 10, .reference 12, .reference 9] := ⟨rfl, rfl⟩

/-- Counterexample to C7 as stated: the encoder's actual output is the
12-byte blob, which differs from the 14-byte blob claimed by the spec. -/
theorem claim_C7_counterexample :
    valuesToBytes typeReference [.reference 10, .reference 12, .reference 9] =
      .ok [0, 0, 0, 0, 0, 0, 0, 0, 0, 20, 4, 5] ∧
    decide (([0, 0, 0, 0, 0, 0, 0, 0, 0, 20, 4, 5] : List Nat) =
      [0, 0, 0, 0, 0, 0, 0, 0, 0, 0, 0, 20, 4, 5]) = false := ⟨rfl, by decide⟩

/-- Claim C8: encoding the single-element CFrame array with Special = 2 and
position (1.0, 2.0, 3.0) yields exactly 13 bytes - the matrix-region byte
02 followed by the 12-byte interleaved Vector3 position region - and
decoding them yields one CFrame with Special 2, zero rotation, and the
original position. -/
theorem claim_C8 :
    valuesToBytes typeCFrame
        [Value.cframe 2 (List.replicate 9 0) (Vec3.mk 0x3F800000 0x40000000 0x40400000)] =
      .ok [2, 127, 0, 0, 0, 128, 0, 0, 0, 128, 128, 0, 0] ∧
    ([2, 127, 0, 0, 0, 128, 0, 0, 0, 128, 128, 0, 0] : List Nat).length = 13 ∧
    (valuesFromBytes typeCFrame [2, 127, 0, 0, 0, 128, 0, 0, 0, 128, 128, 0, 0]).map
        Prod.fst =
      .ok [Value.cframe 2 (List.replicate 9 0)
        (Vec3.mk 0x3F800000 0x40000000 0x40400000)] := ⟨rfl, rfl, rfl⟩

/-- Claim C9: for every f32 bit pattern below 2^32, decoding after encoding
the Roblox float is the identity (stated under the non-NaN side condition
of the spec, though the bit rotation needs no such restriction), and the
encoding preserves the population count of the bits. -/
theorem claim_C9 (x : Nat) (h : x < 4294967296) :
    (isNaN32 x = false → decodeRobloxFloat (encodeRobloxFloat x) = x) ∧
    popCount (encodeRobloxFloat x) = popCount x :=
  ⟨fun _ => decode_encode_robloxFloat x h, popCount_encodeRobloxFloat x h⟩

/-- Witness for C9 at the bit pattern of 1.0f. -/
theorem claim_C9_witness :
    (isNaN32 1065353216 = false →
      decodeRobloxFloat (encodeRobloxFloat 1065353216) = 1065353216) ∧
    popCount (encodeRobloxFloat 1065353216) = popCount 1065353216 :=
  claim_C9 1065353216 (by decide)

/-- Claim C10: on a buffer of length n * n the square in-place swap branch
of interleave computes exactly the rectangular scratch-buffer transpose,
and both realize the index map sending position c * n + r of the output to
position r * n + c of the input. -/
theorem claim_C10 (n : Nat) (b : List Nat) (hb : b.length = n * n) :
    applySwaps (swapsOf n) b = transpose n n b ∧
    ∀ r c, r < n → c < n →
      (applySwaps (swapsOf n) b).getD (c * n + r) 0 = b.getD (r * n + c) 0 := by
  refine ⟨applySwaps_swapsOf_eq_transpose n b hb, fun r c hr hc => ?_⟩
  have hlt : c * n + r < n * n := by
    calc c * n + r < c * n + n := by omega
    _ = (c + 1) * n := by ring
    _ ≤ n * n := Nat.mul_le_mul_right n hc
  rw [applySwaps_swapsOf_eq_transpose n b hb, getD_eq_dite]
  rw [dif_pos (by rw [length_transpose]; exact hlt)]
  rw [getElem_transpose]
  have hmod : (c * n + r) % n = r := by
    rw [Nat.mul_comm c n, Nat.mul_add_mod, Nat.mod_eq_of_lt hr]
  have hdiv : (c * n + r) / n = c := by
    rw [Nat.mul_comm c n, Nat.mul_add_div (by omega : 0 < n), Nat.div_eq_of_lt hr]
    omega
  rw [hmod, hdiv]

/-- Witness for C10 at n = 2 and the buffer [1,2,3,4]. -/
theorem claim_C10_witness :
    applySwaps (swapsOf 2) [1, 2, 3, 4] = transpose 2 2 [1, 2, 3, 4] ∧
    (applySwaps (swapsOf 2) [1, 2, 3, 4]).getD (1 * 2 + 0) 0 =
      ([1, 2, 3, 4] : List Nat).getD (0 * 2 + 1) 0 :=
  ⟨(claim_C10 2 [1, 2, 3, 4] (by decide)).1,
   (claim_C10 2 [1, 2, 3, 4] (by decide)).2 0 1 (by decide) (by decide)⟩

end Rbxl
